import Mathlib

/-!
# Knowledge-graph validation scripts

A shallow embedding of `src/validation/scripts/conflict-detection.js` and
`src/validation/scripts/entity-consistency.js`, with the properties of their
conflict rules and property checks.

JavaScript values are embedded as follows.

* A plain object used as a dictionary is the list of its own properties in
  insertion order. `Object.entries` lists array-index keys first, in ascending
  numeric order, and the other keys in insertion order (`objectEntries`).
* An object literal inherits the members of `Object.prototype`; reading such a
  key yields the inherited member, which is truthy, also when the object has no
  own property of that name (`objectPrototypeKeys`).
* A record field that may be missing is an `Option String`; `undefined` and the
  empty string are falsy (`truthy`).
* `new Set(xs)` keeps the first occurrence of every value, in order (`newSet`).
* A function that can throw returns an `Option`; `none` is the thrown
  `TypeError`.
-/

namespace KnowledgeExtraction

/-! ## JavaScript objects as dictionaries -/

/-- Member names of `Object.prototype`. For an object literal `obj` and one of
these keys `k`, `obj[k]` is the inherited member (a function, or the prototype
itself for `__proto__`), which is truthy and has no `push` method. -/
def objectPrototypeKeys : List String :=
  ["constructor", "__defineGetter__", "__defineSetter__", "hasOwnProperty",
   "__lookupGetter__", "__lookupSetter__", "isPrototypeOf", "propertyIsEnumerable",
   "toString", "valueOf", "__proto__", "toLocaleString"]

/-- Truthiness of an optional string: `truthy v = some s` when `v` is the
non-empty string `s`; `undefined` and `""` are falsy. -/
def truthy : Option String → Option String
  | some s => if s = "" then none else some s
  | none => none

/-- Value of a list of decimal digits. -/
def digitsValue (cs : List Char) : Nat :=
  cs.foldl (fun n c => 10 * n + (c.toNat - 48)) 0

/-- The array index a property key denotes, if any: a canonical decimal numeral
(no leading zero) below `2^32 - 1`. -/
def arrayIndex? (k : String) : Option Nat :=
  if k.data ≠ [] ∧ k.data.all Char.isDigit = true
      ∧ (k.data.head? ≠ some '0' ∨ k.data.length = 1)
      ∧ digitsValue k.data < 2 ^ 32 - 1 then
    some (digitsValue k.data)
  else none

/-- The order of `Object.entries(obj)`: array-index keys ascending, then the
remaining keys in insertion order. -/
def objectEntries {β : Type} (obj : List (String × β)) : List (String × β) :=
  (obj.filter (fun e => (arrayIndex? e.1).isSome)).insertionSort
      (fun a b => (arrayIndex? a.1).getD 0 ≤ (arrayIndex? b.1).getD 0)
    ++ obj.filter (fun e => !(arrayIndex? e.1).isSome)

/-- The iteration order of `new Set(xs)`: every value once, at its first occurrence. -/
def newSet {α : Type} [DecidableEq α] (xs : List α) : List α :=
  xs.foldl (fun acc x => if x ∈ acc then acc else acc ++ [x]) []

/-- Whether `obj` has an own property `k`. -/
def hasOwn {β : Type} (obj : List (String × β)) (k : String) : Bool :=
  obj.any (fun e => e.1 == k)

/-- The grouping idiom `if (!obj[k]) { obj[k] = []; } obj[k].push(x)`.
An own property holds an array, which is truthy: `x` is appended to it. Without
an own property, an inherited member is truthy as well, so no array is created
and `.push` is not a function: a `TypeError` is thrown (`none`). Otherwise a new
array is created at the end of the object and receives `x`. -/
def groupPush {α : Type} (obj : List (String × List α)) (k : String) (x : α) :
    Option (List (String × List α)) :=
  if hasOwn obj k then
    some (obj.map (fun e => if e.1 = k then (e.1, e.2 ++ [x]) else e))
  else if k ∈ objectPrototypeKeys then none
  else some (obj ++ [(k, [x])])

/-- A grouping loop `for (const x of xs) { if (!key(x)) continue; <groupPush> }`;
`key x = none` stands for a falsy key (the `continue`). -/
def groupLoop {α : Type} (key : α → Option String) :
    List α → List (String × List α) → Option (List (String × List α))
  | [], obj => some obj
  | x :: xs, obj =>
    match key x with
    | none => groupLoop key xs obj
    | some k =>
      match groupPush obj k x with
      | none => none
      | some obj' => groupLoop key xs obj'

/-- A loop over the entries of an object whose body pushes findings onto one
accumulating array and may throw: the findings of all iterations, in order. -/
def forEachEntry {β γ : Type} (body : String × β → Option (List γ)) :
    List (String × β) → Option (List γ)
  | [] => some []
  | e :: es =>
    match body e with
    | none => none
    | some found =>
      match forEachEntry body es with
      | none => none
      | some rest => some (found ++ rest)

/-- `s.split(sep)` for a one-character separator, on the characters of `s`. -/
def splitChars (sep : Char) : List Char → List (List Char)
  | [] => [[]]
  | c :: cs =>
    if c = sep then [] :: splitChars sep cs
    else
      match splitChars sep cs with
      | [] => [[c]]
      | w :: ws => (c :: w) :: ws

/-- `s.split('_')`. -/
def splitUnderscore (s : String) : List String :=
  (splitChars '_' s.data).map String.mk

/-! ## Data model of `conflict-detection.js` -/

/-- The record `getAllSymbols` builds for one symbol file: `name`, `context`,
`latex` and `meaning` are set only when the file declares them. -/
structure Symbol where
  name : Option String
  context : Option String
  latex : Option String
  meaning : Option String
  sourceFile : String
  conflicts : Bool
  deriving DecidableEq, Repr

/-- The `{name, sourceFile}` object stored per entity in `entitiesByType`. -/
structure NamedEntity where
  name : String
  sourceFile : String
  deriving DecidableEq, Repr

/-- What the file loop of `getEntityConflicts` extracts from one entity file. -/
structure EntityRecord where
  entityType : String
  name : String
  sourceFile : String
  deriving DecidableEq, Repr

/-- The record `detectRelationshipConflicts` extracts per relationship statement. -/
structure Relationship where
  sourceType : String
  sourceName : String
  targetType : String
  targetName : String
  relationType : String
  sourceFile : String
  deriving DecidableEq, Repr

/-- The findings pushed onto `conflicts`, tagged by their `type` field. -/
inductive Conflict where
  | UndocumentedSymbolConflict (name : String) (contexts : List (Option String))
      (symbols : List Symbol)
  | InconsistentMeaning (name : String) (context : String)
      (meanings : List (Option String)) (symbols : List Symbol)
  | InconsistentNaming (latex : String) (names : List (Option String))
      (symbols : List Symbol)
  | DuplicateName (entityType : String) (name : String) (count : Nat)
      (files : List String)
  | ConflictingRelationships (relTypes : String × String) (endpoints : List String)
      (relationships : List Relationship)
  deriving DecidableEq, Repr

/-- The `resolution` hint of a finding. -/
def Conflict.resolution : Conflict → String
  | .UndocumentedSymbolConflict _ _ _ =>
    "Create CONFLICTS_WITH relationships between these symbols"
  | .InconsistentMeaning _ _ _ _ =>
    "Consolidate symbols with consistent meanings or use more specific contexts"
  | .InconsistentNaming _ _ _ =>
    "Consider using SYNONYM_OF relationships or standardizing naming"
  | .DuplicateName entityType _ _ _ =>
    "Ensure unique names for " ++ entityType
      ++ " entities or create EXTENDS/VARIANT_OF relationships"
  | .ConflictingRelationships relTypes _ _ =>
    "Resolve conflicting relationships; " ++ relTypes.1 ++ " and " ++ relTypes.2
      ++ " are typically incompatible"

/-! ## `detectSymbolConflicts` -/

/-- The body of the loop over `Object.entries(symbolsByContext)`: the
InconsistentMeaning check of one context subgroup. -/
def contextRule (name : String) (entry : String × List Symbol) : List Conflict :=
  if entry.2.length ≤ 1 then []
  else
    let meanings := newSet ((entry.2.map (fun s => s.meaning)).filter
      (fun m => (truthy m).isSome))
    if meanings.length > 1 then
      [Conflict.InconsistentMeaning name entry.1 meanings entry.2]
    else []

/-- The UndocumentedSymbolConflict check of one name group. -/
def undocumentedRule (name : String) (nameSymbols : List Symbol) : List Conflict :=
  let contexts := newSet (nameSymbols.map (fun s => s.context))
  if contexts.length > 1 then
    let hasConflictRel := nameSymbols.any (fun s => s.conflicts)
    if !hasConflictRel then
      [Conflict.UndocumentedSymbolConflict name contexts nameSymbols]
    else []
  else []

/-- The body of the loop over `Object.entries(symbolsByName)`. -/
def nameRule (entry : String × List Symbol) : Option (List Conflict) :=
  if entry.2.length ≤ 1 then some []
  else
    match groupLoop (fun s => truthy s.context) entry.2 [] with
    | none => none
    | some symbolsByContext =>
      some (undocumentedRule entry.1 entry.2
        ++ (objectEntries symbolsByContext).flatMap (contextRule entry.1))

/-- The body of the loop over `Object.entries(symbolsByLatex)`. -/
def latexRule (entry : String × List Symbol) : List Conflict :=
  if entry.2.length ≤ 1 then []
  else
    let names := newSet (entry.2.map (fun s => s.name))
    if names.length > 1 then [Conflict.InconsistentNaming entry.1 names entry.2]
    else []

/-- The function `detectSymbolConflicts(symbols)`. -/
def detectSymbolConflicts (symbols : List Symbol) : Option (List Conflict) :=
  match groupLoop (fun s => truthy s.name) symbols [] with
  | none => none
  | some symbolsByName =>
    match forEachEntry nameRule (objectEntries symbolsByName) with
    | none => none
    | some nameConflicts =>
      match groupLoop (fun s => truthy s.latex) symbols [] with
      | none => none
      | some symbolsByLatex =>
        some (nameConflicts ++ (objectEntries symbolsByLatex).flatMap latexRule)

/-! ## The duplicate-name rule of `getEntityConflicts` -/

/-- A value stored in `nameCount`: a number, or the string that
`(inherited member || 0) + 1` evaluates to, which is not numeric. -/
inductive CountValue where
  | number (n : Nat)
  | text
  deriving DecidableEq, Repr

/-- One round of `if (!entitiesByType[t]) entitiesByType[t] = []; entitiesByType[t].push(..)`
inside the per-file `try`: a `TypeError` is caught and the file contributes nothing. -/
def addEntity (entitiesByType : List (String × List NamedEntity)) (r : EntityRecord) :
    List (String × List NamedEntity) :=
  match groupPush entitiesByType r.entityType ⟨r.name, r.sourceFile⟩ with
  | some obj => obj
  | none => entitiesByType

/-- The statement `nameCount[name] = (nameCount[name] || 0) + 1`. A stored
number is incremented. An inherited member is truthy, so the sum is a string,
which is stored as an own property (the `__proto__` setter ignores it) and stays
a string under further increments. -/
def countName (nameCount : List (String × CountValue)) (name : String) :
    List (String × CountValue) :=
  match nameCount.lookup name with
  | some (CountValue.number n) =>
    nameCount.map (fun e => if e.1 = name then (e.1, CountValue.number (n + 1)) else e)
  | some CountValue.text => nameCount
  | none =>
    if name = "__proto__" then nameCount
    else if name ∈ objectPrototypeKeys then nameCount ++ [(name, CountValue.text)]
    else nameCount ++ [(name, CountValue.number 1)]

/-- The body of the loop over `Object.entries(nameCount)`; `count > 1` is false
for a non-numeric string. -/
def reportName (entityType : String) (entities : List NamedEntity)
    (entry : String × CountValue) : List Conflict :=
  match entry.2 with
  | CountValue.number count =>
    if count > 1 then
      [Conflict.DuplicateName entityType entry.1 count
        ((entities.filter (fun e => e.name = entry.1)).map (fun e => e.sourceFile))]
    else []
  | CountValue.text => []

/-- The body of the loop over `Object.entries(entitiesByType)`. -/
def typeRule (entry : String × List NamedEntity) : List Conflict :=
  if entry.2.length ≤ 1 then []
  else
    let nameCount := entry.2.foldl (fun acc e => countName acc e.name) []
    (objectEntries nameCount).flatMap (reportName entry.1 entry.2)

/-- The function `getEntityConflicts`, on the records its file loop extracts
(in file order). -/
def getEntityConflicts (records : List EntityRecord) : List Conflict :=
  (objectEntries (records.foldl addEntity [])).flatMap typeRule

/-! ## The relationship rule of `detectRelationshipConflicts` -/

/-- The constant `exclusiveRelTypes`. -/
def exclusiveRelTypes : List (String × String) :=
  [("IMPLEMENTS", "BASED_ON"), ("CONFLICTS_WITH", "SYNONYM_OF")]

/-- The grouping key of a relationship, a template string of its endpoint names. -/
def endpointKey (rel : Relationship) : String :=
  rel.sourceName ++ "_" ++ rel.targetName

/-- The body of the loop over `Object.entries(relsByEndpoints)`. -/
def endpointRule (entry : String × List Relationship) : List Conflict :=
  if entry.2.length ≤ 1 then []
  else
    exclusiveRelTypes.flatMap (fun exclusivePair =>
      let hasFirst := entry.2.any (fun r => r.relationType = exclusivePair.1)
      let hasSecond := entry.2.any (fun r => r.relationType = exclusivePair.2)
      if hasFirst && hasSecond then
        [Conflict.ConflictingRelationships exclusivePair (splitUnderscore entry.1) entry.2]
      else [])

/-- The function `detectRelationshipConflicts`, on the relationship records its
file loop extracts. The grouping loop is outside every `try`. -/
def detectRelationshipConflicts (relationships : List Relationship) :
    Option (List Conflict) :=
  match groupLoop (fun r => some (endpointKey r)) relationships [] with
  | none => none
  | some relsByEndpoints => some ((objectEntries relsByEndpoints).flatMap endpointRule)

/-! ## Closed forms used by the proofs -/

/-- The object a grouping loop builds from `xs` when it does not throw: the
truthy keys in order of first occurrence, each with the elements carrying it,
in order. -/
def groupsOf {α : Type} (key : α → Option String) (xs : List α) : List (String × List α) :=
  (newSet (xs.filterMap key)).map (fun k => (k, xs.filter (fun x => key x = some k)))

/-- Whether a grouping key is the name of an inherited member. -/
def inheritedKey : Option String → Bool
  | some k => decide (k ∈ objectPrototypeKeys)
  | none => false

/-- What one iteration over `symbolsByName` pushes when it does not throw. -/
def nameFindings (entry : String × List Symbol) : List Conflict :=
  if entry.2.length ≤ 1 then []
  else
    undocumentedRule entry.1 entry.2
      ++ (objectEntries (groupsOf (fun s => truthy s.context) entry.2)).flatMap
          (contextRule entry.1)

/-- Whether one iteration over `symbolsByName` throws. -/
def nameThrows (entry : String × List Symbol) : Bool :=
  !(decide (entry.2.length ≤ 1)) && entry.2.any (fun s => inheritedKey (truthy s.context))

/-- Whether `detectSymbolConflicts` throws a `TypeError`. -/
def symbolsThrow (symbols : List Symbol) : Bool :=
  symbols.any (fun s => inheritedKey (truthy s.name))
    || (objectEntries (groupsOf (fun s => truthy s.name) symbols)).any nameThrows
    || symbols.any (fun s => inheritedKey (truthy s.latex))

/-- What `detectSymbolConflicts` returns when it does not throw. -/
def symbolFindings (symbols : List Symbol) : List Conflict :=
  (objectEntries (groupsOf (fun s => truthy s.name) symbols)).flatMap nameFindings
    ++ (objectEntries (groupsOf (fun s => truthy s.latex) symbols)).flatMap latexRule

/-! ## Statements of the conflict rules -/

/-- Whether a symbol record uses the name of an inherited member as its name,
context or latex rendering. -/
def usesPrototypeKey (s : Symbol) : Bool :=
  inheritedKey s.name || inheritedKey s.context || inheritedKey s.latex

/-- The UndocumentedSymbolConflict findings for the name `n`. -/
def isUndocumentedFor (n : String) : Conflict → Bool
  | .UndocumentedSymbolConflict name _ _ => decide (name = n)
  | _ => false

/-- The UndocumentedSymbolConflict rule for the name `n`, as a statement about
the result of `detectSymbolConflicts`: one finding when the records named `n`
carry two distinct context values (an absent context counts as a value) and none
of them has `conflicts` set, no finding otherwise; the finding lists the
distinct contexts of those records, each once. -/
def UndocumentedRuleHolds (symbols : List Symbol) (n : String) : Prop :=
  ∃ findings, detectSymbolConflicts symbols = some findings ∧
    (((∃ s ∈ symbols, ∃ t ∈ symbols,
          s.name = some n ∧ t.name = some n ∧ s.context ≠ t.context)
        ∧ (∀ s ∈ symbols, s.name = some n → s.conflicts = false)) →
      ∃ contexts evidence,
        findings.filter (isUndocumentedFor n)
          = [Conflict.UndocumentedSymbolConflict n contexts evidence]
        ∧ contexts.Nodup
        ∧ ∀ c, c ∈ contexts ↔ ∃ s ∈ symbols, s.name = some n ∧ s.context = c)
    ∧ (¬ ((∃ s ∈ symbols, ∃ t ∈ symbols,
          s.name = some n ∧ t.name = some n ∧ s.context ≠ t.context)
        ∧ (∀ s ∈ symbols, s.name = some n → s.conflicts = false)) →
      findings.filter (isUndocumentedFor n) = [])

/-- The InconsistentMeaning findings for the name `n` and the context `c`. -/
def isMeaningFor (n c : String) : Conflict → Bool
  | .InconsistentMeaning name context _ _ => decide (name = n) && decide (context = c)
  | _ => false

/-- Two records named `n` with context `c` carry distinct non-empty meanings. -/
def MeaningsDiffer (symbols : List Symbol) (n c : String) : Prop :=
  ∃ s ∈ symbols, ∃ t ∈ symbols,
    s.name = some n ∧ s.context = some c ∧ t.name = some n ∧ t.context = some c
      ∧ (truthy s.meaning).isSome = true ∧ (truthy t.meaning).isSome = true
      ∧ s.meaning ≠ t.meaning

/-- The InconsistentMeaning rule for the name `n` and the context `c`, as a
statement about the result of `detectSymbolConflicts`: one finding when the
records with that name and context carry two distinct non-empty meanings, none
otherwise; the finding lists those meanings, each once. -/
def InconsistentMeaningRuleHolds (symbols : List Symbol) (n c : String) : Prop :=
  ∃ findings, detectSymbolConflicts symbols = some findings ∧
    (MeaningsDiffer symbols n c →
      ∃ meanings evidence,
        findings.filter (isMeaningFor n c)
          = [Conflict.InconsistentMeaning n c meanings evidence]
        ∧ meanings.Nodup
        ∧ ∀ m, m ∈ meanings ↔
            (truthy m).isSome = true
              ∧ ∃ s ∈ symbols, s.name = some n ∧ s.context = some c ∧ s.meaning = m)
    ∧ (¬ MeaningsDiffer symbols n c → findings.filter (isMeaningFor n c) = [])

/-- The InconsistentNaming findings for the latex rendering `l`. -/
def isNamingFor (l : String) : Conflict → Bool
  | .InconsistentNaming latex _ _ => decide (latex = l)
  | _ => false

/-- Two records rendered as `l` carry distinct names (an absent name counts as
a value). -/
def NamesDiffer (symbols : List Symbol) (l : String) : Prop :=
  ∃ s ∈ symbols, ∃ t ∈ symbols, s.latex = some l ∧ t.latex = some l ∧ s.name ≠ t.name

/-- The InconsistentNaming rule for the latex rendering `l`, as a statement
about the result of `detectSymbolConflicts`: one finding when the records
rendered as `l` carry two distinct names, none otherwise; the finding lists
those names, each once. -/
def InconsistentNamingRuleHolds (symbols : List Symbol) (l : String) : Prop :=
  ∃ findings, detectSymbolConflicts symbols = some findings ∧
    (NamesDiffer symbols l →
      ∃ names evidence,
        findings.filter (isNamingFor l) = [Conflict.InconsistentNaming l names evidence]
        ∧ names.Nodup
        ∧ ∀ m, m ∈ names ↔ ∃ s ∈ symbols, s.latex = some l ∧ s.name = m)
    ∧ (¬ NamesDiffer symbols l → findings.filter (isNamingFor l) = [])

/-- The grouping key of an entity record in `entitiesByType`: its type, unless
the push throws (and the record is dropped by the `catch`). -/
def entityTypeKey (r : EntityRecord) : Option String :=
  if r.entityType ∈ objectPrototypeKeys then none else some r.entityType

/-- The object stored in `entitiesByType` for a record. -/
def EntityRecord.toNamed (r : EntityRecord) : NamedEntity :=
  ⟨r.name, r.sourceFile⟩

/-- The object `nameCount` after counting the names `names`: every name but
`__proto__` once, in order of first occurrence, with its number of occurrences,
or with a non-numeric string when it is the name of an inherited member. -/
def countsOf (names : List String) : List (String × CountValue) :=
  (newSet (names.filter (fun k => k ≠ "__proto__"))).map
    (fun k => (k, if k ∈ objectPrototypeKeys then CountValue.text
      else CountValue.number (names.count k)))

/-- The DuplicateName findings for the entity type `T` and the name `n`. -/
def isDuplicateFor (T n : String) : Conflict → Bool
  | .DuplicateName entityType name _ _ => decide (entityType = T) && decide (name = n)
  | _ => false

/-- The duplicate-name rule for the type `T` and the name `n`, as a statement
about the result of `getEntityConflicts`: one finding when more than one record
of type `T` is named `n`, carrying their number and their source files; none
otherwise. -/
def DuplicateRuleHolds (records : List EntityRecord) (T n : String) : Prop :=
  (1 < (records.filter (fun r => r.entityType = T ∧ r.name = n)).length →
    (getEntityConflicts records).filter (isDuplicateFor T n) =
      [Conflict.DuplicateName T n
        (records.filter (fun r => r.entityType = T ∧ r.name = n)).length
        ((records.filter (fun r => r.entityType = T ∧ r.name = n)).map
          (fun r => r.sourceFile))])
  ∧ ((records.filter (fun r => r.entityType = T ∧ r.name = n)).length ≤ 1 →
    (getEntityConflicts records).filter (isDuplicateFor T n) = [])

/-- Whether `detectRelationshipConflicts` throws a `TypeError`. -/
def relationshipsThrow (relationships : List Relationship) : Bool :=
  relationships.any (fun r => inheritedKey (some (endpointKey r)))

/-- What `detectRelationshipConflicts` returns when it does not throw. -/
def relationshipFindings (relationships : List Relationship) : List Conflict :=
  (objectEntries (groupsOf (fun r => some (endpointKey r)) relationships)).flatMap endpointRule

/-- The inverse of `splitChars`: the pieces joined by the separator. -/
def joinChars (sep : Char) : List (List Char) → List Char
  | [] => []
  | [w] => w
  | w :: w' :: ws => w ++ sep :: joinChars sep (w' :: ws)

/-- The ConflictingRelationships findings for the exclusive pair `pair` whose
evidence list holds both `r₁` and `r₂`. -/
def isRelationshipFindingWith (pair : String × String) (r₁ r₂ : Relationship) :
    Conflict → Bool
  | .ConflictingRelationships relTypes _ relationships =>
    decide (relTypes = pair) && decide (r₁ ∈ relationships) && decide (r₂ ∈ relationships)
  | _ => false

/-- C3 for the exclusive pair `pair` and two relationships `r₁`, `r₂` of the
list: the result holds exactly one ConflictingRelationships finding for `pair`
whose evidence contains `r₁` and `r₂`. -/
def RelationshipRuleHolds (relationships : List Relationship) (pair : String × String)
    (r₁ r₂ : Relationship) : Prop :=
  ∃ findings, detectRelationshipConflicts relationships = some findings ∧
    ∃ endpoints evidence,
      findings.filter (isRelationshipFindingWith pair r₁ r₂)
        = [Conflict.ConflictingRelationships pair endpoints evidence]

/-- The ConflictingRelationships findings for the exclusive pair `pair` and the
grouping key `k` (their `endpoints` field is `k.split('_')`). -/
def isRelationshipFindingFor (pair : String × String) (k : String) : Conflict → Bool
  | .ConflictingRelationships relTypes endpoints _ =>
    decide (relTypes = pair) && decide (endpoints = splitUnderscore k)
  | _ => false

/-- C4 for the names `a` and `b`: the result holds a ConflictingRelationships
finding for the exclusive pair `pair` whose endpoints are `a` and `b`. -/
def ReportsUnorderedPair (relationships : List Relationship) (pair : String × String)
    (a b : String) : Prop :=
  ∃ findings, detectRelationshipConflicts relationships = some findings ∧
    ∃ endpoints evidence,
      Conflict.ConflictingRelationships pair endpoints evidence ∈ findings
        ∧ (endpoints = [a, b] ∨ endpoints = [b, a])

/-- Both labels of `pair` occur among the relationships whose key is `k`. -/
def BothLabelsAt (relationships : List Relationship) (pair : String × String)
    (k : String) : Prop :=
  (∃ r ∈ relationships, endpointKey r = k ∧ r.relationType = pair.1)
    ∧ (∃ r ∈ relationships, endpointKey r = k ∧ r.relationType = pair.2)

/-- The relationship rule for the exclusive pair `pair` and the ordered key
`k`, as a statement about the result of `detectRelationshipConflicts`: one
finding, with endpoints `k.split('_')`, when both labels occur among the
relationships whose key is `k`; none otherwise. -/
def OrderedPairRuleHolds (relationships : List Relationship) (pair : String × String)
    (k : String) : Prop :=
  ∃ findings, detectRelationshipConflicts relationships = some findings ∧
    (BothLabelsAt relationships pair k →
      ∃ evidence, findings.filter (isRelationshipFindingFor pair k)
        = [Conflict.ConflictingRelationships pair (splitUnderscore k) evidence])
    ∧ (¬ BothLabelsAt relationships pair k →
      findings.filter (isRelationshipFindingFor pair k) = [])

/-! ## `validatePropertyValues` of `entity-consistency.js` -/

/-- One entry of the table `parseEntitySchema` returns. -/
structure EntitySchema where
  uniqueProperty : String
  required : List String
  optional : List String
  deriving DecidableEq, Repr

/-- The characters of the class `["']`: code points 34 and 39. -/
def isQuote (c : Char) : Bool :=
  c = Char.ofNat 34 || c = Char.ofNat 39

/-- Removal of a match of `^["']`. -/
def stripLeadingQuote : List Char → List Char
  | [] => []
  | c :: cs => if isQuote c then cs else c :: cs

/-- Removal of a match of `["']$`. -/
def stripTrailingQuote (cs : List Char) : List Char :=
  match cs.getLast? with
  | some c => if isQuote c then cs.dropLast else cs
  | none => []

/-- The replacement `value.replace(/^["']|["']$/g, '')`: a quote at the start
is removed, then a quote at the end of what follows it. -/
def cleanValue (value : String) : String :=
  String.mk (stripTrailingQuote (stripLeadingQuote value.data))

/-- The test `/^\d{4}$/`. -/
def isFourDigits (s : String) : Bool :=
  s.data.length = 4 && s.data.all Char.isDigit

/-- The class `[-._;()/:A-Za-z0-9]`. -/
def isDoiChar (c : Char) : Bool :=
  c ∈ "-._;()/:".data || c.isAlphanum

/-- The test `/^10\.\d{4,9}\/[-._;()/:A-Za-z0-9]+$/`. -/
def isDoi (s : String) : Bool :=
  "10.".data.isPrefixOf s.data &&
    (let rest := s.data.drop 3
     let digits := rest.takeWhile Char.isDigit
     let tail := rest.dropWhile Char.isDigit
     decide (4 ≤ digits.length) && decide (digits.length ≤ 9)
       && tail.head? = some '/' && !(tail.drop 1).isEmpty && (tail.drop 1).all isDoiChar)

/-- The characters matched by `\s`. -/
def isJsWhitespace (c : Char) : Bool :=
  c.toNat ∈ [9, 10, 11, 12, 13, 32, 0xA0, 0x1680, 0x2028, 0x2029, 0x202F, 0x205F,
      0x3000, 0xFEFF]
    || (decide (0x2000 ≤ c.toNat) && decide (c.toNat ≤ 0x200A))

/-- The test `/^https?:\/\/\S+$/`. -/
def isUrl (s : String) : Bool :=
  let rest :=
    if "https://".data.isPrefixOf s.data then some (s.data.drop 8)
    else if "http://".data.isPrefixOf s.data then some (s.data.drop 7)
    else none
  match rest with
  | some cs => !cs.isEmpty && cs.all (fun c => !isJsWhitespace c)
  | none => false

/-- The test `cleanValue.includes('\\') && !cleanValue.startsWith('\\')`;
the backslash is code point 92. -/
def hasDisplacedBackslash (s : String) : Bool :=
  s.data.contains (Char.ofNat 92) && !(s.data.head? = some (Char.ofNat 92))

/-- The test `!properties[k]` on a property bag built as an object literal: an
own value is falsy when it is the empty string; without an own value the
inherited member, if any, is truthy. -/
def propertyMissing (properties : List (String × String)) (k : String) : Bool :=
  match properties.lookup k with
  | some v => decide (v = "")
  | none => !decide (k ∈ objectPrototypeKeys)

/-- The loop over `entitySchema.required`, guarded by
`entitySchema && entitySchema.required`. -/
def requiredErrors (properties : List (String × String)) :
    Option EntitySchema → List String
  | some schema =>
    schema.required.flatMap (fun requiredProp =>
      if propertyMissing properties requiredProp then
        ["Missing required property: " ++ requiredProp]
      else [])
  | none => []

/-- The test `entitySchema && !required.includes(key) && !optional.includes(key)`. -/
def isUnknownProperty (entitySchema : Option EntitySchema) (key : String) : Bool :=
  match entitySchema with
  | some schema => !decide (key ∈ schema.required) && !decide (key ∈ schema.optional)
  | none => false

/-- The `switch (key)` on the cleaned value. -/
def formatErrors (entityType key value : String) : List String :=
  if key = "year" then
    if !isFourDigits (cleanValue value) then ["Year should be a 4-digit number: " ++ value]
    else []
  else if key = "doi" then
    if cleanValue value ≠ "" ∧ !isDoi (cleanValue value) then
      ["DOI format is incorrect: " ++ value]
    else []
  else if key = "url" then
    if cleanValue value ≠ "" ∧ !isUrl (cleanValue value) then
      ["URL format is incorrect: " ++ value]
    else []
  else if key = "latex" then
    if entityType = "Symbol" ∧ cleanValue value ≠ ""
        ∧ hasDisplacedBackslash (cleanValue value) then
      ["LaTeX may be malformed: " ++ value]
    else []
  else []

/-- The body of the loop over `Object.entries(properties)`. -/
def propertyErrors (entityType : String) (entitySchema : Option EntitySchema)
    (entry : String × String) : List String :=
  if isUnknownProperty entitySchema entry.1 then ["Unknown property: " ++ entry.1]
  else formatErrors entityType entry.1 entry.2

/-- The function `validatePropertyValues(properties, entityType, entitySchema)`;
`properties` lists the own properties of the bag in insertion order, and
`entitySchema` is `none` when the schema table has no entry for the type. -/
def validatePropertyValues (properties : List (String × String)) (entityType : String)
    (entitySchema : Option EntitySchema) : List String :=
  requiredErrors properties entitySchema
    ++ (objectEntries properties).flatMap (propertyErrors entityType entitySchema)

/-- The first two characters of an error message, which tell its kind apart
from the kinds compared with it. -/
def messageTag (s : String) : List Char :=
  s.data.take 2

/-- C5 as stated, for a schema entry and a property bag: a Missing error for
`r` exactly when `r` is required and absent from the bag, an Unknown error for
`k` exactly when `k` is a key of the bag in neither list, each reported once. -/
def PropertyReportHolds (properties : List (String × String)) (entityType : String)
    (schema : EntitySchema) : Prop :=
  (∀ r, (validatePropertyValues properties entityType (some schema)).count
      ("Missing required property: " ++ r)
        = if r ∈ schema.required ∧ r ∉ properties.map Prod.fst then 1 else 0)
  ∧ (∀ k, (validatePropertyValues properties entityType (some schema)).count
      ("Unknown property: " ++ k)
        = if k ∈ properties.map Prod.fst ∧ k ∉ schema.required ∧ k ∉ schema.optional
          then 1 else 0)

/-- C5 as the code has it: a Missing error for `r`, once per occurrence of `r`
in the required list, exactly when the bag holds no non-empty value for `r`;
an Unknown error for `k`, once, exactly when `k` is a key of the bag in neither
list. -/
def PropertyReportPerOccurrence (properties : List (String × String))
    (entityType : String) (schema : EntitySchema) : Prop :=
  (∀ r, ((∀ v, (r, v) ∈ properties → v = "") →
        (validatePropertyValues properties entityType (some schema)).count
          ("Missing required property: " ++ r) = schema.required.count r)
      ∧ ((∃ v, (r, v) ∈ properties ∧ v ≠ "") →
        (validatePropertyValues properties entityType (some schema)).count
          ("Missing required property: " ++ r) = 0))
  ∧ (∀ k, (validatePropertyValues properties entityType (some schema)).count
      ("Unknown property: " ++ k)
        = if k ∈ properties.map Prod.fst ∧ k ∉ schema.required ∧ k ∉ schema.optional
          then 1 else 0)

/-- The year-format errors: the messages that start with
`Year should be a 4-digit number: `. -/
def isYearError (e : String) : Bool :=
  "Year should be a 4-digit number: ".data.isPrefixOf e.data

/-- The value is four decimal digits, optionally preceded by one quote
character and optionally followed by one. -/
def QuotedFourDigits (value : String) : Prop :=
  ∃ pre digits post, value.data = pre ++ digits ++ post
    ∧ digits.length = 4 ∧ (∀ c ∈ digits, c.isDigit = true)
    ∧ (pre = [] ∨ ∃ q, isQuote q = true ∧ pre = [q])
    ∧ (post = [] ∨ ∃ q, isQuote q = true ∧ post = [q])

/-! ## Kinds and keys of findings -/

/-- The kind of a finding together with its key: name, name and context,
latex rendering, entity type and name, or endpoints and label pair. -/
inductive ConflictKey where
  | undocumented (name : String)
  | meaning (name : String) (context : String)
  | naming (latex : String)
  | duplicate (entityType : String) (name : String)
  | relationships (endpoints : List String) (relTypes : String × String)
  deriving DecidableEq, Repr

/-- The kind and key of a finding. -/
def Conflict.key : Conflict → ConflictKey
  | .UndocumentedSymbolConflict name _ _ => ConflictKey.undocumented name
  | .InconsistentMeaning name context _ _ => ConflictKey.meaning name context
  | .InconsistentNaming latex _ _ => ConflictKey.naming latex
  | .DuplicateName entityType name _ _ => ConflictKey.duplicate entityType name
  | .ConflictingRelationships relTypes endpoints _ =>
    ConflictKey.relationships endpoints relTypes

/-- The findings a call returns; a call that throws returns none. -/
def returned (result : Option (List Conflict)) : List Conflict :=
  result.getD []

/-- The record `s` with its `conflicts` flag set. -/
def Symbol.flagged (s : Symbol) : Symbol :=
  { s with conflicts := true }

/-- Setting the flag on every record named `n`. -/
def flagName (n : String) (s : Symbol) : Symbol :=
  if s.name = some n then s.flagged else s

/-- The kinds and keys of the findings other than the
UndocumentedSymbolConflict finding for `n`, in order. -/
def otherKeys (n : String) (findings : List Conflict) : List ConflictKey :=
  (findings.filter (fun f => !isUndocumentedFor n f)).map Conflict.key

/-! ## Findings up to order -/

/-- Two findings are the same up to order: same kind, same key, and evidence
lists that are permutations of each other (so equal as sets). -/
def Conflict.SameAs : Conflict → Conflict → Prop
  | .UndocumentedSymbolConflict name contexts symbols,
    .UndocumentedSymbolConflict name' contexts' symbols' =>
    name = name' ∧ contexts.Perm contexts' ∧ symbols.Perm symbols'
  | .InconsistentMeaning name context meanings symbols,
    .InconsistentMeaning name' context' meanings' symbols' =>
    name = name' ∧ context = context' ∧ meanings.Perm meanings' ∧ symbols.Perm symbols'
  | .InconsistentNaming latex names symbols,
    .InconsistentNaming latex' names' symbols' =>
    latex = latex' ∧ names.Perm names' ∧ symbols.Perm symbols'
  | .DuplicateName entityType name count files,
    .DuplicateName entityType' name' count' files' =>
    entityType = entityType' ∧ name = name' ∧ count = count' ∧ files.Perm files'
  | .ConflictingRelationships relTypes endpoints relationships,
    .ConflictingRelationships relTypes' endpoints' relationships' =>
    relTypes = relTypes' ∧ endpoints = endpoints' ∧ relationships.Perm relationships'
  | _, _ => False

/-- Two lists of findings are the same up to order: the kinds and keys they
hold are the same, with the same multiplicities, and findings with the same
kind and key are the same up to the order of their evidence. -/
def SameFindings (found found' : List Conflict) : Prop :=
  (found.map Conflict.key).Perm (found'.map Conflict.key)
    ∧ ∀ f ∈ found, ∀ g ∈ found', f.key = g.key → f.SameAs g

/-- Two results are the same up to order: both calls throw, or both return and
the findings are the same up to order. -/
def SameResults : Option (List Conflict) → Option (List Conflict) → Prop
  | some found, some found' => SameFindings found found'
  | none, none => True
  | _, _ => False

/-- The UndocumentedSymbolConflict finding built for the name group `k`. -/
def undocumentedOf (symbols : List Symbol) (k : String) : Conflict :=
  Conflict.UndocumentedSymbolConflict k
    (newSet ((symbols.filter (fun s => truthy s.name = some k)).map (fun s => s.context)))
    (symbols.filter (fun s => truthy s.name = some k))

/-- The InconsistentMeaning finding built for the context subgroup `c` of the
name group `k`. -/
def meaningOf (symbols : List Symbol) (k c : String) : Conflict :=
  Conflict.InconsistentMeaning k c
    (newSet ((((symbols.filter (fun s => truthy s.name = some k)).filter
      (fun s => truthy s.context = some c)).map (fun s => s.meaning)).filter
        (fun m => (truthy m).isSome)))
    ((symbols.filter (fun s => truthy s.name = some k)).filter
      (fun s => truthy s.context = some c))

/-- The InconsistentNaming finding built for the latex group `l`. -/
def namingOf (symbols : List Symbol) (l : String) : Conflict :=
  Conflict.InconsistentNaming l
    (newSet ((symbols.filter (fun s => truthy s.latex = some l)).map (fun s => s.name)))
    (symbols.filter (fun s => truthy s.latex = some l))

/-- The DuplicateName finding built for the name `n` within the type group `T`. -/
def duplicateOf (records : List EntityRecord) (T n : String) : Conflict :=
  Conflict.DuplicateName T n
    ((((records.filter (fun r => entityTypeKey r = some T)).map
      EntityRecord.toNamed).map (fun e => e.name)).count n)
    ((((records.filter (fun r => entityTypeKey r = some T)).map
      EntityRecord.toNamed).filter (fun e => e.name = n)).map (fun e => e.sourceFile))

/-! ## Regular expressions

The scripts find their statements with JavaScript regular expressions. They
are embedded as syntax trees with a backtracking matcher that tries the
alternatives in the order of the JavaScript semantics: the left branch of an
alternation first, one more iteration of a greedy star before leaving it, and
leaving a lazy star before one more iteration. -/

/-- Regular expressions, as far as the scripts use them. -/
inductive Regex where
  | empty : Regex
  | set (p : Char → Bool) : Regex
  | seq (r s : Regex) : Regex
  | alt (r s : Regex) : Regex
  | star (r : Regex) : Regex
  | lazyStar (r : Regex) : Regex
  | group (i : Nat) (r : Regex) : Regex

/-- The text captured by each group that took part in a match, latest first. -/
abbrev Captures := List (Nat × List Char)

/-- The iterations of a greedy star. An iteration that consumes nothing is not
considered, so `input.length + 1` rounds are never exhausted. -/
def starLoop {ρ : Type}
    (m : List Char → Captures → (List Char → Captures → Option ρ) → Option ρ) :
    Nat → List Char → Captures → (List Char → Captures → Option ρ) → Option ρ
  | 0, input, caps, k => k input caps
  | n + 1, input, caps, k =>
    match m input caps (fun rest caps' =>
        if rest.length < input.length then starLoop m n rest caps' k else none) with
    | some x => some x
    | none => k input caps

/-- The iterations of a lazy star: the continuation is tried first. -/
def lazyLoop {ρ : Type}
    (m : List Char → Captures → (List Char → Captures → Option ρ) → Option ρ) :
    Nat → List Char → Captures → (List Char → Captures → Option ρ) → Option ρ
  | 0, input, caps, k => k input caps
  | n + 1, input, caps, k =>
    match k input caps with
    | some x => some x
    | none =>
      m input caps (fun rest caps' =>
        if rest.length < input.length then lazyLoop m n rest caps' k else none)

/-- The backtracking matcher: `matchRe r input caps k` matches `r` at the start
of `input` and hands what is left, with the captures, to the continuation `k`;
when `k` fails the next alternative is tried. -/
def matchRe {ρ : Type} :
    Regex → List Char → Captures → (List Char → Captures → Option ρ) → Option ρ
  | .empty, input, caps, k => k input caps
  | .set p, input, caps, k =>
    match input with
    | c :: rest => if p c then k rest caps else none
    | [] => none
  | .seq r s, input, caps, k =>
    matchRe r input caps (fun rest caps' => matchRe s rest caps' k)
  | .alt r s, input, caps, k =>
    match matchRe r input caps k with
    | some x => some x
    | none => matchRe s input caps k
  | .star r, input, caps, k => starLoop (matchRe r) (input.length + 1) input caps k
  | .lazyStar r, input, caps, k => lazyLoop (matchRe r) (input.length + 1) input caps k
  | .group i r, input, caps, k =>
    matchRe r input caps (fun rest caps' =>
      k rest ((i, input.take (input.length - rest.length)) :: caps'))

/-- A literal text. -/
def Regex.chars (s : String) : Regex :=
  s.data.foldr (fun c r => Regex.seq (Regex.set (fun x => x == c)) r) Regex.empty

/-- A sequence of regular expressions. -/
def Regex.cat (rs : List Regex) : Regex :=
  rs.foldr Regex.seq Regex.empty

/-- The quantifier `+`. -/
def Regex.plus (r : Regex) : Regex :=
  Regex.seq r (Regex.star r)

/-- The quantifier `?`. -/
def Regex.opt (r : Regex) : Regex :=
  Regex.alt r Regex.empty

/-- The class `\w`. -/
def isWordChar (c : Char) : Bool :=
  c.isAlphanum || c == '_'

/-- The class `[\w\s]`. -/
def isWordOrSpace (c : Char) : Bool :=
  isWordChar c || isJsWhitespace c

/-- The characters `.` does not match without the `s` flag: the line terminators. -/
def isLineTerminator (c : Char) : Bool :=
  c.toNat ∈ [10, 13, 0x2028, 0x2029]

/-- One match of a regular expression: the text before it, the matched text,
the text after it and the captures. -/
structure RegexMatch where
  before : List Char
  text : List Char
  after : List Char
  caps : Captures

/-- The text of capture group `i` of a match (`match[i]`), if the group took part. -/
def RegexMatch.group (m : RegexMatch) (i : Nat) : Option String :=
  (m.caps.lookup i).map String.mk

/-- The match of `r` that starts at the start of `input`, if any. -/
def matchAt (r : Regex) (input : List Char) : Option (List Char × Captures) :=
  matchRe r input [] (fun rest caps => some (rest, caps))

/-- The leftmost match of `r` in `input` (`input.match(r)` without the `g`
flag, or one step of `r.exec`), searched after the text `skipped`. -/
def searchFrom (r : Regex) : List Char → List Char → Option RegexMatch
  | skipped, [] =>
    match matchAt r [] with
    | some (rest, caps) => some ⟨skipped, [], rest, caps⟩
    | none => none
  | skipped, c :: cs =>
    match matchAt r (c :: cs) with
    | some (rest, caps) =>
      some ⟨skipped, (c :: cs).take ((c :: cs).length - rest.length), rest, caps⟩
    | none => searchFrom r (skipped ++ [c]) cs

/-- The leftmost match of `r` in `input`. -/
def search (r : Regex) (input : String) : Option RegexMatch :=
  searchFrom r [] input.data

/-- The successive matches of `r` with the `g` flag: each search resumes where
the previous match ended, one character further after an empty match. -/
def matchAllFrom (r : Regex) : Nat → List Char → List RegexMatch
  | 0, _ => []
  | n + 1, input =>
    match searchFrom r [] input with
    | none => []
    | some m =>
      match m.text, m.after with
      | [], [] => [m]
      | [], _ :: cs => m :: matchAllFrom r n cs
      | _ :: _, after => m :: matchAllFrom r n after

/-- The matches of `input.match(r)` with the `g` flag, or of a loop over
`r.exec(input)`. -/
def matchAll (r : Regex) (input : String) : List RegexMatch :=
  matchAllFrom r (input.data.length + 1) input.data

/-- The texts `input.match(r)` returns with the `g` flag (`[]` for `null`). -/
def matchTexts (r : Regex) (input : String) : List String :=
  (matchAll r input).map (fun m => String.mk m.text)

/-- The replacement `input.replace(r, '')` with the `g` flag, for a regular
expression that matches no empty text: the matches are removed. -/
def removeMatches (r : Regex) (input : String) : String :=
  match (matchAll r input).getLast? with
  | none => input
  | some last => String.mk ((matchAll r input).flatMap (fun m => m.before) ++ last.after)

/-- The test `r.test(input)` for an expression written `^r$`. -/
def fullMatch (r : Regex) (input : String) : Bool :=
  (matchRe r input.data [] (fun rest _ => if rest = [] then some () else none)).isSome

/-- The test `text.includes(part)`. -/
def includesChars (part : List Char) : List Char → Bool
  | [] => part.isEmpty
  | c :: cs => part.isPrefixOf (c :: cs) || includesChars part cs

/-- The test `text.includes(part)`. -/
def includes (text part : String) : Bool :=
  includesChars part.data text.data

/-- The method `text.trim()`. -/
def trim (text : String) : String :=
  String.mk ((text.data.dropWhile isJsWhitespace).reverse.dropWhile isJsWhitespace).reverse

/-- The method `text.split(sep)` for a one-character separator. -/
def splitOnChar (text : String) (sep : Char) : List String :=
  (splitChars sep text.data).map String.mk

/-! ## `cypher-validator.js` -/

/-- One entry of the table `parseRelationshipSchema` returns. -/
structure RelationshipSchema where
  fromTypes : List String
  toTypes : List String
  properties : List String
  deriving DecidableEq, Repr

/-- What `validateCypherFile` and `validateSingleEntity` return: the verdict,
with the `errors` field or the `warnings` field when it is set. -/
structure ValidationResult where
  valid : Bool
  errors : Option (List String)
  warnings : Option (List String)
  deriving DecidableEq, Repr

/-- The truthiness of `table[k]` for a schema table built as an object literal:
an own entry is an object, and an inherited member is truthy as well. -/
def tableHas {β : Type} (table : List (String × β)) (k : String) : Bool :=
  hasOwn table k || decide (k ∈ objectPrototypeKeys)

/-- The value of the identifier `entityTypes` (or `relationshipTypes`) inside a
validator: `none` stands for an identifier that is not in scope, whose
evaluation throws a `ReferenceError` with the message `<name> is not defined`. -/
def readTable {β : Type} (name : String) (table : Option (List (String × β))) :
    Except String (List (String × β)) :=
  match table with
  | some t => Except.ok t
  | none => Except.error (name ++ " is not defined")

deriving instance DecidableEq for Except

/-- A loop whose body pushes errors onto one array and may throw. -/
def forEachThrowing {α : Type} (body : α → Except String (List String)) :
    List α → Except String (List String)
  | [] => Except.ok []
  | x :: xs =>
    match body x with
    | Except.error e => Except.error e
    | Except.ok found =>
      match forEachThrowing body xs with
      | Except.error e => Except.error e
      | Except.ok rest => Except.ok (found ++ rest)

/-- The expression `/CREATE \([\w\s]*:(\w+)/`. -/
def nodeCreationRegex : Regex :=
  Regex.cat [Regex.chars "CREATE (", Regex.star (Regex.set isWordOrSpace), Regex.chars ":",
    Regex.group 1 (Regex.plus (Regex.set isWordChar))]

/-- The expression `/MATCH \([\w\s]*:(\w+)/`. -/
def matchLabelRegex : Regex :=
  Regex.cat [Regex.chars "MATCH (", Regex.star (Regex.set isWordOrSpace), Regex.chars ":",
    Regex.group 1 (Regex.plus (Regex.set isWordChar))]

/-- The expression `/MATCH \([\w\s]*:(\w+)[^\)]*\)/`. -/
def matchStatementRegex : Regex :=
  Regex.cat [matchLabelRegex, Regex.star (Regex.set (fun c => c != ')')), Regex.chars ")"]

/-- The expression `/CREATE \([^)]+\)-\[:(\w+)/`. -/
def relationTypeRegex : Regex :=
  Regex.cat [Regex.chars "CREATE (", Regex.plus (Regex.set (fun c => c != ')')),
    Regex.chars ")-[:", Regex.group 1 (Regex.plus (Regex.set isWordChar))]

/-- The expression `/CREATE \([^)]+\)-\[:(\w+)[^\]]*\]->/`. -/
def relationCreationRegex : Regex :=
  Regex.cat [relationTypeRegex, Regex.star (Regex.set (fun c => c != ']')), Regex.chars "]->"]

/-- The part `MATCH \([^:]+:(\w+)[^\)]*\).*\s+` of the triple expressions, with
the `s` flag (the dot matches every character); `i` numbers its group. -/
def matchClauseRegex (i : Nat) : Regex :=
  Regex.cat [Regex.chars "MATCH (", Regex.plus (Regex.set (fun c => c != ':')),
    Regex.chars ":", Regex.group i (Regex.plus (Regex.set isWordChar)),
    Regex.star (Regex.set (fun c => c != ')')), Regex.chars ")",
    Regex.star (Regex.set (fun _ => true)), Regex.plus (Regex.set isJsWhitespace)]

/-- The expression
`/MATCH \([^:]+:(\w+)[^\)]*\).*\s+MATCH \([^:]+:(\w+)[^\)]*\).*\s+CREATE \([^)]+\)-\[:(\w+)/s`. -/
def tripleTypesRegex : Regex :=
  Regex.cat [matchClauseRegex 1, matchClauseRegex 2, Regex.chars "CREATE (",
    Regex.plus (Regex.set (fun c => c != ')')), Regex.chars ")-[:",
    Regex.group 3 (Regex.plus (Regex.set isWordChar))]

/-- The expression
`/MATCH \([^:]+:(\w+)[^\)]*\).*\s+MATCH \([^:]+:(\w+)[^\)]*\).*\s+CREATE \([^)]+\)-\[:(\w+)[^\]]*\]->/gs`. -/
def tripleRegex : Regex :=
  Regex.cat [tripleTypesRegex, Regex.star (Regex.set (fun c => c != ']')), Regex.chars "]->"]

/-- The expression `/CREATE \([\w\s]*:(\w+) {([^}]*)}/`. -/
def createStatementRegex : Regex :=
  Regex.cat [Regex.chars "CREATE (", Regex.star (Regex.set isWordOrSpace), Regex.chars ":",
    Regex.group 1 (Regex.plus (Regex.set isWordChar)), Regex.chars " \x7b",
    Regex.group 2 (Regex.star (Regex.set (fun c => c != '}'))), Regex.chars "\x7d"]

/-- The expression `/"?([^:"]+)"?\s*:/`; the double quote is code point 34. -/
def keyRegex : Regex :=
  Regex.cat [Regex.opt (Regex.set (fun c => c == Char.ofNat 34)),
    Regex.group 1 (Regex.plus (Regex.set (fun c => c != ':' && c != Char.ofNat 34))),
    Regex.opt (Regex.set (fun c => c == Char.ofNat 34)),
    Regex.star (Regex.set isJsWhitespace), Regex.chars ":"]

/-- The body of the two label loops of `validateEntitySyntax`: the test
`labelMatch && labelMatch[1] && !entityTypes[labelMatch[1]]` and the push. -/
def checkLabel (entityTypes : Option (List (String × EntitySchema))) (labelRegex : Regex)
    (message : String) (statement : String) : Except String (List String) :=
  match search labelRegex statement with
  | none => Except.ok []
  | some labelMatch =>
    match truthy (labelMatch.group 1) with
    | none => Except.ok []
    | some label =>
      match readTable "entityTypes" entityTypes with
      | Except.error e => Except.error e
      | Except.ok table =>
        if !tableHas table label then Except.ok [message ++ label] else Except.ok []

/-- The function `validateEntitySyntax(cypherContent)`; `entityTypes` is the
value of the free identifier of that name. -/
def validateEntitySyntax (entityTypes : Option (List (String × EntitySchema)))
    (cypherContent : String) : Except String (List String) :=
  let unclosed :=
    if includes cypherContent "CREATE (" && !includes cypherContent "\x7d"
        && !includes cypherContent ")" then
      ["Possible unclosed parenthesis or missing property object"]
    else []
  match forEachThrowing (checkLabel entityTypes nodeCreationRegex "Invalid entity type: ")
      (matchTexts nodeCreationRegex cypherContent) with
  | Except.error e => Except.error e
  | Except.ok creationErrors =>
    match forEachThrowing
        (checkLabel entityTypes matchLabelRegex "Invalid entity type in MATCH: ")
        (matchTexts matchStatementRegex cypherContent) with
    | Except.error e => Except.error e
    | Except.ok matchErrors => Except.ok (unclosed ++ creationErrors ++ matchErrors)

/-- The body of the first loop of `validateRelationshipSyntax`. -/
def checkRelationType (relationshipTypes : Option (List (String × RelationshipSchema)))
    (creation : String) : Except String (List String) :=
  match search relationTypeRegex creation with
  | none => Except.ok []
  | some typeMatch =>
    match truthy (typeMatch.group 1) with
    | none => Except.ok []
    | some relType =>
      match readTable "relationshipTypes" relationshipTypes with
      | Except.error e => Except.error e
      | Except.ok table =>
        if !tableHas table relType then Except.ok ["Invalid relationship type: " ++ relType]
        else Except.ok []

/-- The body of the second loop of `validateRelationshipSyntax`. When
`relationshipTypes[relType]` is an inherited member it is truthy and has no
`fromTypes`, so `.includes` throws a `TypeError`. -/
def checkTriple (relationshipTypes : Option (List (String × RelationshipSchema)))
    (creation : String) : Except String (List String) :=
  match search tripleTypesRegex creation with
  | none => Except.ok []
  | some m =>
    let sourceType := (m.group 1).getD ""
    let targetType := (m.group 2).getD ""
    let relType := (m.group 3).getD ""
    match readTable "relationshipTypes" relationshipTypes with
    | Except.error e => Except.error e
    | Except.ok table =>
      match table.lookup relType with
      | some schema =>
        Except.ok
          ((if !decide (sourceType ∈ schema.fromTypes) then
              ["Invalid source type " ++ sourceType ++ " for relationship " ++ relType]
            else [])
          ++ (if !decide (targetType ∈ schema.toTypes) then
              ["Invalid target type " ++ targetType ++ " for relationship " ++ relType]
            else []))
      | none =>
        if relType ∈ objectPrototypeKeys then
          Except.error "Cannot read properties of undefined (reading \x27includes\x27)"
        else Except.ok []

/-- The function `validateRelationshipSyntax(cypherContent)`; `relationshipTypes`
is the value of the free identifier of that name. -/
def validateRelationshipSyntax
    (relationshipTypes : Option (List (String × RelationshipSchema)))
    (cypherContent : String) : Except String (List String) :=
  match forEachThrowing (checkRelationType relationshipTypes)
      (matchTexts relationCreationRegex cypherContent) with
  | Except.error e => Except.error e
  | Except.ok typeErrors =>
    match forEachThrowing (checkTriple relationshipTypes)
        (matchTexts tripleRegex cypherContent) with
    | Except.error e => Except.error e
    | Except.ok tripleErrors => Except.ok (typeErrors ++ tripleErrors)

/-- The property names `validateProperties` derives from a property list:
`propertiesStr.split(',')`, the first group of `keyRegex` in each piece,
trimmed, without the pieces that give nothing. -/
def propertyNames (propertiesStr : String) : List String :=
  (splitOnChar propertiesStr ',').filterMap (fun p =>
    match search keyRegex p with
    | some keyValue => truthy ((keyValue.group 1).map trim)
    | none => none)

/-- The body of the loop of `validateProperties`. When `entityTypes[entityType]`
is an inherited member it is truthy and has no `required` list, so the loop
over it throws a `TypeError`. -/
def checkStatement (entityTypes : Option (List (String × EntitySchema)))
    (statement : String) : Except String (List String) :=
  match search nodeCreationRegex statement with
  | none => Except.ok []
  | some typeMatch =>
    let entityType := (typeMatch.group 1).getD ""
    match readTable "entityTypes" entityTypes with
    | Except.error e => Except.error e
    | Except.ok table =>
      match table.lookup entityType with
      | none =>
        if entityType ∈ objectPrototypeKeys then
          Except.error "schema.required is not iterable"
        else Except.ok []
      | some schema =>
        match search createStatementRegex statement with
        | none => Except.error "Cannot read properties of null (reading \x272\x27)"
        | some m =>
          let properties := propertyNames ((m.group 2).getD "")
          Except.ok
            (schema.required.flatMap (fun required =>
                if !decide (required ∈ properties) then
                  ["Missing required property \x27" ++ required ++ "\x27 for " ++ entityType]
                else [])
            ++ properties.flatMap (fun prop =>
                if !decide (prop ∈ schema.required) && !decide (prop ∈ schema.optional) then
                  ["Unknown property \x27" ++ prop ++ "\x27 for " ++ entityType]
                else []))

/-- The function `validateProperties(cypherContent)`; `entityTypes` is the value
of the free identifier of that name. -/
def validateProperties (entityTypes : Option (List (String × EntitySchema)))
    (cypherContent : String) : Except String (List String) :=
  forEachThrowing (checkStatement entityTypes) (matchTexts createStatementRegex cypherContent)

/-- The expression `/\/\/[^\n]*/g`. -/
def lineCommentRegex : Regex :=
  Regex.cat [Regex.chars "//", Regex.star (Regex.set (fun c => c != '\n'))]

/-- The expression `/\/\*[\s\S]*?\*\//g`. -/
def blockCommentRegex : Regex :=
  Regex.cat [Regex.chars "/*", Regex.lazyStar (Regex.set (fun _ => true)), Regex.chars "*/"]

/-- The body of `validateCypherFile` after the file is read, for given values
of the free identifiers `entityTypes` and `relationshipTypes` of the
validators; an exception is caught and becomes the only error. -/
def validateCypherContent (entityTypes : Option (List (String × EntitySchema)))
    (relationshipTypes : Option (List (String × RelationshipSchema)))
    (content : String) : ValidationResult :=
  if includes content "[ENTITY_TYPE]" || includes content "[ENTITY_NAME]" then
    ⟨true, none, some ["This file is a template"]⟩
  else
    let cleanContent := removeMatches blockCommentRegex (removeMatches lineCommentRegex content)
    match validateEntitySyntax entityTypes cleanContent with
    | Except.error e => ⟨false, some ["Error reading file: " ++ e], none⟩
    | Except.ok syntaxErrors =>
      match validateRelationshipSyntax relationshipTypes cleanContent with
      | Except.error e => ⟨false, some ["Error reading file: " ++ e], none⟩
      | Except.ok relationshipErrors =>
        match validateProperties entityTypes cleanContent with
        | Except.error e => ⟨false, some ["Error reading file: " ++ e], none⟩
        | Except.ok propertyErrors =>
          ⟨(syntaxErrors ++ relationshipErrors ++ propertyErrors).isEmpty,
            some (syntaxErrors ++ relationshipErrors ++ propertyErrors), none⟩

/-- The function `validateCypherFile`, on the content of the file. The module
declares `entityTypes` and `relationshipTypes` with `const` inside the block of
its main section, so neither is in the scope of the validators. -/
def validateCypherFile (content : String) : ValidationResult :=
  validateCypherContent none none content

/-! ## Extraction and per-entity checks of `entity-consistency.js` -/

/-- The assignment `properties[key] = value` on an object literal, for a string
value: an own property is overwritten in place, a new one is added at the end,
and the `__proto__` setter ignores the string. -/
def setProperty (properties : List (String × String)) (key value : String) :
    List (String × String) :=
  if key = "__proto__" then properties
  else if hasOwn properties key then
    properties.map (fun e => if e.1 = key then (e.1, value) else e)
  else properties ++ [(key, value)]

/-- The expression `CREATE \(\w*:TYPE {([^}]*)}\)` that `extractEntityProperties`
builds for an entity type made of word characters. -/
def entityCreationRegex (entityType : String) : Regex :=
  Regex.cat [Regex.chars "CREATE (", Regex.star (Regex.set isWordChar), Regex.chars ":",
    Regex.chars entityType, Regex.chars " \x7b",
    Regex.group 1 (Regex.star (Regex.set (fun c => c != '}'))), Regex.chars "\x7d)"]

/-- The alternation `"[^"]*"|'[^']*'|\[[^\]]*\]|{[^}]*}|\w+` of property values;
the quotes are the code points 34 and 39. -/
def propertyValueRegex : Regex :=
  Regex.alt
    (Regex.cat [Regex.set (fun c => c == Char.ofNat 34),
      Regex.star (Regex.set (fun c => c != Char.ofNat 34)),
      Regex.set (fun c => c == Char.ofNat 34)])
    (Regex.alt
      (Regex.cat [Regex.set (fun c => c == Char.ofNat 39),
        Regex.star (Regex.set (fun c => c != Char.ofNat 39)),
        Regex.set (fun c => c == Char.ofNat 39)])
      (Regex.alt
        (Regex.cat [Regex.chars "[", Regex.star (Regex.set (fun c => c != ']')),
          Regex.chars "]"])
        (Regex.alt
          (Regex.cat [Regex.chars "\x7b", Regex.star (Regex.set (fun c => c != '}')),
            Regex.chars "\x7d"])
          (Regex.plus (Regex.set isWordChar)))))

/-- The expression `/([\w]+): ("[^"]*"|'[^']*'|\[[^\]]*\]|{[^}]*}|\w+)/g`. -/
def propertyRegex : Regex :=
  Regex.cat [Regex.group 1 (Regex.plus (Regex.set isWordChar)), Regex.chars ": ",
    Regex.group 2 propertyValueRegex]

/-- The statement `const [key, value] = propMatch.split(':').map(p => p.trim())`
followed by `properties[key] = value`; a match of `propertyRegex` has a colon,
so both pieces exist. -/
def addProperty (properties : List (String × String)) (propMatch : String) :
    List (String × String) :=
  match (splitOnChar propMatch ':').map trim with
  | key :: value :: _ => setProperty properties key value
  | _ => properties

/-- The function `extractEntityProperties(cypherContent, entityType)`. -/
def extractEntityProperties (cypherContent entityType : String) : List (String × String) :=
  (matchAll (entityCreationRegex entityType) cypherContent).foldl
    (fun properties m =>
      (matchTexts propertyRegex ((m.group 1).getD "")).foldl addProperty properties)
    []

/-- The record `extractRelationships` builds per statement. -/
structure ExtractedRelationship where
  sourceVariable : String
  sourceType : String
  targetVariable : String
  targetType : String
  actualSourceVar : String
  relationType : String
  properties : String
  actualTargetVar : String
  deriving DecidableEq, Repr

/-- The part `MATCH \((\w+):(\w+) {[^}]*}\)\s*` of `relPattern`; `i` and `j`
number its groups. -/
def matchNodeRegex (i j : Nat) : Regex :=
  Regex.cat [Regex.chars "MATCH (", Regex.group i (Regex.plus (Regex.set isWordChar)),
    Regex.chars ":", Regex.group j (Regex.plus (Regex.set isWordChar)), Regex.chars " \x7b",
    Regex.star (Regex.set (fun c => c != '}')), Regex.chars "\x7d)",
    Regex.star (Regex.set isJsWhitespace)]

/-- The expression `relPattern` of `extractRelationships`:
`/MATCH \((\w+):(\w+) {[^}]*}\)\s*MATCH \((\w+):(\w+) {[^}]*}\)\s*CREATE \((\w+)\)-\[:(\w+) {([^}]*)?}\]->\((\w+)\)/g`. -/
def relPattern : Regex :=
  Regex.cat [matchNodeRegex 1 2, matchNodeRegex 3 4, Regex.chars "CREATE (",
    Regex.group 5 (Regex.plus (Regex.set isWordChar)), Regex.chars ")-[:",
    Regex.group 6 (Regex.plus (Regex.set isWordChar)), Regex.chars " \x7b",
    Regex.opt (Regex.group 7 (Regex.star (Regex.set (fun c => c != '}')))),
    Regex.chars "\x7d]->(", Regex.group 8 (Regex.plus (Regex.set isWordChar)),
    Regex.chars ")"]

/-- The function `extractRelationships(cypherContent)`. -/
def extractRelationships (cypherContent : String) : List ExtractedRelationship :=
  (matchAll relPattern cypherContent).map (fun m =>
    { sourceVariable := (m.group 1).getD ""
      sourceType := (m.group 2).getD ""
      targetVariable := (m.group 3).getD ""
      targetType := (m.group 4).getD ""
      actualSourceVar := (m.group 5).getD ""
      relationType := (m.group 6).getD ""
      properties := (m.group 7).getD ""
      actualTargetVar := (m.group 8).getD "" })

/-- The replacement `value.replace(/["']/g, '')`: every quote character is removed. -/
def removeQuotes (value : String) : String :=
  String.mk (value.data.filter (fun c => !isQuote c))

/-- The expression `[A-Z][a-zA-Z0-9]*` of `/^[A-Z][a-zA-Z0-9]*$/`. -/
def pascalCaseRegex : Regex :=
  Regex.seq (Regex.set Char.isUpper) (Regex.star (Regex.set Char.isAlphanum))

/-- The expression `[A-Z][a-z]+\d{4}[a-z]?` of `/^[A-Z][a-z]+\d{4}[a-z]?$/`. -/
def paperIdRegex : Regex :=
  Regex.cat [Regex.set Char.isUpper, Regex.plus (Regex.set Char.isLower),
    Regex.set Char.isDigit, Regex.set Char.isDigit, Regex.set Char.isDigit,
    Regex.set Char.isDigit, Regex.opt (Regex.set Char.isLower)]

/-- The check shared by the first three cases of `validateNamingConventions`:
`properties.name && !/^[A-Z][a-zA-Z0-9]*$/.test(properties.name.replace(/["']/g, ''))`. -/
def pascalCaseErrors (properties : List (String × String)) (entityType : String) :
    List String :=
  match truthy (properties.lookup "name") with
  | some name =>
    if !fullMatch pascalCaseRegex (removeQuotes name) then
      [entityType ++ " name should be in PascalCase: " ++ name]
    else []
  | none => []

/-- The function `validateNamingConventions(properties, entityType)`. -/
def validateNamingConventions (properties : List (String × String)) (entityType : String) :
    List String :=
  if entityType = "MathematicalConcept" then pascalCaseErrors properties "MathematicalConcept"
  else if entityType = "NumericalMethod" then pascalCaseErrors properties "NumericalMethod"
  else if entityType = "Algorithm" then pascalCaseErrors properties "Algorithm"
  else if entityType = "Symbol" then []
  else if entityType = "Paper" then
    match truthy (properties.lookup "id") with
    | some id =>
      if !fullMatch paperIdRegex (removeQuotes id) then
        ["Paper ID should follow format \x27Author1234\x27: " ++ id]
      else []
    | none => []
  else []

/-- The function `validateMathSymbols(properties)`. -/
def validateMathSymbols (properties : List (String × String)) : List String :=
  (if (truthy (properties.lookup "latex")).isSome
      && !(truthy (properties.lookup "name")).isSome then
    ["Symbol has LaTeX representation but no name property"]
  else [])
  ++ (if (truthy (properties.lookup "name")).isSome
      && !(truthy (properties.lookup "context")).isSome then
    ["Symbol has name but no context property"]
  else [])
  ++ (match truthy (properties.lookup "dimensionality") with
    | some dimensionality =>
      if !decide (removeQuotes dimensionality ∈ ["Scalar", "Vector", "Matrix", "Tensor"]) then
        ["Invalid dimensionality: " ++ dimensionality]
      else []
    | none => [])

/-- The constant `validTypes` of `validateRelationships`. -/
def validTypes : List String :=
  ["BASED_ON", "IMPLEMENTS", "APPLIES_TO", "IMPROVES_UPON",
   "DEPENDS_ON", "INTEGRATES_WITH", "APPEARS_IN", "REPRESENTS",
   "HAS_INTERPRETATION_IN", "CONFLICTS_WITH", "SYNONYM_OF",
   "DERIVED_FROM", "USED_IN_EQUATION", "SPECIALIZES", "RELATES_TO",
   "INTRODUCES", "CITES", "DEVELOPS", "PRESENTS", "SUBDOMAIN_OF",
   "USES_SYMBOL", "EXTENDS"]

/-- The function `validateRelationships(relationships, filePath)`. -/
def validateRelationships (relationships : List ExtractedRelationship) : List String :=
  relationships.flatMap (fun rel =>
    (if rel.sourceVariable ≠ rel.actualSourceVar then
        ["Source variable mismatch: " ++ rel.sourceVariable ++ " vs " ++ rel.actualSourceVar]
      else [])
    ++ (if rel.targetVariable ≠ rel.actualTargetVar then
        ["Target variable mismatch: " ++ rel.targetVariable ++ " vs " ++ rel.actualTargetVar]
      else [])
    ++ (if !decide (rel.relationType ∈ validTypes) then
        ["Non-standard relationship type: " ++ rel.relationType]
      else []))

/-- What `validateSingleEntity` returns. -/
structure EntityValidationResult where
  valid : Bool
  properties : Option (List (String × String))
  relationships : Option (List ExtractedRelationship)
  errors : Option (List String)
  warnings : Option (List String)
  deriving DecidableEq, Repr

/-- The value of `entitySchema[entityType]` that `validateEntities` passes to
`validateSingleEntity`: `undefined`, an entry of the schema table, or an
inherited member of the table object, which is truthy and has neither a
`required` nor an `optional` list. -/
inductive SchemaValue where
  | absent
  | entry (schema : EntitySchema)
  | inherited
  deriving DecidableEq, Repr

/-- A schema argument that is absent or an entry of the table. -/
def SchemaValue.ofOption : Option EntitySchema → SchemaValue
  | none => SchemaValue.absent
  | some schema => SchemaValue.entry schema

/-- The expression `entitySchema[entityType]` of `validateEntities`, on the
table `loadEntitySchema` returns (an object literal). -/
def schemaValueOf (entitySchema : List (String × EntitySchema)) (entityType : String) :
    SchemaValue :=
  match entitySchema.lookup entityType with
  | some schema => SchemaValue.entry schema
  | none =>
    if entityType ∈ objectPrototypeKeys then SchemaValue.inherited else SchemaValue.absent

/-- The call `validatePropertyValues(properties, entityType, entitySchema)` for
each value of `entitySchema`. For an inherited member `entitySchema.required` is
`undefined`: the loop over the required names is skipped, and the test
`!entitySchema.required.includes(key)` of the first property throws a
`TypeError`. -/
def validatePropertyValuesOf (properties : List (String × String)) (entityType : String) :
    SchemaValue → Except String (List String)
  | SchemaValue.absent => Except.ok (validatePropertyValues properties entityType none)
  | SchemaValue.entry schema =>
    Except.ok (validatePropertyValues properties entityType (some schema))
  | SchemaValue.inherited =>
    if properties.isEmpty then Except.ok []
    else Except.error "Cannot read properties of undefined (reading \x27includes\x27)"

/-- The function `validateSingleEntity(filePath, entityType, entitySchema)`, on
the content of a file that can be read, for an entity type made of word
characters. An exception thrown inside the `try` is caught and becomes the only
error. -/
def validateSingleEntity (content entityType : String) (entitySchema : SchemaValue) :
    EntityValidationResult :=
  if includes content "[ENTITY_NAME]" || includes content "[PLACEHOLDER]" then
    ⟨true, none, none, none, some ["This file is a template"]⟩
  else
    let properties := extractEntityProperties content entityType
    if properties.length = 0 then
      ⟨false, none, none, some ["No " ++ entityType ++ " entity found in file"], none⟩
    else
      let relationships := extractRelationships content
      let namingErrors := validateNamingConventions properties entityType
      match validatePropertyValuesOf properties entityType entitySchema with
      | Except.error message =>
        ⟨false, none, none, some ["Error processing file: " ++ message], none⟩
      | Except.ok propertyErrors =>
        let specificErrors :=
          if entityType = "Symbol" then validateMathSymbols properties else []
        let relationshipErrors := validateRelationships relationships
        let allErrors := namingErrors ++ propertyErrors ++ specificErrors ++ relationshipErrors
        ⟨allErrors.isEmpty, some properties, some relationships, some allErrors, none⟩

/-- The results `validateEntities(entityType)` gets from `validateSingleEntity`,
one per file, on the schema table `loadEntitySchema` returns and the contents of
the files found for the type. -/
def validateEntities (entitySchema : List (String × EntitySchema)) (files : List String)
    (entityType : String) : List EntityValidationResult :=
  files.map (fun content =>
    validateSingleEntity content entityType (schemaValueOf entitySchema entityType))

/-! ## Statements about the format checks -/

/-- The start of the format error reported for a property key: `year`, `doi`,
`url` or, for every other key, `latex`. -/
def formatPrefix (key : String) : String :=
  if key = "year" then "Year should be a 4-digit number: "
  else if key = "doi" then "DOI format is incorrect: "
  else if key = "url" then "URL format is incorrect: "
  else "LaTeX may be malformed: "

/-- The format errors of the kind reported for `key`. -/
def isFormatErrorOf (key : String) (e : String) : Bool :=
  (formatPrefix key).data.isPrefixOf e.data

/-- The keys that have a format check. -/
def formatKeys : List String :=
  ["year", "doi", "url", "latex"]

/-- C11 as stated, for two schemas: the format errors of each kind are the same
under both. -/
def FormatErrorsAgree (properties : List (String × String)) (entityType : String)
    (schema₁ schema₂ : Option EntitySchema) : Prop :=
  ∀ key ∈ formatKeys,
    (validatePropertyValues properties entityType schema₁).filter (isFormatErrorOf key)
      = (validatePropertyValues properties entityType schema₂).filter (isFormatErrorOf key)

/-- The latex value, with an enclosing quote removed at each end, contains a
backslash (code point 92) and does not start with one. -/
def DisplacedBackslash (value : String) : Prop :=
  Char.ofNat 92 ∈ (cleanValue value).data
    ∧ (cleanValue value).data.head? ≠ some (Char.ofNat 92)

/-! ## The language of a regular expression -/

/-- The texts a regular expression matches. An iteration of a star matches a
non-empty text. -/
inductive Regex.Matches : Regex → List Char → Prop where
  | empty : Regex.Matches Regex.empty []
  | set {p : Char → Bool} {c : Char} : p c = true → Regex.Matches (Regex.set p) [c]
  | seq {r s : Regex} {a b : List Char} :
    Regex.Matches r a → Regex.Matches s b → Regex.Matches (Regex.seq r s) (a ++ b)
  | altLeft {r s : Regex} {a : List Char} :
    Regex.Matches r a → Regex.Matches (Regex.alt r s) a
  | altRight {r s : Regex} {a : List Char} :
    Regex.Matches s a → Regex.Matches (Regex.alt r s) a
  | starNil {r : Regex} : Regex.Matches (Regex.star r) []
  | starCons {r : Regex} {a b : List Char} :
    Regex.Matches r a → a ≠ [] → Regex.Matches (Regex.star r) b →
      Regex.Matches (Regex.star r) (a ++ b)
  | lazyNil {r : Regex} : Regex.Matches (Regex.lazyStar r) []
  | lazyCons {r : Regex} {a b : List Char} :
    Regex.Matches r a → a ≠ [] → Regex.Matches (Regex.lazyStar r) b →
      Regex.Matches (Regex.lazyStar r) (a ++ b)
  | group {i : Nat} {r : Regex} {a : List Char} :
    Regex.Matches r a → Regex.Matches (Regex.group i r) a

/-- An upper-case letter followed only by letters and digits. -/
def IsPascalCase (s : String) : Prop :=
  ∃ c rest, s.data = c :: rest ∧ c.isUpper = true ∧ ∀ x ∈ rest, x.isAlphanum = true

/-- A capital letter, one or more lower-case letters, four digits and an
optional lower-case letter. -/
def IsPaperId (s : String) : Prop :=
  ∃ c lower digits tail, s.data = c :: (lower ++ (digits ++ tail))
    ∧ c.isUpper = true
    ∧ lower ≠ [] ∧ (∀ x ∈ lower, x.isLower = true)
    ∧ digits.length = 4 ∧ (∀ x ∈ digits, x.isDigit = true)
    ∧ (tail = [] ∨ ∃ l, l.isLower = true ∧ tail = [l])

/-- The first condition of C16: the bag has a latex rendering but no name. -/
def renderingWithoutName (properties : List (String × String)) : Bool :=
  hasOwn properties "latex" && !hasOwn properties "name"

/-- The second condition of C16: the bag has a name but no context. -/
def nameWithoutContext (properties : List (String × String)) : Bool :=
  hasOwn properties "name" && !hasOwn properties "context"

/-- The third condition of C16: the bag has a dimensionality whose value with
quotes removed is not one of Scalar, Vector, Matrix, Tensor. -/
def dimensionalityOutside (properties : List (String × String)) : Bool :=
  properties.any (fun e => e.1 == "dimensionality"
    && !decide (removeQuotes e.2 ∈ ["Scalar", "Vector", "Matrix", "Tensor"]))

/-! ## The schema parsers of `cypher-validator.js` and `entity-consistency.js` -/

/-- The expression
`/CREATE CONSTRAINT.*FOR \(n:(\w+)\).*REQUIRE n\.(\w+) IS UNIQUE/g`; without the
`s` flag the dot matches every character but a line terminator. -/
def entitySchemaRegex : Regex :=
  Regex.cat [Regex.chars "CREATE CONSTRAINT",
    Regex.star (Regex.set (fun c => !isLineTerminator c)), Regex.chars "FOR (n:",
    Regex.group 1 (Regex.plus (Regex.set isWordChar)), Regex.chars ")",
    Regex.star (Regex.set (fun c => !isLineTerminator c)), Regex.chars "REQUIRE n.",
    Regex.group 2 (Regex.plus (Regex.set isWordChar)), Regex.chars " IS UNIQUE"]

/-- The class `[\w, ]`. -/
def isListChar (c : Char) : Bool :=
  isWordChar c || c == ',' || c == ' '

/-- The expression
`/\/\/ Properties for (\w+):\s*\/\/ Required: ([\w, ]+)\s*\/\/ Optional: ([\w, ]*)/g`. -/
def propertySchemaRegex : Regex :=
  Regex.cat [Regex.chars "// Properties for ",
    Regex.group 1 (Regex.plus (Regex.set isWordChar)), Regex.chars ":",
    Regex.star (Regex.set isJsWhitespace), Regex.chars "// Required: ",
    Regex.group 2 (Regex.plus (Regex.set isListChar)),
    Regex.star (Regex.set isJsWhitespace), Regex.chars "// Optional: ",
    Regex.group 3 (Regex.star (Regex.set isListChar))]

/-- The expression
`/\/\/ Relationship Type: (\w+)\s*\/\/ From: ([\w, ]+)\s*\/\/ To: ([\w, ]+)\s*\/\/ Properties: ([\w, ]*)/g`. -/
def relSchemaRegex : Regex :=
  Regex.cat [Regex.chars "// Relationship Type: ",
    Regex.group 1 (Regex.plus (Regex.set isWordChar)),
    Regex.star (Regex.set isJsWhitespace), Regex.chars "// From: ",
    Regex.group 2 (Regex.plus (Regex.set isListChar)),
    Regex.star (Regex.set isJsWhitespace), Regex.chars "// To: ",
    Regex.group 3 (Regex.plus (Regex.set isListChar)),
    Regex.star (Regex.set isJsWhitespace), Regex.chars "// Properties: ",
    Regex.group 4 (Regex.star (Regex.set isListChar))]

/-- The expression `text.split(',').map(p => p.trim()).filter(p => p)`. -/
def listNames (text : String) : List String :=
  ((splitOnChar text ',').map trim).filter (fun p => p ≠ "")

/-- The expression `text.split(',').map(t => t.trim())`. -/
def listTypes (text : String) : List String :=
  (splitOnChar text ',').map trim

/-- The assignment `table[key] = value` on an object literal, for an object
value: an own property is overwritten in place, a new one is added at the end,
and the key `__proto__` replaces the prototype of the table and adds no own
property. -/
def setEntry {β : Type} (table : List (String × β)) (key : String) (value : β) :
    List (String × β) :=
  if key = "__proto__" then table
  else if hasOwn table key then
    table.map (fun e => if e.1 = key then (e.1, value) else e)
  else table ++ [(key, value)]

/-- The body of the first loop of `parseEntitySchema`. -/
def registerEntityType (entityTypes : List (String × EntitySchema)) (m : RegexMatch) :
    List (String × EntitySchema) :=
  setEntry entityTypes ((m.group 1).getD "") ⟨(m.group 2).getD "", [], []⟩

/-- The body of the second loop of `parseEntitySchema`. When
`entityTypes[entityType]` is not an own entry it is absent, or an inherited
member on which the two lists are stored: the entries of the table stay as they
are. -/
def attachProperties (entityTypes : List (String × EntitySchema)) (m : RegexMatch) :
    List (String × EntitySchema) :=
  let entityType := (m.group 1).getD ""
  let requiredProps := listNames ((m.group 2).getD "")
  let optionalProps := listNames ((m.group 3).getD "")
  if hasOwn entityTypes entityType then
    entityTypes.map (fun e =>
      if e.1 = entityType then (e.1, ⟨e.2.uniqueProperty, requiredProps, optionalProps⟩)
      else e)
  else entityTypes

/-- The function `parseEntitySchema(schemaContent)`, the same in both modules:
the own entries of the table it returns, in insertion order. -/
def parseEntitySchema (schemaContent : String) : List (String × EntitySchema) :=
  (matchAll propertySchemaRegex schemaContent).foldl attachProperties
    ((matchAll entitySchemaRegex schemaContent).foldl registerEntityType [])

/-- The body of the loop of `parseRelationshipSchema`. -/
def registerRelationshipType (relationshipTypes : List (String × RelationshipSchema))
    (m : RegexMatch) : List (String × RelationshipSchema) :=
  setEntry relationshipTypes ((m.group 1).getD "")
    ⟨listTypes ((m.group 2).getD ""), listTypes ((m.group 3).getD ""),
      listNames ((m.group 4).getD "")⟩

/-- The function `parseRelationshipSchema(schemaContent)`: the own entries of
the table it returns, in insertion order. -/
def parseRelationshipSchema (schemaContent : String) : List (String × RelationshipSchema) :=
  (matchAll relSchemaRegex schemaContent).foldl registerRelationshipType []

/-- The EntityTypeSchema invariant: no property name is in both the required
and the optional list. -/
def SchemaInvariant (schema : EntitySchema) : Prop :=
  ∀ p, p ∈ schema.required → p ∉ schema.optional

/-- The type name of a match of `entitySchemaRegex` or `propertySchemaRegex`. -/
def declaredType (m : RegexMatch) : String :=
  (m.group 1).getD ""

/-! ## The file loops of `conflict-detection.js` -/

/-- The alternation `("[^"]*"|'[^']*')`; the quotes are the code points 34 and 39. -/
def quotedRegex : Regex :=
  Regex.alt
    (Regex.cat [Regex.set (fun c => c == Char.ofNat 34),
      Regex.star (Regex.set (fun c => c != Char.ofNat 34)),
      Regex.set (fun c => c == Char.ofNat 34)])
    (Regex.cat [Regex.set (fun c => c == Char.ofNat 39),
      Regex.star (Regex.set (fun c => c != Char.ofNat 39)),
      Regex.set (fun c => c == Char.ofNat 39)])

/-- The expressions `/name: ("[^"]*"|'[^']*')/`, `/context: (...)/`,
`/latex: (...)/` and `/meaning: (...)/`. -/
def quotedPropertyRegex (key : String) : Regex :=
  Regex.cat [Regex.chars (key ++ ": "), Regex.group 1 quotedRegex]

/-- The value `m[1].replace(/["']/g, '')` of the first match `m` of
`quotedPropertyRegex key` in `propsText`, if there is one. -/
def quotedProperty (key propsText : String) : Option String :=
  match search (quotedPropertyRegex key) propsText with
  | some m => some (removeQuotes ((m.group 1).getD ""))
  | none => none

/-- The expression `/CREATE \([\w]*:Symbol {([^}]*)}/`. -/
def symbolRegex : Regex :=
  Regex.cat [Regex.chars "CREATE (", Regex.star (Regex.set isWordChar),
    Regex.chars ":Symbol \x7b", Regex.group 1 (Regex.star (Regex.set (fun c => c != '}'))),
    Regex.chars "\x7d"]

/-- The expression `/CREATE \([\w]*\)-\[:CONFLICTS_WITH {([^}]*)}\]->\([\w]*\)/g`. -/
def conflictRegex : Regex :=
  Regex.cat [Regex.chars "CREATE (", Regex.star (Regex.set isWordChar),
    Regex.chars ")-[:CONFLICTS_WITH \x7b",
    Regex.group 1 (Regex.star (Regex.set (fun c => c != '}'))), Regex.chars "\x7d]->(",
    Regex.star (Regex.set isWordChar), Regex.chars ")"]

/-- The body of the file loop of `getAllSymbols`, on the path and the content
of a file that can be read: `none` when the file is skipped. -/
def readSymbol (file content : String) : Option Symbol :=
  if includes content "[SYMBOL_NAME]" || includes content "[PLACEHOLDER]" then none
  else
    match search symbolRegex content with
    | none => none
    | some symbolMatch =>
      let propsText := (symbolMatch.group 1).getD ""
      some
        { name := quotedProperty "name" propsText
          context := quotedProperty "context" propsText
          latex := quotedProperty "latex" propsText
          meaning := quotedProperty "meaning" propsText
          sourceFile := file
          conflicts := decide ((matchTexts conflictRegex content).length > 0) }

/-- The function `getAllSymbols`, on the paths and contents of the `.cypher`
files of the symbols directory, in directory order. -/
def getAllSymbols (files : List (String × String)) : List Symbol :=
  files.filterMap (fun file => readSymbol file.1 file.2)

/-- The expression `/CREATE \([\w]*:(\w+) {([^}]*)}/`. -/
def entityRegex : Regex :=
  Regex.cat [Regex.chars "CREATE (", Regex.star (Regex.set isWordChar), Regex.chars ":",
    Regex.group 1 (Regex.plus (Regex.set isWordChar)), Regex.chars " \x7b",
    Regex.group 2 (Regex.star (Regex.set (fun c => c != '}'))), Regex.chars "\x7d"]

/-- The extraction part of the file loop of `getEntityConflicts`, on the path
and the content of a file that can be read: `none` when the file is skipped. -/
def readEntityRecord (file content : String) : Option EntityRecord :=
  if includes content "[ENTITY_NAME]" || includes content "[PLACEHOLDER]" then none
  else
    match search entityRegex content with
    | none => none
    | some entityMatch =>
      match quotedProperty "name" ((entityMatch.group 2).getD "") with
      | none => none
      | some name => some ⟨(entityMatch.group 1).getD "", name, file⟩

/-- The records the file loop of `getEntityConflicts` extracts from the
`.cypher` files of the entities directory. -/
def readEntityRecords (files : List (String × String)) : List EntityRecord :=
  files.filterMap (fun file => readEntityRecord file.1 file.2)

/-- The part
`MATCH \([\w]*:(\w+) {[^}]*name: ("[^"]*"|'[^']*')[^}]*}\)[^]*?` of the
relationship expression; `i` and `j` number its groups. -/
def namedNodeRegex (i j : Nat) : Regex :=
  Regex.cat [Regex.chars "MATCH (", Regex.star (Regex.set isWordChar), Regex.chars ":",
    Regex.group i (Regex.plus (Regex.set isWordChar)), Regex.chars " \x7b",
    Regex.star (Regex.set (fun c => c != '}')), Regex.chars "name: ",
    Regex.group j quotedRegex, Regex.star (Regex.set (fun c => c != '}')),
    Regex.chars "\x7d)", Regex.lazyStar (Regex.set (fun _ => true))]

/-- The expression of the file loop of `detectRelationshipConflicts`:
two named nodes, then `CREATE \([^)]*\)-\[:(\w+)`. -/
def relationshipRegex : Regex :=
  Regex.cat [namedNodeRegex 1 2, namedNodeRegex 3 4, Regex.chars "CREATE (",
    Regex.star (Regex.set (fun c => c != ')')), Regex.chars ")-[:",
    Regex.group 5 (Regex.plus (Regex.set isWordChar))]

/-- The body of the file loop of `detectRelationshipConflicts`, on the path and
the content of a file that can be read. -/
def readFileRelationships (file content : String) : List Relationship :=
  if includes content "[ENTITY_NAME]" || includes content "[PLACEHOLDER]" then []
  else
    (matchTexts relationshipRegex content).filterMap (fun text =>
      match search relationshipRegex text with
      | none => none
      | some components =>
        some
          { sourceType := (components.group 1).getD ""
            sourceName := removeQuotes ((components.group 2).getD "")
            targetType := (components.group 3).getD ""
            targetName := removeQuotes ((components.group 4).getD "")
            relationType := (components.group 5).getD ""
            sourceFile := file })

/-- The records the file loop of `detectRelationshipConflicts` extracts from
the `.cypher` files of the relationships directory. -/
def readRelationships (files : List (String × String)) : List Relationship :=
  files.flatMap (fun file => readFileRelationships file.1 file.2)

/-! ## Statements about `validateRelationships` -/

/-- The conditions of C27 a record violates, counted: a matched source variable
that differs from the source variable of the CREATE clause, a matched target
variable that differs from its target variable, a label outside the standard
labels. -/
def violations (rel : ExtractedRelationship) : Nat :=
  (if rel.sourceVariable = rel.actualSourceVar then 0 else 1)
    + (if rel.targetVariable = rel.actualTargetVar then 0 else 1)
    + (if rel.relationType ∈ validTypes then 0 else 1)

/-- The required names a match of `propertySchemaRegex` (a `Properties for T`
block) writes. -/
def blockRequired (m : RegexMatch) : List String :=
  listNames ((m.group 2).getD "")

/-- The optional names a match of `propertySchemaRegex` writes. -/
def blockOptional (m : RegexMatch) : List String :=
  listNames ((m.group 3).getD "")

/-! ## Sets and grouping: closed forms -/

theorem newSet_concat {α : Type} [DecidableEq α] (xs : List α) (x : α) :
    newSet (xs ++ [x]) = if x ∈ newSet xs then newSet xs else newSet xs ++ [x] := by
  simp [newSet, List.foldl_append]

theorem mem_newSet {α : Type} [DecidableEq α] (xs : List α) (a : α) :
    a ∈ newSet xs ↔ a ∈ xs := by
  induction xs using List.reverseRecOn with
  | nil => simp [newSet]
  | append_singleton xs x ih =>
    rw [newSet_concat]
    by_cases hx : x ∈ newSet xs
    · rw [if_pos hx, ih, List.mem_append, List.mem_singleton]
      constructor
      · exact Or.inl
      · rintro (h | h)
        · exact h
        · subst h; exact ih.mp hx
    · rw [if_neg hx, List.mem_append, List.mem_append, ih]

theorem nodup_newSet {α : Type} [DecidableEq α] (xs : List α) : (newSet xs).Nodup := by
  induction xs using List.reverseRecOn with
  | nil => simp [newSet]
  | append_singleton xs x ih =>
    rw [newSet_concat]
    by_cases hx : x ∈ newSet xs
    · rw [if_pos hx]; exact ih
    · rw [if_neg hx]
      exact List.Nodup.append ih (List.nodup_singleton x) (by simpa using hx)

theorem groupsOf_keys {α : Type} (key : α → Option String) (xs : List α) :
    (groupsOf key xs).map Prod.fst = newSet (xs.filterMap key) := by
  simp [groupsOf, List.map_map, Function.comp_def]

theorem hasOwn_groupsOf {α : Type} (key : α → Option String) (xs : List α) (k : String) :
    hasOwn (groupsOf key xs) k = true ↔ ∃ x ∈ xs, key x = some k := by
  simp [hasOwn, groupsOf, mem_newSet]

theorem groupsOf_concat_none {α : Type} (key : α → Option String) (xs : List α) (x : α)
    (h : key x = none) : groupsOf key (xs ++ [x]) = groupsOf key xs := by
  simp [groupsOf, List.filterMap_append, h, List.filter_append]

theorem groupPush_groupsOf {α : Type} (key : α → Option String) (xs : List α) (x : α)
    (k : String) (h : key x = some k) (hk : k ∉ objectPrototypeKeys) :
    groupPush (groupsOf key xs) k x = some (groupsOf key (xs ++ [x])) := by
  unfold groupPush
  by_cases hown : hasOwn (groupsOf key xs) k = true
  · rw [if_pos hown]
    have hmem : k ∈ newSet (xs.filterMap key) := by
      rw [mem_newSet]; simpa [hasOwn_groupsOf] using hown
    simp only [groupsOf, List.filterMap_append, List.filterMap_cons, h, List.filterMap_nil,
      newSet_concat, if_pos hmem, List.map_map, List.filter_append, Option.some.injEq]
    apply List.map_congr_left
    intro k' _
    by_cases hkk : k' = k
    · subst hkk; simp [h]
    · have : ¬ k = k' := fun e => hkk e.symm
      simp [hkk, h, this]
  · rw [if_neg hown, if_neg hk]
    have hmem : k ∉ newSet (xs.filterMap key) := by
      rw [mem_newSet]; simpa [hasOwn_groupsOf] using hown
    have hnone : xs.filter (fun y => key y = some k) = [] := by
      rw [List.filter_eq_nil_iff]
      intro y hy
      have : ¬ ∃ x ∈ xs, key x = some k := by simpa [hasOwn_groupsOf] using hown
      simpa using fun e => this ⟨y, hy, e⟩
    simp only [groupsOf, List.filterMap_append, List.filterMap_cons, h, List.filterMap_nil,
      newSet_concat, if_neg hmem, List.map_append, List.filter_append, Option.some.injEq,
      List.map_cons, List.map_nil, hnone]
    congr 1
    · apply List.map_congr_left
      intro k' hk'
      have : ¬ k = k' := fun e => hmem (e ▸ hk')
      simp [h, this]
    · simp [h]

theorem groupLoop_groupsOf {α : Type} (key : α → Option String) (xs done : List α)
    (h : ∀ x ∈ xs, ∀ k, key x = some k → k ∉ objectPrototypeKeys) :
    groupLoop key xs (groupsOf key done) = some (groupsOf key (done ++ xs)) := by
  induction xs generalizing done with
  | nil => simp [groupLoop]
  | cons x xs ih =>
    have hrest : ∀ y ∈ xs, ∀ k, key y = some k → k ∉ objectPrototypeKeys :=
      fun y hy => h y (List.mem_cons_of_mem _ hy)
    have happ : done ++ x :: xs = (done ++ [x]) ++ xs := by simp
    cases hkx : key x with
    | none =>
      simp only [groupLoop, hkx]
      rw [happ, ← ih (done ++ [x]) hrest, groupsOf_concat_none key done x hkx]
    | some k =>
      simp only [groupLoop, hkx]
      rw [groupPush_groupsOf key done x k hkx (h x (List.mem_cons_self _ _) k hkx)]
      simp only
      rw [happ, ih (done ++ [x]) hrest]

theorem groupLoop_eq_some {α : Type} (key : α → Option String) (xs : List α)
    (h : ∀ x ∈ xs, ∀ k, key x = some k → k ∉ objectPrototypeKeys) :
    groupLoop key xs [] = some (groupsOf key xs) := by
  have := groupLoop_groupsOf key xs [] h
  simpa [groupsOf, newSet] using this

theorem groupLoop_none_of_mem {α : Type} (key : α → Option String) (xs done : List α)
    (hdone : ∀ x ∈ done, ∀ k, key x = some k → k ∉ objectPrototypeKeys)
    (h : ∃ x ∈ xs, ∃ k, key x = some k ∧ k ∈ objectPrototypeKeys) :
    groupLoop key xs (groupsOf key done) = none := by
  induction xs generalizing done with
  | nil => simp at h
  | cons x xs ih =>
    cases hkx : key x with
    | none =>
      simp only [groupLoop, hkx]
      rw [← groupsOf_concat_none key done x hkx]
      apply ih
      · intro y hy k hk
        rcases List.mem_append.mp hy with hy | hy
        · exact hdone y hy k hk
        · simp at hy; subst hy; simp [hkx] at hk
      · obtain ⟨y, hy, k, hk, hp⟩ := h
        rcases List.mem_cons.mp hy with rfl | hy
        · simp [hkx] at hk
        · exact ⟨y, hy, k, hk, hp⟩
    | some k =>
      simp only [groupLoop, hkx]
      by_cases hp : k ∈ objectPrototypeKeys
      · have hown : ¬ hasOwn (groupsOf key done) k = true := by
          rw [hasOwn_groupsOf]
          rintro ⟨y, hy, hk⟩
          exact hdone y hy k hk hp
        simp [groupPush, hown, hp]
      · rw [groupPush_groupsOf key done x k hkx hp]
        simp only
        apply ih
        · intro y hy k' hk'
          rcases List.mem_append.mp hy with hy | hy
          · exact hdone y hy k' hk'
          · simp at hy; subst hy; rw [hkx] at hk'; cases hk'; exact hp
        · obtain ⟨y, hy, k', hk', hp'⟩ := h
          rcases List.mem_cons.mp hy with rfl | hy
          · rw [hkx] at hk'; cases hk'; exact absurd hp' hp
          · exact ⟨y, hy, k', hk', hp'⟩

theorem groupLoop_eq_none {α : Type} (key : α → Option String) (xs : List α)
    (h : ∃ x ∈ xs, ∃ k, key x = some k ∧ k ∈ objectPrototypeKeys) :
    groupLoop key xs [] = none := by
  have := groupLoop_none_of_mem key xs [] (by simp) h
  simpa [groupsOf, newSet] using this


theorem groupLoop_eq {α : Type} (key : α → Option String) (xs : List α) :
    groupLoop key xs [] =
      if xs.any (fun x => inheritedKey (key x)) = true then none
      else some (groupsOf key xs) := by
  by_cases h : xs.any (fun x => inheritedKey (key x)) = true
  · rw [if_pos h]
    apply groupLoop_eq_none
    obtain ⟨x, hx, hk⟩ := List.any_eq_true.mp h
    cases hkx : key x with
    | none => simp [hkx, inheritedKey] at hk
    | some k => exact ⟨x, hx, k, hkx, by simpa [hkx, inheritedKey] using hk⟩
  · rw [if_neg h]
    apply groupLoop_eq_some
    intro x hx k hk hp
    apply h
    exact List.any_eq_true.mpr ⟨x, hx, by simp [hk, inheritedKey, hp]⟩

theorem forEachEntry_eq {β γ : Type} (body : String × β → Option (List γ))
    (throws : String × β → Bool) (found : String × β → List γ) (es : List (String × β))
    (h : ∀ e ∈ es, body e = if throws e = true then none else some (found e)) :
    forEachEntry body es =
      if es.any throws = true then none else some (es.flatMap found) := by
  induction es with
  | nil => simp [forEachEntry]
  | cons e es ih =>
    have he := h e (List.mem_cons_self _ _)
    have ih := ih (fun e' he' => h e' (List.mem_cons_of_mem _ he'))
    by_cases ht : throws e = true
    · simp [forEachEntry, he, ht]
    · by_cases hes : es.any throws = true
      · simp only [forEachEntry, he, if_neg ht, ih, if_pos hes]
        simp [hes]
      · simp only [forEachEntry, he, if_neg ht, ih, if_neg hes]
        simp only [Bool.not_eq_true] at ht hes
        simp [List.any_cons, ht, hes]

theorem objectEntries_perm {β : Type} (obj : List (String × β)) :
    (objectEntries obj).Perm obj := by
  unfold objectEntries
  exact ((List.perm_insertionSort _ _).append_right _).trans (List.filter_append_perm _ _)

theorem mem_objectEntries {β : Type} (obj : List (String × β)) (e : String × β) :
    e ∈ objectEntries obj ↔ e ∈ obj :=
  (objectEntries_perm obj).mem_iff

theorem nameRule_eq (entry : String × List Symbol) :
    nameRule entry = if nameThrows entry = true then none else some (nameFindings entry) := by
  unfold nameRule nameThrows nameFindings
  by_cases hlen : entry.2.length ≤ 1
  · simp [hlen]
  · rw [if_neg hlen, if_neg hlen, groupLoop_eq]
    by_cases ht : entry.2.any (fun s => inheritedKey (truthy s.context)) = true
    · simp [ht, hlen]
    · simp [ht]

theorem detectSymbolConflicts_eq (symbols : List Symbol) :
    detectSymbolConflicts symbols =
      if symbolsThrow symbols = true then none else some (symbolFindings symbols) := by
  unfold detectSymbolConflicts symbolsThrow symbolFindings
  rw [groupLoop_eq, groupLoop_eq]
  by_cases h1 : symbols.any (fun s => inheritedKey (truthy s.name)) = true
  · simp [h1]
  · rw [if_neg h1]
    simp only
    rw [forEachEntry_eq nameRule nameThrows nameFindings _ (fun e _ => nameRule_eq e)]
    by_cases h2 : (objectEntries (groupsOf (fun s => truthy s.name) symbols)).any nameThrows = true
    · simp [h2]
    · rw [if_neg h2]
      by_cases h3 : symbols.any (fun s => inheritedKey (truthy s.latex)) = true
      · simp [h3]
      · simp only [if_neg h3]
        simp only [Bool.not_eq_true] at h1 h2 h3
        simp [h1, h2, h3]


/-! ## Localising the findings of one key -/

theorem filter_flatMap_of_mem {β γ : Type} (L : List (String × β)) (F : String × β → List γ)
    (P : γ → Bool) (n : String) (g : β)
    (hnd : (L.map Prod.fst).Nodup)
    (hloc : ∀ e ∈ L, ∀ f ∈ F e, P f = true → e.1 = n)
    (hmem : (n, g) ∈ L) :
    (L.flatMap F).filter P = (F (n, g)).filter P := by
  induction L with
  | nil => simp at hmem
  | cons e L ih =>
    rw [List.flatMap_cons, List.filter_append]
    rw [List.map_cons, List.nodup_cons] at hnd
    rcases List.mem_cons.mp hmem with heq | hin
    · subst heq
      have : (L.flatMap F).filter P = [] := by
        rw [List.filter_eq_nil_iff]
        intro f hf hP
        obtain ⟨e', he', hfe⟩ := List.mem_flatMap.mp hf
        have := hloc e' (List.mem_cons_of_mem _ he') f hfe hP
        exact hnd.1 (List.mem_map.mpr ⟨e', he', this⟩)
      rw [this, List.append_nil]
    · have : (F e).filter P = [] := by
        rw [List.filter_eq_nil_iff]
        intro f hf hP
        have := hloc e (List.mem_cons_self _ _) f hf hP
        exact hnd.1 (List.mem_map.mpr ⟨(n, g), hin, this.symm⟩)
      rw [this, List.nil_append]
      exact ih hnd.2 (fun e' he' => hloc e' (List.mem_cons_of_mem _ he')) hin

theorem filter_flatMap_of_not_mem {β γ : Type} (L : List (String × β))
    (F : String × β → List γ) (P : γ → Bool) (n : String)
    (hloc : ∀ e ∈ L, ∀ f ∈ F e, P f = true → e.1 = n)
    (hmem : n ∉ L.map Prod.fst) :
    (L.flatMap F).filter P = [] := by
  rw [List.filter_eq_nil_iff]
  intro f hf hP
  obtain ⟨e, he, hfe⟩ := List.mem_flatMap.mp hf
  exact hmem (List.mem_map.mpr ⟨e, he, hloc e he f hfe hP⟩)

theorem objectEntries_keys_nodup {α : Type} (key : α → Option String) (xs : List α) :
    ((objectEntries (groupsOf key xs)).map Prod.fst).Nodup := by
  rw [((objectEntries_perm (groupsOf key xs)).map Prod.fst).nodup_iff, groupsOf_keys]
  exact nodup_newSet _

theorem mem_groupsOf {α : Type} (key : α → Option String) (xs : List α) (k : String)
    (g : List α) :
    (k, g) ∈ groupsOf key xs ↔
      (∃ x ∈ xs, key x = some k) ∧ g = xs.filter (fun x => key x = some k) := by
  simp only [groupsOf, List.mem_map, mem_newSet, List.mem_filterMap, Prod.mk.injEq]
  constructor
  · rintro ⟨k', hk', rfl, rfl⟩
    exact ⟨hk', rfl⟩
  · rintro ⟨hk, rfl⟩
    exact ⟨k, hk, rfl, rfl⟩

theorem mem_keys_groupsOf {α : Type} (key : α → Option String) (xs : List α) (k : String) :
    k ∈ (objectEntries (groupsOf key xs)).map Prod.fst ↔ ∃ x ∈ xs, key x = some k := by
  rw [((objectEntries_perm (groupsOf key xs)).map Prod.fst).mem_iff, groupsOf_keys, mem_newSet]
  simp [List.mem_filterMap]

theorem nodup_length_gt_one {α : Type} (l : List α) (h : l.Nodup) :
    1 < l.length ↔ ∃ a ∈ l, ∃ b ∈ l, a ≠ b := by
  match l, h with
  | [], _ => simp
  | [a], _ => simp
  | a :: b :: tl, h =>
    simp only [List.length_cons]
    constructor
    · intro _
      refine ⟨a, by simp, b, by simp, ?_⟩
      intro e
      rw [List.nodup_cons] at h
      exact h.1 (by simp [e])
    · intro _; omega

theorem newSet_length_le {α : Type} [DecidableEq α] (xs : List α) :
    (newSet xs).length ≤ xs.length :=
  (List.subperm_of_subset (nodup_newSet xs) (fun a ha => (mem_newSet xs a).mp ha)).length_le

theorem truthy_eq_some (v : Option String) (n : String) (hn : n ≠ "") :
    truthy v = some n ↔ v = some n := by
  cases v with
  | none => simp [truthy]
  | some s =>
    by_cases hs : s = ""
    · subst hs; simp [truthy]; exact fun e => hn e.symm
    · simp [truthy, hs]

theorem truthy_ne_some_empty (v : Option String) : truthy v ≠ some "" := by
  cases v with
  | none => simp [truthy]
  | some s =>
    by_cases hs : s = ""
    · simp [truthy, hs]
    · simp [truthy, hs]

theorem inheritedKey_truthy (v : Option String) (h : inheritedKey v = false) :
    inheritedKey (truthy v) = false := by
  cases v with
  | none => simp [truthy, inheritedKey]
  | some s =>
    by_cases hs : s = ""
    · simp [truthy, hs, inheritedKey]
    · simpa [truthy, hs] using h


/-! ## The UndocumentedSymbolConflict rule -/

theorem symbolsThrow_eq_false (symbols : List Symbol)
    (h : ∀ s ∈ symbols, usesPrototypeKey s = false) : symbolsThrow symbols = false := by
  have hs : ∀ s ∈ symbols, inheritedKey (truthy s.name) = false
      ∧ inheritedKey (truthy s.context) = false ∧ inheritedKey (truthy s.latex) = false := by
    intro s hs
    have := h s hs
    simp only [usesPrototypeKey, Bool.or_eq_false_iff] at this
    exact ⟨inheritedKey_truthy _ this.1.1, inheritedKey_truthy _ this.1.2,
      inheritedKey_truthy _ this.2⟩
  simp only [symbolsThrow, Bool.or_eq_false_iff, List.any_eq_false, Bool.not_eq_true]
  refine ⟨⟨fun s hs' => (hs s hs').1, ?_⟩, fun s hs' => (hs s hs').2.2⟩
  intro e he
  rw [mem_objectEntries, mem_groupsOf] at he
  simp only [nameThrows, Bool.and_eq_false_imp, Bool.not_eq_true', decide_eq_false_iff_not,
    List.any_eq_false, Bool.not_eq_true]
  intro _ s hs'
  rw [he.2] at hs'
  exact (hs s (List.mem_of_mem_filter hs')).2.1

theorem mem_contextRule (name : String) (e : String × List Symbol) (f : Conflict)
    (hf : f ∈ contextRule name e) :
    f = Conflict.InconsistentMeaning name e.1
      (newSet ((e.2.map (fun s => s.meaning)).filter (fun m => (truthy m).isSome))) e.2 := by
  unfold contextRule at hf
  simp only at hf
  split at hf
  · simp at hf
  · split at hf
    · simpa using hf
    · simp at hf

theorem mem_latexRule (e : String × List Symbol) (f : Conflict) (hf : f ∈ latexRule e) :
    f = Conflict.InconsistentNaming e.1 (newSet (e.2.map (fun s => s.name))) e.2 := by
  unfold latexRule at hf
  simp only at hf
  split at hf
  · simp at hf
  · split at hf
    · simpa using hf
    · simp at hf

theorem mem_undocumentedRule (name : String) (g : List Symbol) (f : Conflict)
    (hf : f ∈ undocumentedRule name g) :
    f = Conflict.UndocumentedSymbolConflict name (newSet (g.map (fun s => s.context))) g := by
  unfold undocumentedRule at hf
  simp only at hf
  split at hf
  · split at hf
    · simpa using hf
    · simp at hf
  · simp at hf

theorem filter_undocumented_contextRule (n name : String) (L : List (String × List Symbol)) :
    (L.flatMap (contextRule name)).filter (isUndocumentedFor n) = [] := by
  rw [List.filter_eq_nil_iff]
  intro f hf
  obtain ⟨e, _, hfe⟩ := List.mem_flatMap.mp hf
  rw [mem_contextRule name e f hfe]
  simp [isUndocumentedFor]

theorem filter_undocumented_latexRule (n : String) (L : List (String × List Symbol)) :
    (L.flatMap latexRule).filter (isUndocumentedFor n) = [] := by
  rw [List.filter_eq_nil_iff]
  intro f hf
  obtain ⟨e, _, hfe⟩ := List.mem_flatMap.mp hf
  rw [mem_latexRule e f hfe]
  simp [isUndocumentedFor]

theorem undocumented_nameFindings_key (n : String) (e : String × List Symbol) (f : Conflict)
    (hf : f ∈ nameFindings e) (hP : isUndocumentedFor n f = true) : e.1 = n := by
  unfold nameFindings at hf
  split at hf
  · simp at hf
  · rcases List.mem_append.mp hf with h | h
    · rw [mem_undocumentedRule e.1 e.2 f h] at hP
      simpa [isUndocumentedFor] using hP
    · have := filter_undocumented_contextRule n e.1
        (objectEntries (groupsOf (fun s => truthy s.context) e.2))
      rw [List.filter_eq_nil_iff] at this
      exact absurd hP (this f h)

theorem filter_undocumented_symbolFindings (symbols : List Symbol) (n : String) (hn : n ≠ "") :
    (symbolFindings symbols).filter (isUndocumentedFor n) =
      if (symbols.filter (fun s => s.name = some n)).length ≤ 1 then []
      else undocumentedRule n (symbols.filter (fun s => s.name = some n)) := by
  have hfilter : symbols.filter (fun s => truthy s.name = some n)
      = symbols.filter (fun s => s.name = some n) := by
    apply List.filter_congr
    intro s _
    simp [truthy_eq_some _ n hn]
  unfold symbolFindings
  rw [List.filter_append, filter_undocumented_latexRule, List.append_nil]
  by_cases hex : ∃ s ∈ symbols, truthy s.name = some n
  · rw [filter_flatMap_of_mem _ nameFindings (isUndocumentedFor n) n
      (symbols.filter (fun s => truthy s.name = some n))
      (objectEntries_keys_nodup _ _)
      (fun e _ f hf hP => undocumented_nameFindings_key n e f hf hP)
      ((mem_objectEntries _ _).mpr ((mem_groupsOf _ _ _ _).mpr ⟨hex, rfl⟩))]
    rw [hfilter]
    unfold nameFindings
    simp only
    split
    · rfl
    · rw [List.filter_append, filter_undocumented_contextRule, List.append_nil]
      unfold undocumentedRule
      simp only
      split
      · split
        · simp [isUndocumentedFor]
        · rfl
      · rfl
  · rw [filter_flatMap_of_not_mem _ nameFindings (isUndocumentedFor n) n
      (fun e _ f hf hP => undocumented_nameFindings_key n e f hf hP)
      (by rw [mem_keys_groupsOf]; exact hex)]
    have : symbols.filter (fun s => s.name = some n) = [] := by
      rw [← hfilter, List.filter_eq_nil_iff]
      intro s hs
      simpa using fun e => hex ⟨s, hs, e⟩
    simp [this]


theorem mem_filter_name (symbols : List Symbol) (n : String) (s : Symbol) :
    s ∈ symbols.filter (fun s => s.name = some n) ↔ s ∈ symbols ∧ s.name = some n := by
  simp [List.mem_filter]

theorem contexts_length_gt_one (symbols : List Symbol) (n : String) :
    1 < (newSet ((symbols.filter (fun s => s.name = some n)).map (fun s => s.context))).length
      ↔ ∃ s ∈ symbols, ∃ t ∈ symbols,
          s.name = some n ∧ t.name = some n ∧ s.context ≠ t.context := by
  rw [nodup_length_gt_one _ (nodup_newSet _)]
  simp only [mem_newSet, List.mem_map, mem_filter_name]
  constructor
  · rintro ⟨a, ⟨s, ⟨hs, hsn⟩, rfl⟩, b, ⟨t, ⟨ht, htn⟩, rfl⟩, hab⟩
    exact ⟨s, hs, t, ht, hsn, htn, hab⟩
  · rintro ⟨s, hs, t, ht, hsn, htn, hab⟩
    exact ⟨s.context, ⟨s, ⟨hs, hsn⟩, rfl⟩, t.context, ⟨t, ⟨ht, htn⟩, rfl⟩, hab⟩

/-- C1, amended: for a non-empty name `n`, on records that use no name of an
inherited member, `detectSymbolConflicts` returns exactly one
UndocumentedSymbolConflict finding for `n` when the records named `n` carry two
distinct context values and none has `conflicts` set, and none otherwise; the
finding lists the distinct contexts of those records, each once. -/
theorem undocumented_rule_of_nonempty_name (symbols : List Symbol) (n : String)
    (hn : n ≠ "") (hkeys : ∀ s ∈ symbols, usesPrototypeKey s = false) :
    UndocumentedRuleHolds symbols n := by
  refine ⟨symbolFindings symbols, ?_, ?_, ?_⟩
  · rw [detectSymbolConflicts_eq, symbolsThrow_eq_false symbols hkeys]; simp
  · rintro ⟨hctx, hflag⟩
    have hlen := (contexts_length_gt_one symbols n).mpr hctx
    have hglen : ¬ (symbols.filter (fun s => s.name = some n)).length ≤ 1 := by
      have := newSet_length_le
        ((symbols.filter (fun s => s.name = some n)).map (fun s => s.context))
      rw [List.length_map] at this
      omega
    have hany : (symbols.filter (fun s => s.name = some n)).any (fun s => s.conflicts)
        = false := by
      rw [List.any_eq_false]
      intro s hs
      rw [mem_filter_name] at hs
      simp [hflag s hs.1 hs.2]
    refine ⟨newSet ((symbols.filter (fun s => s.name = some n)).map (fun s => s.context)),
      symbols.filter (fun s => s.name = some n), ?_, nodup_newSet _, ?_⟩
    · rw [filter_undocumented_symbolFindings symbols n hn, if_neg hglen]
      unfold undocumentedRule
      simp only [gt_iff_lt, if_pos hlen, hany]
      simp
    · intro c
      simp only [mem_newSet, List.mem_map, mem_filter_name]
      constructor
      · rintro ⟨s, ⟨hs, hsn⟩, rfl⟩; exact ⟨s, hs, hsn, rfl⟩
      · rintro ⟨s, hs, hsn, rfl⟩; exact ⟨s, ⟨hs, hsn⟩, rfl⟩
  · intro hcond
    rw [filter_undocumented_symbolFindings symbols n hn]
    split
    · rfl
    · unfold undocumentedRule
      simp only [gt_iff_lt]
      split
      · rename_i hlen
        split
        · rename_i hany
          exfalso
          apply hcond
          refine ⟨(contexts_length_gt_one symbols n).mp hlen, ?_⟩
          intro s hs hsn
          simp only [Bool.not_eq_true', List.any_eq_false] at hany
          have := hany s ((mem_filter_name symbols n s).mpr ⟨hs, hsn⟩)
          simpa using this
        · rfl
      · rfl

/-- Witness for `undocumented_rule_of_nonempty_name`: Scenario A of the
specification, two symbols named `v` in two contexts. -/
theorem undocumented_rule_of_nonempty_name_witness :
    UndocumentedRuleHolds
      [⟨some "v", some "fluid dynamics", none, none, "a.cypher", false⟩,
       ⟨some "v", some "linear algebra", none, none, "b.cypher", false⟩] "v" :=
  undocumented_rule_of_nonempty_name _ "v" (by decide) (by decide)

/-- C1 as stated fails for the empty name: two records named `""` in two
contexts, none flagged, yield no finding, because records with a falsy name are
skipped. -/
theorem undocumented_rule_fails_for_empty_name :
    ¬ UndocumentedRuleHolds
      [⟨some "", some "fluid dynamics", none, none, "a.cypher", false⟩,
       ⟨some "", some "linear algebra", none, none, "b.cypher", false⟩] "" := by
  rintro ⟨findings, hdet, hyes, _⟩
  have hval : detectSymbolConflicts
      [⟨some "", some "fluid dynamics", none, none, "a.cypher", false⟩,
       ⟨some "", some "linear algebra", none, none, "b.cypher", false⟩] = some [] := by
    decide
  rw [hval] at hdet
  cases hdet
  obtain ⟨contexts, evidence, h, _⟩ := hyes ⟨⟨_, List.mem_cons_self _ _, _,
    List.mem_cons_of_mem _ (List.mem_cons_self _ _), rfl, rfl, by decide⟩, by
      intro s hs _
      simp at hs
      rcases hs with rfl | rfl <;> rfl⟩
  simp at h


/-! ## The InconsistentNaming rule -/

theorem filter_naming_nameFindings (l : String) (L : List (String × List Symbol)) :
    (L.flatMap nameFindings).filter (isNamingFor l) = [] := by
  rw [List.filter_eq_nil_iff]
  intro f hf
  obtain ⟨e, _, hfe⟩ := List.mem_flatMap.mp hf
  unfold nameFindings at hfe
  split at hfe
  · simp at hfe
  · rcases List.mem_append.mp hfe with h | h
    · rw [mem_undocumentedRule e.1 e.2 f h]; simp [isNamingFor]
    · obtain ⟨e', _, hfe'⟩ := List.mem_flatMap.mp h
      rw [mem_contextRule e.1 e' f hfe']; simp [isNamingFor]

theorem filter_naming_symbolFindings (symbols : List Symbol) (l : String) (hl : l ≠ "") :
    (symbolFindings symbols).filter (isNamingFor l) =
      latexRule (l, symbols.filter (fun s => s.latex = some l)) := by
  have hfilter : symbols.filter (fun s => truthy s.latex = some l)
      = symbols.filter (fun s => s.latex = some l) := by
    apply List.filter_congr
    intro s _
    simp [truthy_eq_some _ l hl]
  have hloc : ∀ e ∈ objectEntries (groupsOf (fun s => truthy s.latex) symbols),
      ∀ f ∈ latexRule e, isNamingFor l f = true → e.1 = l := by
    intro e _ f hf hP
    rw [mem_latexRule e f hf] at hP
    simpa [isNamingFor] using hP
  have hself : ∀ g, (latexRule (l, g)).filter (isNamingFor l) = latexRule (l, g) := by
    intro g
    rw [List.filter_eq_self]
    intro f hf
    rw [mem_latexRule _ f hf]
    simp [isNamingFor]
  unfold symbolFindings
  rw [List.filter_append, filter_naming_nameFindings, List.nil_append]
  by_cases hex : ∃ s ∈ symbols, truthy s.latex = some l
  · rw [filter_flatMap_of_mem _ latexRule (isNamingFor l) l
      (symbols.filter (fun s => truthy s.latex = some l))
      (objectEntries_keys_nodup _ _) hloc
      ((mem_objectEntries _ _).mpr ((mem_groupsOf _ _ _ _).mpr ⟨hex, rfl⟩))]
    rw [hfilter, hself]
  · rw [filter_flatMap_of_not_mem _ latexRule (isNamingFor l) l hloc
      (by rw [mem_keys_groupsOf]; exact hex)]
    have : symbols.filter (fun s => s.latex = some l) = [] := by
      rw [← hfilter, List.filter_eq_nil_iff]
      intro s hs
      simpa using fun e => hex ⟨s, hs, e⟩
    simp [this, latexRule]

theorem names_length_gt_one (symbols : List Symbol) (l : String) :
    1 < (newSet ((symbols.filter (fun s => s.latex = some l)).map (fun s => s.name))).length
      ↔ NamesDiffer symbols l := by
  rw [nodup_length_gt_one _ (nodup_newSet _)]
  simp only [mem_newSet, List.mem_map, List.mem_filter, decide_eq_true_eq, NamesDiffer]
  constructor
  · rintro ⟨a, ⟨s, ⟨hs, hsn⟩, rfl⟩, b, ⟨t, ⟨ht, htn⟩, rfl⟩, hab⟩
    exact ⟨s, hs, t, ht, hsn, htn, hab⟩
  · rintro ⟨s, hs, t, ht, hsn, htn, hab⟩
    exact ⟨s.name, ⟨s, ⟨hs, hsn⟩, rfl⟩, t.name, ⟨t, ⟨ht, htn⟩, rfl⟩, hab⟩

/-- C7, amended: for a non-empty latex rendering `l`, on records that use no
name of an inherited member, `detectSymbolConflicts` returns exactly one
InconsistentNaming finding for `l` when the records rendered as `l` carry two
distinct names, and none otherwise, whatever the grouping by name; the finding
lists those names, each once. -/
theorem naming_rule_of_nonempty_latex (symbols : List Symbol) (l : String)
    (hl : l ≠ "") (hkeys : ∀ s ∈ symbols, usesPrototypeKey s = false) :
    InconsistentNamingRuleHolds symbols l := by
  refine ⟨symbolFindings symbols, ?_, ?_, ?_⟩
  · rw [detectSymbolConflicts_eq, symbolsThrow_eq_false symbols hkeys]; simp
  · intro hdiff
    have hlen := (names_length_gt_one symbols l).mpr hdiff
    have hglen : ¬ (symbols.filter (fun s => s.latex = some l)).length ≤ 1 := by
      have := newSet_length_le
        ((symbols.filter (fun s => s.latex = some l)).map (fun s => s.name))
      rw [List.length_map] at this
      omega
    refine ⟨newSet ((symbols.filter (fun s => s.latex = some l)).map (fun s => s.name)),
      symbols.filter (fun s => s.latex = some l), ?_, nodup_newSet _, ?_⟩
    · rw [filter_naming_symbolFindings symbols l hl]
      unfold latexRule
      simp only [gt_iff_lt, if_neg hglen, if_pos hlen]
    · intro m
      simp only [mem_newSet, List.mem_map, List.mem_filter, decide_eq_true_eq]
      constructor
      · rintro ⟨s, ⟨hs, hsn⟩, rfl⟩; exact ⟨s, hs, hsn, rfl⟩
      · rintro ⟨s, hs, hsn, rfl⟩; exact ⟨s, ⟨hs, hsn⟩, rfl⟩
  · intro hdiff
    rw [filter_naming_symbolFindings symbols l hl]
    unfold latexRule
    simp only [gt_iff_lt]
    split
    · rfl
    · split
      · rename_i hlen
        exact absurd ((names_length_gt_one symbols l).mp hlen) hdiff
      · rfl

/-- Witness for `naming_rule_of_nonempty_latex`: one rendering under two names. -/
theorem naming_rule_of_nonempty_latex_witness :
    InconsistentNamingRuleHolds
      [⟨some "velocity", some "fluid dynamics", some "\\nu", none, "a.cypher", false⟩,
       ⟨some "speed", some "kinematics", some "\\nu", none, "b.cypher", false⟩]
      "\\nu" :=
  naming_rule_of_nonempty_latex _ "\\nu" (by decide) (by decide)

/-- C7 as stated fails for the empty rendering: two records whose latex is `""`
under two names yield no finding, because records with a falsy latex are
skipped. -/
theorem naming_rule_fails_for_empty_latex :
    ¬ InconsistentNamingRuleHolds
      [⟨some "velocity", some "fluid dynamics", some "", none, "a.cypher", false⟩,
       ⟨some "speed", some "kinematics", some "", none, "b.cypher", false⟩] "" := by
  rintro ⟨findings, hdet, hyes, _⟩
  have hval : detectSymbolConflicts
      [⟨some "velocity", some "fluid dynamics", some "", none, "a.cypher", false⟩,
       ⟨some "speed", some "kinematics", some "", none, "b.cypher", false⟩] = some [] := by
    decide
  rw [hval] at hdet
  cases hdet
  obtain ⟨names, evidence, h, _⟩ := hyes ⟨_, List.mem_cons_self _ _, _,
    List.mem_cons_of_mem _ (List.mem_cons_self _ _), rfl, rfl, by decide⟩
  simp at h


/-! ## The InconsistentMeaning rule -/

theorem meaning_nameFindings_key (n c : String) (e : String × List Symbol) (f : Conflict)
    (hf : f ∈ nameFindings e) (hP : isMeaningFor n c f = true) : e.1 = n := by
  unfold nameFindings at hf
  split at hf
  · simp at hf
  · rcases List.mem_append.mp hf with h | h
    · rw [mem_undocumentedRule e.1 e.2 f h] at hP
      simp [isMeaningFor] at hP
    · obtain ⟨e', _, hfe'⟩ := List.mem_flatMap.mp h
      rw [mem_contextRule e.1 e' f hfe'] at hP
      simp only [isMeaningFor, Bool.and_eq_true, decide_eq_true_eq] at hP
      exact hP.1

theorem filter_meaning_latexRule (n c : String) (L : List (String × List Symbol)) :
    (L.flatMap latexRule).filter (isMeaningFor n c) = [] := by
  rw [List.filter_eq_nil_iff]
  intro f hf
  obtain ⟨e, _, hfe⟩ := List.mem_flatMap.mp hf
  rw [mem_latexRule e f hfe]
  simp [isMeaningFor]

theorem filter_meaning_undocumentedRule (n c name : String) (g : List Symbol) :
    (undocumentedRule name g).filter (isMeaningFor n c) = [] := by
  rw [List.filter_eq_nil_iff]
  intro f hf
  rw [mem_undocumentedRule name g f hf]
  simp [isMeaningFor]

theorem filter_meaning_contextRules (n c : String) (hc : c ≠ "") (g : List Symbol) :
    ((objectEntries (groupsOf (fun s => truthy s.context) g)).flatMap
        (contextRule n)).filter (isMeaningFor n c) =
      contextRule n (c, g.filter (fun s => s.context = some c)) := by
  have hfilter : g.filter (fun s => truthy s.context = some c)
      = g.filter (fun s => s.context = some c) := by
    apply List.filter_congr
    intro s _
    simp [truthy_eq_some _ c hc]
  have hloc : ∀ e ∈ objectEntries (groupsOf (fun s => truthy s.context) g),
      ∀ f ∈ contextRule n e, isMeaningFor n c f = true → e.1 = c := by
    intro e _ f hf hP
    rw [mem_contextRule n e f hf] at hP
    simp only [isMeaningFor, Bool.and_eq_true, decide_eq_true_eq] at hP
    exact hP.2
  have hself : ∀ h, (contextRule n (c, h)).filter (isMeaningFor n c) = contextRule n (c, h) := by
    intro h
    rw [List.filter_eq_self]
    intro f hf
    rw [mem_contextRule _ _ f hf]
    simp [isMeaningFor]
  by_cases hex : ∃ s ∈ g, truthy s.context = some c
  · rw [filter_flatMap_of_mem _ (contextRule n) (isMeaningFor n c) c
      (g.filter (fun s => truthy s.context = some c))
      (objectEntries_keys_nodup _ _) hloc
      ((mem_objectEntries _ _).mpr ((mem_groupsOf _ _ _ _).mpr ⟨hex, rfl⟩))]
    rw [hfilter, hself]
  · rw [filter_flatMap_of_not_mem _ (contextRule n) (isMeaningFor n c) c hloc
      (by rw [mem_keys_groupsOf]; exact hex)]
    have : g.filter (fun s => s.context = some c) = [] := by
      rw [← hfilter, List.filter_eq_nil_iff]
      intro s hs
      simpa using fun e => hex ⟨s, hs, e⟩
    simp [this, contextRule]

theorem filter_meaning_symbolFindings (symbols : List Symbol) (n c : String)
    (hn : n ≠ "") (hc : c ≠ "") :
    (symbolFindings symbols).filter (isMeaningFor n c) =
      if (symbols.filter (fun s => s.name = some n)).length ≤ 1 then []
      else contextRule n
        (c, (symbols.filter (fun s => s.name = some n)).filter (fun s => s.context = some c)) := by
  have hfilter : symbols.filter (fun s => truthy s.name = some n)
      = symbols.filter (fun s => s.name = some n) := by
    apply List.filter_congr
    intro s _
    simp [truthy_eq_some _ n hn]
  unfold symbolFindings
  rw [List.filter_append, filter_meaning_latexRule, List.append_nil]
  by_cases hex : ∃ s ∈ symbols, truthy s.name = some n
  · rw [filter_flatMap_of_mem _ nameFindings (isMeaningFor n c) n
      (symbols.filter (fun s => truthy s.name = some n))
      (objectEntries_keys_nodup _ _)
      (fun e _ f hf hP => meaning_nameFindings_key n c e f hf hP)
      ((mem_objectEntries _ _).mpr ((mem_groupsOf _ _ _ _).mpr ⟨hex, rfl⟩))]
    rw [hfilter]
    unfold nameFindings
    simp only
    split
    · rfl
    · rw [List.filter_append, filter_meaning_undocumentedRule, List.nil_append,
        filter_meaning_contextRules n c hc]
  · rw [filter_flatMap_of_not_mem _ nameFindings (isMeaningFor n c) n
      (fun e _ f hf hP => meaning_nameFindings_key n c e f hf hP)
      (by rw [mem_keys_groupsOf]; exact hex)]
    have : symbols.filter (fun s => s.name = some n) = [] := by
      rw [← hfilter, List.filter_eq_nil_iff]
      intro s hs
      simpa using fun e => hex ⟨s, hs, e⟩
    simp [this]

theorem mem_meanings (symbols : List Symbol) (n c : String) (m : Option String) :
    m ∈ newSet ((((symbols.filter (fun s => s.name = some n)).filter
        (fun s => s.context = some c)).map (fun s => s.meaning)).filter
          (fun m => (truthy m).isSome))
      ↔ (truthy m).isSome = true
          ∧ ∃ s ∈ symbols, s.name = some n ∧ s.context = some c ∧ s.meaning = m := by
  simp only [mem_newSet, List.mem_filter, List.mem_map, decide_eq_true_eq]
  constructor
  · rintro ⟨⟨s, ⟨⟨hs, hsn⟩, hsc⟩, rfl⟩, hm⟩
    exact ⟨hm, s, hs, hsn, hsc, rfl⟩
  · rintro ⟨hm, s, hs, hsn, hsc, rfl⟩
    exact ⟨⟨s, ⟨⟨hs, hsn⟩, hsc⟩, rfl⟩, hm⟩

theorem meanings_length_gt_one (symbols : List Symbol) (n c : String) :
    1 < (newSet ((((symbols.filter (fun s => s.name = some n)).filter
        (fun s => s.context = some c)).map (fun s => s.meaning)).filter
          (fun m => (truthy m).isSome))).length
      ↔ MeaningsDiffer symbols n c := by
  rw [nodup_length_gt_one _ (nodup_newSet _)]
  simp only [mem_meanings, MeaningsDiffer]
  constructor
  · rintro ⟨a, ⟨ha, s, hs, hsn, hsc, rfl⟩, b, ⟨hb, t, ht, htn, htc, rfl⟩, hab⟩
    exact ⟨s, hs, t, ht, hsn, hsc, htn, htc, ha, hb, hab⟩
  · rintro ⟨s, hs, t, ht, hsn, hsc, htn, htc, ha, hb, hab⟩
    exact ⟨s.meaning, ⟨ha, s, hs, hsn, hsc, rfl⟩, t.meaning, ⟨hb, t, ht, htn, htc, rfl⟩, hab⟩

theorem meanings_length_le (symbols : List Symbol) (n c : String) :
    (newSet ((((symbols.filter (fun s => s.name = some n)).filter
        (fun s => s.context = some c)).map (fun s => s.meaning)).filter
          (fun m => (truthy m).isSome))).length
      ≤ ((symbols.filter (fun s => s.name = some n)).filter
          (fun s => s.context = some c)).length := by
  refine (newSet_length_le _).trans ((List.length_filter_le _ _).trans ?_)
  rw [List.length_map]

/-- C6, amended: for a non-empty name `n` and a non-empty context `c`, on
records that use no name of an inherited member, `detectSymbolConflicts`
returns exactly one InconsistentMeaning finding for `(n, c)` when the records
with that name and context carry two distinct non-empty meanings, and none
otherwise; the finding lists those meanings, each once. -/
theorem meaning_rule_of_nonempty_keys (symbols : List Symbol) (n c : String)
    (hn : n ≠ "") (hc : c ≠ "") (hkeys : ∀ s ∈ symbols, usesPrototypeKey s = false) :
    InconsistentMeaningRuleHolds symbols n c := by
  refine ⟨symbolFindings symbols, ?_, ?_, ?_⟩
  · rw [detectSymbolConflicts_eq, symbolsThrow_eq_false symbols hkeys]; simp
  · intro hdiff
    have hlen := (meanings_length_gt_one symbols n c).mpr hdiff
    have hle := meanings_length_le symbols n c
    have hsub : ((symbols.filter (fun s => s.name = some n)).filter
        (fun s => s.context = some c)).length
          ≤ (symbols.filter (fun s => s.name = some n)).length :=
      List.length_filter_le _ _
    have hglen : ¬ (symbols.filter (fun s => s.name = some n)).length ≤ 1 := by omega
    have hhlen : ¬ ((symbols.filter (fun s => s.name = some n)).filter
        (fun s => s.context = some c)).length ≤ 1 := by omega
    refine ⟨_, (symbols.filter (fun s => s.name = some n)).filter
      (fun s => s.context = some c), ?_, nodup_newSet _, mem_meanings symbols n c⟩
    rw [filter_meaning_symbolFindings symbols n c hn hc, if_neg hglen]
    unfold contextRule
    simp only [gt_iff_lt, if_neg hhlen, if_pos hlen]
  · intro hdiff
    rw [filter_meaning_symbolFindings symbols n c hn hc]
    split
    · rfl
    · unfold contextRule
      simp only [gt_iff_lt]
      split
      · rfl
      · split
        · rename_i hlen
          exact absurd ((meanings_length_gt_one symbols n c).mp hlen) hdiff
        · rfl

/-- Witness for `meaning_rule_of_nonempty_keys`: one name and context with two
meanings. -/
theorem meaning_rule_of_nonempty_keys_witness :
    InconsistentMeaningRuleHolds
      [⟨some "v", some "fluid dynamics", none, some "velocity", "a.cypher", false⟩,
       ⟨some "v", some "fluid dynamics", none, some "volume", "b.cypher", false⟩]
      "v" "fluid dynamics" :=
  meaning_rule_of_nonempty_keys _ "v" "fluid dynamics" (by decide) (by decide) (by decide)

/-- C6 as stated fails for the empty context and for the empty name: records
with a falsy context, and records with a falsy name, are skipped, so two
distinct meanings under such a key yield no finding. -/
theorem meaning_rule_fails_for_empty_keys :
    ¬ InconsistentMeaningRuleHolds
        [⟨some "v", some "", none, some "velocity", "a.cypher", false⟩,
         ⟨some "v", some "", none, some "volume", "b.cypher", false⟩] "v" ""
    ∧ ¬ InconsistentMeaningRuleHolds
        [⟨some "", some "fluid dynamics", none, some "velocity", "a.cypher", false⟩,
         ⟨some "", some "fluid dynamics", none, some "volume", "b.cypher", false⟩]
        "" "fluid dynamics" := by
  constructor
  · rintro ⟨findings, hdet, hyes, _⟩
    have hval : detectSymbolConflicts
        [⟨some "v", some "", none, some "velocity", "a.cypher", false⟩,
         ⟨some "v", some "", none, some "volume", "b.cypher", false⟩] = some [] := by
      decide
    rw [hval] at hdet
    cases hdet
    obtain ⟨meanings, evidence, h, _⟩ := hyes ⟨_, List.mem_cons_self _ _, _,
      List.mem_cons_of_mem _ (List.mem_cons_self _ _), rfl, rfl, rfl, rfl,
      by decide, by decide, by decide⟩
    simp at h
  · rintro ⟨findings, hdet, hyes, _⟩
    have hval : detectSymbolConflicts
        [⟨some "", some "fluid dynamics", none, some "velocity", "a.cypher", false⟩,
         ⟨some "", some "fluid dynamics", none, some "volume", "b.cypher", false⟩]
          = some [] := by
      decide
    rw [hval] at hdet
    cases hdet
    obtain ⟨meanings, evidence, h, _⟩ := hyes ⟨_, List.mem_cons_self _ _, _,
      List.mem_cons_of_mem _ (List.mem_cons_self _ _), rfl, rfl, rfl, rfl,
      by decide, by decide, by decide⟩
    simp at h


/-! ## Closed form of `getEntityConflicts` -/

theorem lookup_map_key {β : Type} (L : List String) (v : String → β) (k : String) :
    (L.map (fun k => (k, v k))).lookup k = if k ∈ L then some (v k) else none := by
  induction L with
  | nil => simp
  | cons a L ih =>
    by_cases h : k = a
    · subst h; simp [List.lookup]
    · have : (k == a) = false := by simpa using h
      simp [List.lookup, this, ih, h]

theorem countName_countsOf (names : List String) (k : String) :
    countName (countsOf names) k = countsOf (names ++ [k]) := by
  unfold countName
  rw [countsOf, lookup_map_key]
  by_cases hp : k = "__proto__"
  · have hnot : k ∉ newSet (names.filter (fun k => k ≠ "__proto__")) := by
      rw [mem_newSet]; simp [hp]
    rw [if_neg hnot]
    simp only [if_pos hp]
    subst hp
    simp only [countsOf, List.filter_append]
    simp only [ne_eq, not_true_eq_false, decide_False, List.filter_cons_of_neg,
      Bool.false_eq_true, not_false_eq_true, List.filter_nil, List.append_nil]
    apply List.map_congr_left
    intro k' hk'
    rw [mem_newSet] at hk'
    have hne : k' ≠ "__proto__" := by simpa using (List.mem_filter.mp hk').2
    simp [List.count_append, List.count_singleton, hne]
  · have hfil : (names ++ [k]).filter (fun k => k ≠ "__proto__")
        = names.filter (fun k => k ≠ "__proto__") ++ [k] := by
      simp [List.filter_append, hp]
    by_cases hmem : k ∈ newSet (names.filter (fun k => k ≠ "__proto__"))
    · rw [if_pos hmem]
      by_cases hin : k ∈ objectPrototypeKeys
      · simp only [if_pos hin]
        simp only [countsOf, hfil, newSet_concat, if_pos hmem]
        apply List.map_congr_left
        intro k' _
        by_cases hin' : k' ∈ objectPrototypeKeys
        · simp [hin']
        · have : k ≠ k' := fun e => hin' (e ▸ hin)
          simp [hin', List.count_append, List.count_singleton, this]
      · simp only [if_neg hin]
        simp only [countsOf, hfil, newSet_concat, if_pos hmem, List.map_map]
        apply List.map_congr_left
        intro k' _
        by_cases hkk : k' = k
        · subst hkk
          simp [hin, List.count_append]
        · have : k ≠ k' := fun e => hkk e.symm
          simp [hkk, List.count_append, List.count_singleton, this]
    · rw [if_neg hmem]
      have hcount : names.count k = 0 := by
        rw [List.count_eq_zero]
        intro hk
        apply hmem
        rw [mem_newSet]
        exact List.mem_filter.mpr ⟨hk, by simpa using hp⟩
      simp only [if_neg hp]
      have hrest : ∀ k' ∈ newSet (names.filter (fun k => k ≠ "__proto__")),
          (k', if k' ∈ objectPrototypeKeys then CountValue.text
            else CountValue.number (names.count k'))
          = (k', if k' ∈ objectPrototypeKeys then CountValue.text
            else CountValue.number ((names ++ [k]).count k')) := by
        intro k' hk'
        have : k ≠ k' := fun e => hmem (e ▸ hk')
        simp [List.count_append, List.count_singleton, this]
      by_cases hin : k ∈ objectPrototypeKeys
      · simp only [if_pos hin]
        simp only [countsOf, hfil, newSet_concat, if_neg hmem, List.map_append,
          List.map_cons, List.map_nil, if_pos hin]
        congr 1
        exact List.map_congr_left hrest
      · simp only [if_neg hin]
        simp only [countsOf, hfil, newSet_concat, if_neg hmem, List.map_append,
          List.map_cons, List.map_nil, if_neg hin]
        congr 1
        · exact List.map_congr_left hrest
        · simp [List.count_append, hcount]

theorem foldl_countName (names done : List String) :
    names.foldl countName (countsOf done) = countsOf (done ++ names) := by
  induction names generalizing done with
  | nil => simp
  | cons k names ih =>
    rw [List.foldl_cons, countName_countsOf, ih]
    simp

theorem nameCount_eq (entities : List NamedEntity) :
    entities.foldl (fun acc e => countName acc e.name) []
      = countsOf (entities.map (fun e => e.name)) := by
  have h := foldl_countName (entities.map (fun e => e.name)) []
  rw [List.foldl_map] at h
  simpa [countsOf, newSet] using h


theorem objectEntries_map {β γ : Type} (f : String × β → γ) (obj : List (String × β)) :
    objectEntries (obj.map (fun e => (e.1, f e)))
      = (objectEntries obj).map (fun e => (e.1, f e)) := by
  unfold objectEntries
  rw [List.map_append, List.filter_map, List.filter_map]
  congr 1
  exact (List.map_insertionSort
    (fun a b : String × β => (arrayIndex? a.1).getD 0 ≤ (arrayIndex? b.1).getD 0)
    (fun a b : String × γ => (arrayIndex? a.1).getD 0 ≤ (arrayIndex? b.1).getD 0)
    (fun e => (e.1, f e)) _ (fun a _ b _ => Iff.rfl)).symm

theorem groupsOf_concat_some {α : Type} (key : α → Option String) (xs : List α) (x : α)
    (k : String) (h : key x = some k) :
    groupsOf key (xs ++ [x]) =
      if hasOwn (groupsOf key xs) k = true then
        (groupsOf key xs).map (fun e => if e.1 = k then (e.1, e.2 ++ [x]) else e)
      else groupsOf key xs ++ [(k, [x])] := by
  have hproto : "" ∉ objectPrototypeKeys := by decide
  by_cases hk : k ∈ objectPrototypeKeys
  · -- the closed form does not depend on the prototype: replay the push on a fresh key
    by_cases hown : hasOwn (groupsOf key xs) k = true
    · rw [if_pos hown]
      have hmem : k ∈ newSet (xs.filterMap key) := by
        rw [mem_newSet]; simpa [hasOwn_groupsOf] using hown
      simp only [groupsOf, List.filterMap_append, List.filterMap_cons, h, List.filterMap_nil,
        newSet_concat, if_pos hmem, List.map_map, List.filter_append]
      apply List.map_congr_left
      intro k' _
      by_cases hkk : k' = k
      · subst hkk; simp [h]
      · have : ¬ k = k' := fun e => hkk e.symm
        simp [hkk, h, this]
    · rw [if_neg hown]
      have hmem : k ∉ newSet (xs.filterMap key) := by
        rw [mem_newSet]; simpa [hasOwn_groupsOf] using hown
      have hnone : xs.filter (fun y => key y = some k) = [] := by
        rw [List.filter_eq_nil_iff]
        intro y hy
        have : ¬ ∃ x ∈ xs, key x = some k := by simpa [hasOwn_groupsOf] using hown
        simpa using fun e => this ⟨y, hy, e⟩
      simp only [groupsOf, List.filterMap_append, List.filterMap_cons, h, List.filterMap_nil,
        newSet_concat, if_neg hmem, List.map_append, List.filter_append,
        List.map_cons, List.map_nil, hnone]
      congr 1
      · apply List.map_congr_left
        intro k' hk'
        have : ¬ k = k' := fun e => hmem (e ▸ hk')
        simp [h, this]
      · simp [h]
  · have := groupPush_groupsOf key xs x k h hk
    unfold groupPush at this
    by_cases hown : hasOwn (groupsOf key xs) k = true
    · rw [if_pos hown] at this
      rw [if_pos hown]
      exact (Option.some.inj this).symm
    · rw [if_neg hown, if_neg hk] at this
      rw [if_neg hown]
      exact (Option.some.inj this).symm

theorem hasOwn_map {β γ : Type} (f : String × β → γ) (obj : List (String × β)) (k : String) :
    hasOwn (obj.map (fun e => (e.1, f e))) k = hasOwn obj k := by
  induction obj with
  | nil => rfl
  | cons e obj ih =>
    simp only [hasOwn, List.map_cons, List.any_cons] at ih ⊢
    rw [ih]

theorem entitiesByType_eq (records done : List EntityRecord) :
    records.foldl addEntity
        ((groupsOf entityTypeKey done).map (fun e => (e.1, e.2.map EntityRecord.toNamed)))
      = (groupsOf entityTypeKey (done ++ records)).map
          (fun e => (e.1, e.2.map EntityRecord.toNamed)) := by
  induction records generalizing done with
  | nil => simp
  | cons r records ih =>
    have happ : done ++ r :: records = (done ++ [r]) ++ records := by simp
    rw [List.foldl_cons, happ, ← ih (done ++ [r])]
    congr 1
    unfold addEntity groupPush
    rw [hasOwn_map (fun e : String × List EntityRecord => e.2.map EntityRecord.toNamed)]
    by_cases hin : r.entityType ∈ objectPrototypeKeys
    · have hkey : entityTypeKey r = none := by simp [entityTypeKey, hin]
      have hown : ¬ hasOwn (groupsOf entityTypeKey done) r.entityType = true := by
        rw [hasOwn_groupsOf]
        rintro ⟨x, _, hx⟩
        unfold entityTypeKey at hx
        split at hx
        · cases hx
        · rename_i hnin
          have hx := Option.some.inj hx
          rw [hx] at hnin
          exact hnin hin
      rw [if_neg hown, if_pos hin, groupsOf_concat_none _ _ _ hkey]
    · have hkey : entityTypeKey r = some r.entityType := by simp [entityTypeKey, hin]
      rw [groupsOf_concat_some _ _ _ _ hkey]
      by_cases hown : hasOwn (groupsOf entityTypeKey done) r.entityType = true
      · rw [if_pos hown, if_pos hown]
        simp only [List.map_map]
        apply List.map_congr_left
        intro e _
        by_cases he : e.1 = r.entityType
        · simp [he, EntityRecord.toNamed]
        · simp [he]
      · rw [if_neg hown, if_neg hin, if_neg hown]
        simp [EntityRecord.toNamed]

theorem getEntityConflicts_eq (records : List EntityRecord) :
    getEntityConflicts records =
      (objectEntries (groupsOf entityTypeKey records)).flatMap
        (fun e => typeRule (e.1, e.2.map EntityRecord.toNamed)) := by
  unfold getEntityConflicts
  have h := entitiesByType_eq records []
  have h0 : groupsOf entityTypeKey ([] : List EntityRecord) = [] := rfl
  rw [h0, List.map_nil, List.nil_append] at h
  rw [h, objectEntries_map (fun e : String × List EntityRecord =>
    e.2.map EntityRecord.toNamed), List.flatMap_map]


/-! ## The duplicate-name rule -/

theorem typeRule_eq (T : String) (entities : List NamedEntity) :
    typeRule (T, entities) =
      if entities.length ≤ 1 then []
      else (objectEntries (countsOf (entities.map (fun e => e.name)))).flatMap
        (reportName T entities) := by
  unfold typeRule
  simp only [nameCount_eq]

theorem mem_reportName (T : String) (entities : List NamedEntity)
    (e : String × CountValue) (f : Conflict) (hf : f ∈ reportName T entities e) :
    ∃ count, e.2 = CountValue.number count ∧ 1 < count ∧
      f = Conflict.DuplicateName T e.1 count
        ((entities.filter (fun x => x.name = e.1)).map (fun x => x.sourceFile)) := by
  unfold reportName at hf
  split at hf
  · rename_i count hcount
    split at hf
    · rename_i hgt
      exact ⟨count, hcount, hgt, by simpa using hf⟩
    · simp at hf
  · simp at hf

theorem mem_typeRule (T : String) (entities : List NamedEntity) (f : Conflict)
    (hf : f ∈ typeRule (T, entities)) :
    ∃ name count files, f = Conflict.DuplicateName T name count files := by
  rw [typeRule_eq] at hf
  split at hf
  · simp at hf
  · obtain ⟨e, _, hfe⟩ := List.mem_flatMap.mp hf
    obtain ⟨count, _, _, h⟩ := mem_reportName T entities e f hfe
    exact ⟨_, _, _, h⟩

theorem countsOf_keys_nodup (names : List String) :
    ((objectEntries (countsOf names)).map Prod.fst).Nodup := by
  rw [((objectEntries_perm (countsOf names)).map Prod.fst).nodup_iff]
  simp only [countsOf, List.map_map, Function.comp_def, List.map_id']
  exact nodup_newSet _

theorem mem_countsOf (names : List String) (k : String) (v : CountValue) :
    (k, v) ∈ objectEntries (countsOf names) ↔
      (k ∈ names ∧ k ≠ "__proto__") ∧
        v = if k ∈ objectPrototypeKeys then CountValue.text
          else CountValue.number (names.count k) := by
  rw [mem_objectEntries]
  simp only [countsOf, List.mem_map, mem_newSet, List.mem_filter, Prod.mk.injEq,
    decide_eq_true_eq]
  constructor
  · rintro ⟨k', hk', rfl, rfl⟩
    exact ⟨hk', rfl⟩
  · rintro ⟨hk, rfl⟩
    exact ⟨k, hk, rfl, rfl⟩

theorem filter_duplicate_typeRule (T n : String) (hn : n ∉ objectPrototypeKeys)
    (entities : List NamedEntity) :
    (typeRule (T, entities)).filter (isDuplicateFor T n) =
      if 1 < (entities.filter (fun x => x.name = n)).length then
        [Conflict.DuplicateName T n (entities.filter (fun x => x.name = n)).length
          ((entities.filter (fun x => x.name = n)).map (fun x => x.sourceFile))]
      else [] := by
  have hcount : (entities.map (fun e => e.name)).count n
      = (entities.filter (fun x => x.name = n)).length := by
    rw [List.count, List.countP_map, List.countP_eq_length_filter]
    congr 1
  have hle : (entities.filter (fun x => x.name = n)).length ≤ entities.length :=
    List.length_filter_le _ _
  have hproto : n ≠ "__proto__" := fun e => hn (e ▸ by decide)
  have hloc : ∀ e ∈ objectEntries (countsOf (entities.map (fun e => e.name))),
      ∀ f ∈ reportName T entities e, isDuplicateFor T n f = true → e.1 = n := by
    intro e _ f hf hP
    obtain ⟨count, _, _, rfl⟩ := mem_reportName T entities e f hf
    simp only [isDuplicateFor, Bool.and_eq_true, decide_eq_true_eq] at hP
    exact hP.2
  rw [typeRule_eq]
  split
  · rw [if_neg (by omega)]; rfl
  · by_cases hmem : n ∈ entities.map (fun e => e.name)
    · rw [filter_flatMap_of_mem _ (reportName T entities) (isDuplicateFor T n) n
        (CountValue.number ((entities.map (fun e => e.name)).count n))
        (countsOf_keys_nodup _) hloc
        ((mem_countsOf _ _ _).mpr ⟨⟨hmem, hproto⟩, by rw [if_neg hn]⟩)]
      unfold reportName
      simp only [hcount, gt_iff_lt]
      split
      · simp [isDuplicateFor]
      · rfl
    · rw [filter_flatMap_of_not_mem _ (reportName T entities) (isDuplicateFor T n) n hloc]
      · have : entities.filter (fun x => x.name = n) = [] := by
          rw [List.filter_eq_nil_iff]
          intro x hx hxn
          apply hmem
          exact List.mem_map.mpr ⟨x, hx, by simpa using hxn⟩
        simp [this]
      · intro h
        obtain ⟨e, he, hek⟩ := List.mem_map.mp h
        have := (mem_countsOf (entities.map (fun e => e.name)) e.1 e.2).mp he
        rw [hek] at this
        exact hmem this.1.1

/-- The duplicate-name rule holds for every entity type and name that are not
names of inherited members: `getEntityConflicts` reports exactly one
DuplicateName finding for `(T, n)` when `n` occurs more than once among the
records of type `T`, with their number and source files, and none otherwise. -/
theorem duplicate_rule_of_plain_keys (records : List EntityRecord) (T n : String)
    (hT : T ∉ objectPrototypeKeys) (hn : n ∉ objectPrototypeKeys) :
    DuplicateRuleHolds records T n := by
  have hfilter : records.filter (fun r => entityTypeKey r = some T)
      = records.filter (fun r => r.entityType = T) := by
    apply List.filter_congr
    intro r _
    unfold entityTypeKey
    by_cases hr : r.entityType ∈ objectPrototypeKeys
    · have : r.entityType ≠ T := fun e => hT (e ▸ hr)
      simp [hr, this]
    · simp [hr]
  have hocc : ((records.filter (fun r => r.entityType = T)).map
      EntityRecord.toNamed).filter (fun x => x.name = n)
        = (records.filter (fun r => r.entityType = T ∧ r.name = n)).map
            EntityRecord.toNamed := by
    rw [List.filter_map, List.filter_filter]
    congr 1
    apply List.filter_congr
    intro r _
    simp [EntityRecord.toNamed, Function.comp_def, Bool.and_comm]
  have hloc : ∀ e ∈ objectEntries (groupsOf entityTypeKey records),
      ∀ f ∈ typeRule (e.1, e.2.map EntityRecord.toNamed),
        isDuplicateFor T n f = true → e.1 = T := by
    intro e _ f hf hP
    obtain ⟨name, count, files, rfl⟩ := mem_typeRule _ _ f hf
    simp only [isDuplicateFor, Bool.and_eq_true, decide_eq_true_eq] at hP
    exact hP.1
  have hmain : (getEntityConflicts records).filter (isDuplicateFor T n) =
      if 1 < (records.filter (fun r => r.entityType = T ∧ r.name = n)).length then
        [Conflict.DuplicateName T n
          (records.filter (fun r => r.entityType = T ∧ r.name = n)).length
          ((records.filter (fun r => r.entityType = T ∧ r.name = n)).map
            (fun r => r.sourceFile))]
      else [] := by
    rw [getEntityConflicts_eq]
    by_cases hex : ∃ r ∈ records, entityTypeKey r = some T
    · rw [filter_flatMap_of_mem _ _ (isDuplicateFor T n) T
        (records.filter (fun r => entityTypeKey r = some T))
        (objectEntries_keys_nodup _ _) hloc
        ((mem_objectEntries _ _).mpr ((mem_groupsOf _ _ _ _).mpr ⟨hex, rfl⟩))]
      simp only
      rw [hfilter, filter_duplicate_typeRule T n hn, hocc]
      simp [EntityRecord.toNamed, List.map_map, Function.comp_def]
    · rw [filter_flatMap_of_not_mem _ _ (isDuplicateFor T n) T hloc
        (by rw [mem_keys_groupsOf]; exact hex)]
      have : records.filter (fun r => r.entityType = T ∧ r.name = n) = [] := by
        rw [List.filter_eq_nil_iff]
        intro r hr hrT
        apply hex
        refine ⟨r, hr, ?_⟩
        have hrT : r.entityType = T := by simpa using (by simpa using hrT : _ ∧ _).1
        simp [entityTypeKey, hrT, hT]
      rw [this]
      simp
  unfold DuplicateRuleHolds
  rw [hmain]
  constructor
  · intro h; rw [if_pos h]
  · intro h; rw [if_neg (by omega)]


/-! ## The relationship rule -/

theorem detectRelationshipConflicts_eq (relationships : List Relationship) :
    detectRelationshipConflicts relationships =
      if relationshipsThrow relationships = true then none
      else some (relationshipFindings relationships) := by
  unfold detectRelationshipConflicts relationshipsThrow relationshipFindings
  rw [groupLoop_eq]
  by_cases h : relationships.any (fun r => inheritedKey (some (endpointKey r))) = true
  · simp [h]
  · simp [h]

theorem splitChars_ne_nil (sep : Char) (cs : List Char) : splitChars sep cs ≠ [] := by
  cases cs with
  | nil => simp [splitChars]
  | cons c cs =>
    unfold splitChars
    split
    · simp
    · split <;> simp

theorem joinChars_splitChars (sep : Char) (cs : List Char) :
    joinChars sep (splitChars sep cs) = cs := by
  induction cs with
  | nil => simp [splitChars, joinChars]
  | cons c cs ih =>
    unfold splitChars
    split
    · rename_i hc
      cases hsp : splitChars sep cs with
      | nil => exact absurd hsp (splitChars_ne_nil sep cs)
      | cons w ws =>
        rw [hsp] at ih
        simp [joinChars, ih, hc]
    · cases hsp : splitChars sep cs with
      | nil => exact absurd hsp (splitChars_ne_nil sep cs)
      | cons w ws =>
        rw [hsp] at ih
        cases ws with
        | nil =>
          simp only [joinChars] at ih ⊢
          rw [ih]
        | cons w' ws =>
          simp only [joinChars] at ih ⊢
          rw [← ih]
          simp

theorem splitUnderscore_injective (k k' : String)
    (h : splitUnderscore k = splitUnderscore k') : k = k' := by
  unfold splitUnderscore at h
  have hinj : Function.Injective String.mk := fun a b hab => by injection hab
  have h' := List.map_injective_iff.mpr hinj h
  have := congrArg (joinChars '_') h'
  rw [joinChars_splitChars, joinChars_splitChars] at this
  exact String.ext this

theorem mem_endpointRule (e : String × List Relationship) (f : Conflict)
    (hf : f ∈ endpointRule e) :
    ∃ pair ∈ exclusiveRelTypes,
      f = Conflict.ConflictingRelationships pair (splitUnderscore e.1) e.2
      ∧ (∃ r ∈ e.2, r.relationType = pair.1) ∧ (∃ r ∈ e.2, r.relationType = pair.2) := by
  unfold endpointRule at hf
  split at hf
  · simp at hf
  · obtain ⟨pair, hpair, hfp⟩ := List.mem_flatMap.mp hf
    simp only at hfp
    split at hfp
    · rename_i hboth
      simp only [Bool.and_eq_true, List.any_eq_true, decide_eq_true_eq] at hboth
      exact ⟨pair, hpair, by simpa using hfp, hboth.1, hboth.2⟩
    · simp at hfp

theorem exclusive_pair_ne (pair : String × String) (h : pair ∈ exclusiveRelTypes) :
    pair.1 ≠ pair.2 := by
  simp only [exclusiveRelTypes, List.mem_cons, List.mem_singleton, List.mem_nil_iff,
    or_false] at h
  rcases h with rfl | rfl <;> decide

theorem endpointRule_of_both (k : String) (g : List Relationship) (pair : String × String)
    (hpair : pair ∈ exclusiveRelTypes)
    (h1 : ∃ r ∈ g, r.relationType = pair.1) (h2 : ∃ r ∈ g, r.relationType = pair.2) :
    (endpointRule (k, g)).filter
        (fun f => match f with
          | .ConflictingRelationships relTypes _ _ => decide (relTypes = pair)
          | _ => false)
      = [Conflict.ConflictingRelationships pair (splitUnderscore k) g] := by
  have hlen : ¬ g.length ≤ 1 := by
    obtain ⟨r1, hr1, ht1⟩ := h1
    obtain ⟨r2, hr2, ht2⟩ := h2
    have hne : r1 ≠ r2 := by
      intro e
      rw [e, ht2] at ht1
      exact exclusive_pair_ne pair hpair ht1.symm
    match g, hr1, hr2 with
    | [], hr1, _ => simp at hr1
    | [a], hr1, hr2 =>
      simp at hr1 hr2
      exact absurd (hr1.trans hr2.symm) hne
    | a :: b :: tl, _, _ => simp
  have hany1 : g.any (fun r => decide (r.relationType = pair.1)) = true := by
    obtain ⟨r, hr, ht⟩ := h1
    exact List.any_eq_true.mpr ⟨r, hr, by simpa using ht⟩
  have hany2 : g.any (fun r => decide (r.relationType = pair.2)) = true := by
    obtain ⟨r, hr, ht⟩ := h2
    exact List.any_eq_true.mpr ⟨r, hr, by simpa using ht⟩
  unfold endpointRule
  simp only [if_neg hlen]
  simp only [exclusiveRelTypes, List.mem_cons, List.mem_singleton, List.mem_nil_iff,
    or_false] at hpair
  rcases hpair with rfl | rfl
  · simp only at hany1 hany2
    simp only [exclusiveRelTypes, List.flatMap_cons, List.flatMap_nil, hany1, hany2,
      Bool.and_self, if_true, List.append_nil]
    by_cases hother : (g.any (fun r => decide (r.relationType = "CONFLICTS_WITH"))
        && g.any (fun r => decide (r.relationType = "SYNONYM_OF"))) = true
    · rw [if_pos hother]
      simp [List.filter_cons]
    · rw [if_neg hother]
      simp [List.filter_cons]
  · simp only at hany1 hany2
    simp only [exclusiveRelTypes, List.flatMap_cons, List.flatMap_nil, hany1, hany2,
      Bool.and_self, if_true, List.append_nil]
    by_cases hother : (g.any (fun r => decide (r.relationType = "IMPLEMENTS"))
        && g.any (fun r => decide (r.relationType = "BASED_ON"))) = true
    · rw [if_pos hother]
      simp [List.filter_cons]
    · rw [if_neg hother]
      simp [List.filter_cons]


theorem mem_relationship_group (relationships : List Relationship)
    (e : String × List Relationship)
    (he : e ∈ objectEntries (groupsOf (fun r => some (endpointKey r)) relationships))
    (r : Relationship) :
    r ∈ e.2 ↔ r ∈ relationships ∧ endpointKey r = e.1 := by
  rw [mem_objectEntries] at he
  have := ((mem_groupsOf _ _ e.1 e.2).mp he).2
  rw [this]
  simp [List.mem_filter]

/-- The relationship rule holds whenever no grouping key is the name of an
inherited member: two relationships of the list with the same source and target
names that carry the two labels of an exclusive pair give exactly one
ConflictingRelationships finding for that pair with both in its evidence. -/
theorem relationship_rule_of_plain_keys (relationships : List Relationship)
    (pair : String × String) (r₁ r₂ : Relationship)
    (hkeys : relationshipsThrow relationships = false)
    (hpair : pair ∈ exclusiveRelTypes)
    (h₁ : r₁ ∈ relationships) (h₂ : r₂ ∈ relationships)
    (hsource : r₁.sourceName = r₂.sourceName) (htarget : r₁.targetName = r₂.targetName)
    (hfirst : r₁.relationType = pair.1) (hsecond : r₂.relationType = pair.2) :
    RelationshipRuleHolds relationships pair r₁ r₂ := by
  have hkey : endpointKey r₂ = endpointKey r₁ := by
    simp [endpointKey, hsource, htarget]
  refine ⟨relationshipFindings relationships, ?_,
    splitUnderscore (endpointKey r₁),
    relationships.filter (fun r => some (endpointKey r) = some (endpointKey r₁)), ?_⟩
  · rw [detectRelationshipConflicts_eq, hkeys]; simp
  have hloc : ∀ e ∈ objectEntries (groupsOf (fun r => some (endpointKey r)) relationships),
      ∀ f ∈ endpointRule e, isRelationshipFindingWith pair r₁ r₂ f = true →
        e.1 = endpointKey r₁ := by
    intro e he f hf hP
    obtain ⟨p, _, rfl, _, _⟩ := mem_endpointRule e f hf
    simp only [isRelationshipFindingWith, Bool.and_eq_true, decide_eq_true_eq] at hP
    exact (((mem_relationship_group relationships e he r₁).mp hP.1.2).2).symm
  have hmem : (endpointKey r₁,
      relationships.filter (fun r => some (endpointKey r) = some (endpointKey r₁)))
        ∈ objectEntries (groupsOf (fun r => some (endpointKey r)) relationships) :=
    (mem_objectEntries _ _).mpr ((mem_groupsOf _ _ _ _).mpr ⟨⟨r₁, h₁, rfl⟩, rfl⟩)
  have hr₁ : r₁ ∈ relationships.filter
      (fun r => some (endpointKey r) = some (endpointKey r₁)) := by
    simp [List.mem_filter, h₁]
  have hr₂ : r₂ ∈ relationships.filter
      (fun r => some (endpointKey r) = some (endpointKey r₁)) := by
    simp [List.mem_filter, h₂, hkey]
  unfold relationshipFindings
  rw [filter_flatMap_of_mem _ endpointRule _ _ _ (objectEntries_keys_nodup _ _) hloc hmem]
  rw [← endpointRule_of_both (endpointKey r₁) _ pair hpair ⟨r₁, hr₁, hfirst⟩
    ⟨r₂, hr₂, hsecond⟩]
  apply List.filter_congr
  intro f hf
  obtain ⟨p, _, rfl, _, _⟩ := mem_endpointRule _ f hf
  simp only [isRelationshipFindingWith, hr₁, hr₂, decide_True, Bool.and_true]

/-- C3 fails when a grouping key is the name of an inherited member: besides an
IMPLEMENTS and a BASED_ON relationship from `Solver` to `Newton`, a relationship
from `_` to `proto__` has the key `__proto__`; the grouping loop throws and no
finding is returned. -/
theorem relationship_rule_throws_on_inherited_key :
    detectRelationshipConflicts
      [⟨"Algorithm", "Solver", "NumericalMethod", "Newton", "IMPLEMENTS", "r.cypher"⟩,
       ⟨"Algorithm", "Solver", "NumericalMethod", "Newton", "BASED_ON", "r.cypher"⟩,
       ⟨"Symbol", "_", "Symbol", "proto__", "RELATES_TO", "s.cypher"⟩] = none
    ∧ ¬ RelationshipRuleHolds
      [⟨"Algorithm", "Solver", "NumericalMethod", "Newton", "IMPLEMENTS", "r.cypher"⟩,
       ⟨"Algorithm", "Solver", "NumericalMethod", "Newton", "BASED_ON", "r.cypher"⟩,
       ⟨"Symbol", "_", "Symbol", "proto__", "RELATES_TO", "s.cypher"⟩]
      ("IMPLEMENTS", "BASED_ON")
      ⟨"Algorithm", "Solver", "NumericalMethod", "Newton", "IMPLEMENTS", "r.cypher"⟩
      ⟨"Algorithm", "Solver", "NumericalMethod", "Newton", "BASED_ON", "r.cypher"⟩ := by
  have hval : detectRelationshipConflicts
      [⟨"Algorithm", "Solver", "NumericalMethod", "Newton", "IMPLEMENTS", "r.cypher"⟩,
       ⟨"Algorithm", "Solver", "NumericalMethod", "Newton", "BASED_ON", "r.cypher"⟩,
       ⟨"Symbol", "_", "Symbol", "proto__", "RELATES_TO", "s.cypher"⟩] = none := by
    decide
  refine ⟨hval, ?_⟩
  rintro ⟨findings, hdet, _⟩
  rw [hval] at hdet
  cases hdet

/-- C2 fails for a name of an inherited member: two Algorithm entities named
`constructor` give no DuplicateName finding, because `nameCount["constructor"]`
starts from the inherited function instead of 0, so the count is a string and
`count > 1` is false. -/
theorem duplicate_rule_misses_inherited_name :
    getEntityConflicts
      [⟨"Algorithm", "constructor", "a.cypher"⟩, ⟨"Algorithm", "constructor", "b.cypher"⟩]
        = []
    ∧ ¬ DuplicateRuleHolds
      [⟨"Algorithm", "constructor", "a.cypher"⟩, ⟨"Algorithm", "constructor", "b.cypher"⟩]
      "Algorithm" "constructor" := by
  have hval : getEntityConflicts
      [⟨"Algorithm", "constructor", "a.cypher"⟩, ⟨"Algorithm", "constructor", "b.cypher"⟩]
        = [] := by
    decide
  refine ⟨hval, ?_⟩
  rintro ⟨hyes, _⟩
  rw [hval] at hyes
  have := hyes (by decide)
  simp at this


/-- C4, amended: the relationship rule groups by the ordered key
`sourceName_targetName`. When no key is the name of an inherited member, the
result holds exactly one ConflictingRelationships finding for an exclusive pair
and a key `k` if both labels of the pair occur among the relationships whose
key is `k`, and none otherwise. -/
theorem relationship_rule_groups_by_ordered_key (relationships : List Relationship)
    (pair : String × String) (k : String)
    (hkeys : relationshipsThrow relationships = false)
    (hpair : pair ∈ exclusiveRelTypes) :
    OrderedPairRuleHolds relationships pair k := by
  have hloc : ∀ e ∈ objectEntries (groupsOf (fun r => some (endpointKey r)) relationships),
      ∀ f ∈ endpointRule e, isRelationshipFindingFor pair k f = true → e.1 = k := by
    intro e _ f hf hP
    obtain ⟨p, _, rfl, _, _⟩ := mem_endpointRule e f hf
    simp only [isRelationshipFindingFor, Bool.and_eq_true, decide_eq_true_eq] at hP
    exact splitUnderscore_injective _ _ hP.2
  have hgroup : ∀ p : String,
      (∃ r ∈ relationships.filter (fun r => some (endpointKey r) = some k),
          r.relationType = p) ↔
        ∃ r ∈ relationships, endpointKey r = k ∧ r.relationType = p := by
    intro p
    simp only [List.mem_filter, Option.some.injEq, decide_eq_true_eq]
    constructor
    · rintro ⟨r, ⟨hr, hk⟩, ht⟩; exact ⟨r, hr, hk, ht⟩
    · rintro ⟨r, hr, hk, ht⟩; exact ⟨r, ⟨hr, hk⟩, ht⟩
  refine ⟨relationshipFindings relationships, ?_, ?_, ?_⟩
  · rw [detectRelationshipConflicts_eq, hkeys]; simp
  · rintro ⟨h1, h2⟩
    obtain ⟨r, hr, hrk, hrt⟩ := h1
    have hmem : (k, relationships.filter (fun r => some (endpointKey r) = some k))
        ∈ objectEntries (groupsOf (fun r => some (endpointKey r)) relationships) :=
      (mem_objectEntries _ _).mpr
        ((mem_groupsOf _ _ _ _).mpr ⟨⟨r, hr, by rw [hrk]⟩, rfl⟩)
    refine ⟨relationships.filter (fun r => some (endpointKey r) = some k), ?_⟩
    unfold relationshipFindings
    rw [filter_flatMap_of_mem _ endpointRule _ _ _ (objectEntries_keys_nodup _ _) hloc hmem]
    rw [← endpointRule_of_both k _ pair hpair
      ((hgroup pair.1).mpr ⟨r, hr, hrk, hrt⟩) ((hgroup pair.2).mpr h2)]
    apply List.filter_congr
    intro f hf
    obtain ⟨p, _, rfl, _, _⟩ := mem_endpointRule _ f hf
    simp [isRelationshipFindingFor]
  · intro hnot
    unfold relationshipFindings
    rw [List.filter_eq_nil_iff]
    intro f hf hP
    obtain ⟨e, he, hfe⟩ := List.mem_flatMap.mp hf
    have hek := hloc e he f hfe hP
    obtain ⟨p, _, rfl, hp1, hp2⟩ := mem_endpointRule e f hfe
    simp only [isRelationshipFindingFor, Bool.and_eq_true, decide_eq_true_eq] at hP
    have hp : p = pair := hP.1
    subst hp
    have he2 := ((mem_groupsOf _ _ e.1 e.2).mp ((mem_objectEntries _ _).mp he)).2
    rw [he2, hek] at hp1 hp2
    exact hnot ⟨(hgroup p.1).mp hp1, (hgroup p.2).mp hp2⟩

/-- Witness for `relationship_rule_groups_by_ordered_key`: Scenario C of the
specification, an IMPLEMENTS and a BASED_ON relationship from `Solver` to
`Newton`. -/
theorem relationship_rule_groups_by_ordered_key_witness :
    OrderedPairRuleHolds
      [⟨"Algorithm", "Solver", "NumericalMethod", "Newton", "IMPLEMENTS", "r.cypher"⟩,
       ⟨"Algorithm", "Solver", "NumericalMethod", "Newton", "BASED_ON", "r.cypher"⟩]
      ("IMPLEMENTS", "BASED_ON") "Solver_Newton" :=
  relationship_rule_groups_by_ordered_key _ _ _ (by decide) (by decide)

/-- C4 as stated fails: an IMPLEMENTS relationship from `Solver` to `Newton`
and a BASED_ON relationship from `Newton` to `Solver` have the keys
`Solver_Newton` and `Newton_Solver`, fall into two groups of one relationship
each, and no finding is reported. -/
theorem relationship_rule_ignores_reversed_pair :
    ¬ ReportsUnorderedPair
      [⟨"Algorithm", "Solver", "NumericalMethod", "Newton", "IMPLEMENTS", "r.cypher"⟩,
       ⟨"NumericalMethod", "Newton", "Algorithm", "Solver", "BASED_ON", "r.cypher"⟩]
      ("IMPLEMENTS", "BASED_ON") "Solver" "Newton" := by
  rintro ⟨findings, hdet, endpoints, evidence, hmem, _⟩
  have hval : detectRelationshipConflicts
      [⟨"Algorithm", "Solver", "NumericalMethod", "Newton", "IMPLEMENTS", "r.cypher"⟩,
       ⟨"NumericalMethod", "Newton", "Algorithm", "Solver", "BASED_ON", "r.cypher"⟩]
        = some [] := by
    decide
  rw [hval] at hdet
  cases hdet
  simp at hmem


/-! ## Error messages of `validatePropertyValues` -/

theorem messageTag_append (p x : String) (h : 2 ≤ p.data.length) :
    messageTag (p ++ x) = messageTag p := by
  unfold messageTag
  rw [String.data_append, List.take_append_of_le_length h]

theorem append_left_cancel (p a b : String) (h : p ++ a = p ++ b) : a = b := by
  have := congrArg String.data h
  rw [String.data_append, String.data_append] at this
  exact String.ext (List.append_cancel_left this)

theorem messageTag_formatErrors (entityType key value e : String)
    (he : e ∈ formatErrors entityType key value) :
    messageTag e ≠ messageTag "Unknown property: "
      ∧ messageTag e ≠ messageTag "Missing required property: " := by
  unfold formatErrors at he
  split at he
  · split at he
    · rw [List.mem_singleton] at he
      rw [he, messageTag_append _ _ (by decide)]
      decide
    · simp at he
  · split at he
    · split at he
      · rw [List.mem_singleton] at he
        rw [he, messageTag_append _ _ (by decide)]
        decide
      · simp at he
    · split at he
      · split at he
        · rw [List.mem_singleton] at he
          rw [he, messageTag_append _ _ (by decide)]
          decide
        · simp at he
      · split at he
        · split at he
          · rw [List.mem_singleton] at he
            rw [he, messageTag_append _ _ (by decide)]
            decide
          · simp at he
        · simp at he

theorem mem_propertyErrors (entityType : String) (entitySchema : Option EntitySchema)
    (entry : String × String) (e : String)
    (he : e ∈ propertyErrors entityType entitySchema entry) :
    (isUnknownProperty entitySchema entry.1 = true ∧ e = "Unknown property: " ++ entry.1)
      ∨ (isUnknownProperty entitySchema entry.1 = false
          ∧ e ∈ formatErrors entityType entry.1 entry.2) := by
  unfold propertyErrors at he
  split at he
  · rename_i h
    exact Or.inl ⟨h, by simpa using he⟩
  · rename_i h
    exact Or.inr ⟨by simpa using h, he⟩

theorem count_missing_entries (entityType : String) (entitySchema : Option EntitySchema)
    (L : List (String × String)) (r : String) :
    (L.flatMap (propertyErrors entityType entitySchema)).count
      ("Missing required property: " ++ r) = 0 := by
  rw [List.count_eq_zero]
  intro hmem
  obtain ⟨entry, _, he⟩ := List.mem_flatMap.mp hmem
  rcases mem_propertyErrors _ _ _ _ he with ⟨_, h⟩ | ⟨_, h⟩
  · have := congrArg messageTag h
    rw [messageTag_append _ _ (by decide), messageTag_append _ _ (by decide)] at this
    revert this
    decide
  · have := (messageTag_formatErrors _ _ _ _ h).2
    rw [messageTag_append _ _ (by decide)] at this
    exact this rfl

theorem count_unknown_required (properties : List (String × String))
    (entitySchema : Option EntitySchema) (k : String) :
    (requiredErrors properties entitySchema).count ("Unknown property: " ++ k) = 0 := by
  rw [List.count_eq_zero]
  intro hmem
  cases entitySchema with
  | none => simp [requiredErrors] at hmem
  | some schema =>
    simp only [requiredErrors] at hmem
    obtain ⟨r, _, he⟩ := List.mem_flatMap.mp hmem
    split at he
    · rw [List.mem_singleton] at he
      have := congrArg messageTag he
      rw [messageTag_append _ _ (by decide), messageTag_append _ _ (by decide)] at this
      revert this
      decide
    · simp at he

theorem count_missing_required (properties : List (String × String))
    (required : List String) (r : String) :
    (required.flatMap (fun requiredProp =>
        if propertyMissing properties requiredProp = true then
          ["Missing required property: " ++ requiredProp]
        else [])).count ("Missing required property: " ++ r)
      = if propertyMissing properties r = true then required.count r else 0 := by
  induction required with
  | nil => simp
  | cons a required ih =>
    rw [List.flatMap_cons, List.count_append, ih]
    by_cases ha : a = r
    · subst ha
      by_cases hm : propertyMissing properties a = true
      · simp [hm, Nat.add_comm]
      · simp [hm]
    · have hne : ("Missing required property: " ++ a) ≠ ("Missing required property: " ++ r) :=
        fun e => ha (append_left_cancel _ _ _ e)
      have hcount : (if propertyMissing properties a = true then
          ["Missing required property: " ++ a] else []).count
            ("Missing required property: " ++ r) = 0 := by
        rw [List.count_eq_zero]
        split
        · simpa using fun e => hne e.symm
        · simp
      rw [hcount, List.count_cons_of_ne (fun e => ha e.symm)]
      simp

theorem lookup_eq_some_iff_mem {β : Type} (L : List (String × β))
    (hnd : (L.map Prod.fst).Nodup) (k : String) (v : β) :
    L.lookup k = some v ↔ (k, v) ∈ L := by
  induction L with
  | nil => simp
  | cons e L ih =>
    rw [List.map_cons, List.nodup_cons] at hnd
    by_cases hk : k = e.1
    · subst hk
      have : (e.1 == e.1) = true := by simp
      rw [show e = (e.1, e.2) from rfl, List.lookup_cons, this]
      simp only [Option.some.injEq, List.mem_cons, Prod.mk.injEq, true_and]
      constructor
      · intro h; exact Or.inl h.symm
      · rintro (h | h)
        · exact h.symm
        · exact absurd (List.mem_map.mpr ⟨(e.1, v), h, rfl⟩) hnd.1
    · have hbeq : (k == e.1) = false := by simpa using hk
      rw [show e = (e.1, e.2) from rfl, List.lookup_cons, hbeq, ih hnd.2]
      simp only [List.mem_cons, Prod.mk.injEq]
      constructor
      · exact Or.inr
      · rintro (⟨h, _⟩ | h)
        · exact absurd h hk
        · exact h

theorem lookup_eq_none_iff_not_mem {β : Type} (L : List (String × β)) (k : String) :
    L.lookup k = none ↔ k ∉ L.map Prod.fst := by
  induction L with
  | nil => simp
  | cons e L ih =>
    by_cases hk : k = e.1
    · subst hk
      have : (e.1 == e.1) = true := by simp
      rw [show e = (e.1, e.2) from rfl, List.lookup_cons, this]
      simp
    · have hbeq : (k == e.1) = false := by simpa using hk
      rw [show e = (e.1, e.2) from rfl, List.lookup_cons, hbeq, ih]
      simp [hk]


/-! ## Missing and unknown properties -/

theorem propertyMissing_of_no_value (properties : List (String × String)) (r : String)
    (hr : r ∉ objectPrototypeKeys) (h : ∀ v, (r, v) ∈ properties → v = "") :
    propertyMissing properties r = true := by
  unfold propertyMissing
  cases hl : properties.lookup r with
  | none => simp [hr]
  | some v =>
    have hmem : (r, v) ∈ properties := by
      clear h
      induction properties with
      | nil => simp at hl
      | cons e L ih =>
        rw [show e = (e.1, e.2) from rfl, List.lookup_cons] at hl
        by_cases hk : r = e.1
        · have hb : (r == e.1) = true := by simpa using hk
          rw [hb] at hl
          have hv := Option.some.inj hl
          rw [List.mem_cons]
          exact Or.inl (by rw [hk, ← hv])
        · have hb : (r == e.1) = false := by simpa using hk
          rw [hb] at hl
          exact List.mem_cons_of_mem _ (ih hl)
    simp [h v hmem]

theorem propertyMissing_of_value (properties : List (String × String)) (r v : String)
    (hnd : (properties.map Prod.fst).Nodup) (hmem : (r, v) ∈ properties) (hv : v ≠ "") :
    propertyMissing properties r = false := by
  unfold propertyMissing
  rw [(lookup_eq_some_iff_mem properties hnd r v).mpr hmem]
  simpa using hv

theorem count_unknown_entries (properties : List (String × String)) (entityType : String)
    (schema : EntitySchema) (hnd : (properties.map Prod.fst).Nodup) (k : String) :
    ((objectEntries properties).flatMap (propertyErrors entityType (some schema))).count
      ("Unknown property: " ++ k)
        = if k ∈ properties.map Prod.fst ∧ k ∉ schema.required ∧ k ∉ schema.optional
          then 1 else 0 := by
  have hloc : ∀ e ∈ objectEntries properties,
      ∀ f ∈ propertyErrors entityType (some schema) e,
        (f == "Unknown property: " ++ k) = true → e.1 = k := by
    intro e _ f hf hP
    have hP : f = "Unknown property: " ++ k := by simpa using hP
    rcases mem_propertyErrors _ _ _ _ hf with ⟨_, h⟩ | ⟨_, h⟩
    · rw [h] at hP
      exact append_left_cancel _ _ _ hP
    · have := (messageTag_formatErrors _ _ _ _ h).1
      rw [hP, messageTag_append _ _ (by decide)] at this
      exact absurd rfl this
  have hnd' : ((objectEntries properties).map Prod.fst).Nodup := by
    rw [((objectEntries_perm properties).map Prod.fst).nodup_iff]
    exact hnd
  rw [List.count, List.countP_eq_length_filter]
  by_cases hk : k ∈ properties.map Prod.fst
  · obtain ⟨e, he, hek⟩ := List.mem_map.mp hk
    have hmem : (k, e.2) ∈ objectEntries properties := by
      rw [mem_objectEntries, ← hek]; exact he
    rw [filter_flatMap_of_mem _ _ _ k e.2 hnd' hloc hmem]
    unfold propertyErrors
    by_cases hu : k ∉ schema.required ∧ k ∉ schema.optional
    · have : isUnknownProperty (some schema) k = true := by
        simp [isUnknownProperty, hu.1, hu.2]
      simp [this, hk, hu]
    · have : ¬ isUnknownProperty (some schema) k = true := by
        simp only [isUnknownProperty, Bool.and_eq_true, Bool.not_eq_true',
          decide_eq_false_iff_not]
        exact hu
      simp only [this, if_false]
      have hcond : ¬ (k ∈ properties.map Prod.fst ∧ k ∉ schema.required
          ∧ k ∉ schema.optional) := fun h => hu h.2
      rw [if_neg hcond, List.length_eq_zero, List.filter_eq_nil_iff]
      intro f hf hP
      have hP : f = "Unknown property: " ++ k := by simpa using hP
      have := (messageTag_formatErrors _ _ _ _ hf).1
      rw [hP, messageTag_append _ _ (by decide)] at this
      exact this rfl
  · rw [filter_flatMap_of_not_mem _ _ _ k hloc]
    · simp [hk]
    · rw [((objectEntries_perm properties).map Prod.fst).mem_iff]
      exact hk

/-- C5, amended: for a property bag with distinct keys and a schema whose
required names are not names of inherited members, `validatePropertyValues`
reports 'Missing required property' for `r`, once per occurrence of `r` in the
required list, exactly when the bag holds no non-empty value for `r`, and
'Unknown property' for `k`, once, exactly when `k` is a key of the bag that is
in neither the required nor the optional list. -/
theorem property_report_per_occurrence (properties : List (String × String))
    (entityType : String) (schema : EntitySchema)
    (hobj : (properties.map Prod.fst).Nodup)
    (hproto : ∀ r ∈ schema.required, r ∉ objectPrototypeKeys) :
    PropertyReportPerOccurrence properties entityType schema := by
  constructor
  · intro r
    have hcount : (validatePropertyValues properties entityType (some schema)).count
        ("Missing required property: " ++ r)
          = if propertyMissing properties r = true then schema.required.count r else 0 := by
      unfold validatePropertyValues
      rw [List.count_append, count_missing_entries, Nat.add_zero]
      exact count_missing_required properties schema.required r
    constructor
    · intro h
      rw [hcount]
      by_cases hr : r ∈ schema.required
      · rw [if_pos (propertyMissing_of_no_value properties r (hproto r hr) h)]
      · have : schema.required.count r = 0 := List.count_eq_zero.mpr hr
        rw [this]; simp
    · rintro ⟨v, hmem, hv⟩
      rw [hcount, propertyMissing_of_value properties r v hobj hmem hv]
      simp
  · intro k
    unfold validatePropertyValues
    rw [List.count_append, count_unknown_required, Nat.zero_add]
    exact count_unknown_entries properties entityType schema hobj k

/-- Witness for `property_report_per_occurrence`: a Paper with a title, a year
and an unknown `pages` property, checked against a schema that requires `id`
and `title`. -/
theorem property_report_per_occurrence_witness :
    PropertyReportPerOccurrence
      [("title", "\"Spectral methods\""), ("year", "\"2024\""), ("pages", "12")]
      "Paper" ⟨"id", ["id", "title"], ["year", "doi"]⟩ :=
  property_report_per_occurrence _ _ _ (by decide) (by decide)

/-- C5 as stated fails for a required list that repeats a name: with
`Required: name, name` and an empty bag the error for `name` is reported twice. -/
theorem property_report_repeats_missing_name :
    ¬ PropertyReportHolds [] "Algorithm" ⟨"name", ["name", "name"], []⟩ := by
  rintro ⟨h, _⟩
  have := h "name"
  revert this
  decide


/-! ## The year format check -/

theorem isQuote_of_isDigit (c : Char) (h : c.isDigit = true) : isQuote c = false := by
  cases hq : isQuote c with
  | false => rfl
  | true =>
    simp only [isQuote, Bool.or_eq_true, decide_eq_true_eq] at hq
    rcases hq with rfl | rfl <;> revert h <;> decide

theorem stripLeadingQuote_decompose (cs : List Char) :
    ∃ pre, cs = pre ++ stripLeadingQuote cs
      ∧ (pre = [] ∨ ∃ q, isQuote q = true ∧ pre = [q]) := by
  cases cs with
  | nil => exact ⟨[], rfl, Or.inl rfl⟩
  | cons c cs =>
    by_cases hc : isQuote c = true
    · exact ⟨[c], by simp [stripLeadingQuote, hc], Or.inr ⟨c, hc, rfl⟩⟩
    · exact ⟨[], by simp [stripLeadingQuote, hc], Or.inl rfl⟩

theorem stripTrailingQuote_decompose (cs : List Char) :
    ∃ post, cs = stripTrailingQuote cs ++ post
      ∧ (post = [] ∨ ∃ q, isQuote q = true ∧ post = [q]) := by
  unfold stripTrailingQuote
  cases hl : cs.getLast? with
  | none =>
    rw [List.getLast?_eq_none_iff] at hl
    exact ⟨[], by simp [hl], Or.inl rfl⟩
  | some c =>
    simp only
    by_cases hc : isQuote c = true
    · rw [if_pos hc]
      refine ⟨[c], ?_, Or.inr ⟨c, hc, rfl⟩⟩
      exact (List.dropLast_append_getLast? c hl).symm
    · rw [if_neg hc]
      exact ⟨[], by simp, Or.inl rfl⟩

theorem stripLeadingQuote_of_digits (pre digits post : List Char)
    (hlen : digits.length = 4) (hdig : ∀ c ∈ digits, c.isDigit = true)
    (hpre : pre = [] ∨ ∃ q, isQuote q = true ∧ pre = [q]) :
    stripLeadingQuote (pre ++ digits ++ post) = digits ++ post := by
  rcases hpre with rfl | ⟨q, hq, rfl⟩
  · match digits, hlen, hdig with
    | d :: ds, _, hdig =>
      have := isQuote_of_isDigit d (hdig d (List.mem_cons_self _ _))
      simp [stripLeadingQuote, this]
  · simp [stripLeadingQuote, hq]

theorem stripTrailingQuote_of_digits (digits post : List Char)
    (hlen : digits.length = 4) (hdig : ∀ c ∈ digits, c.isDigit = true)
    (hpost : post = [] ∨ ∃ q, isQuote q = true ∧ post = [q]) :
    stripTrailingQuote (digits ++ post) = digits := by
  have hne : digits ≠ [] := by
    intro h; rw [h] at hlen; simp at hlen
  rcases hpost with rfl | ⟨q, hq, rfl⟩
  · rw [List.append_nil]
    unfold stripTrailingQuote
    rw [List.getLast?_eq_getLast _ hne]
    have := isQuote_of_isDigit _ (hdig _ (List.getLast_mem hne))
    simp [this]
  · unfold stripTrailingQuote
    rw [List.getLast?_concat]
    simp [hq]

theorem isFourDigits_cleanValue (value : String) :
    isFourDigits (cleanValue value) = true ↔ QuotedFourDigits value := by
  unfold isFourDigits cleanValue QuotedFourDigits
  simp only [Bool.and_eq_true, decide_eq_true_eq, List.all_eq_true]
  constructor
  · rintro ⟨hlen, hdig⟩
    obtain ⟨pre, hpre, hq⟩ := stripLeadingQuote_decompose value.data
    obtain ⟨post, hpost, hq'⟩ := stripTrailingQuote_decompose (stripLeadingQuote value.data)
    refine ⟨pre, stripTrailingQuote (stripLeadingQuote value.data), post, ?_, hlen, hdig,
      hq, hq'⟩
    rw [List.append_assoc, ← hpost, ← hpre]
  · rintro ⟨pre, digits, post, hval, hlen, hdig, hpre, hpost⟩
    rw [hval, stripLeadingQuote_of_digits pre digits post hlen hdig hpre,
      stripTrailingQuote_of_digits digits post hlen hdig hpost]
    exact ⟨hlen, hdig⟩

theorem messageTag_of_isYearError (e : String) (h : isYearError e = true) :
    messageTag e = messageTag "Year should be a 4-digit number: " := by
  unfold isYearError at h
  rw [List.isPrefixOf_iff_prefix] at h
  obtain ⟨t, ht⟩ := h
  unfold messageTag
  rw [← ht, List.take_append_of_le_length (by decide)]

theorem isYearError_message (value : String) :
    isYearError ("Year should be a 4-digit number: " ++ value) = true := by
  unfold isYearError
  rw [List.isPrefixOf_iff_prefix, String.data_append]
  exact List.prefix_append _ _

theorem formatErrors_year_key (entityType key value e : String)
    (he : e ∈ formatErrors entityType key value) (hy : isYearError e = true) :
    key = "year" := by
  have htag := messageTag_of_isYearError e hy
  unfold formatErrors at he
  split at he
  · assumption
  · exfalso
    split at he
    · split at he
      · rw [List.mem_singleton] at he
        rw [he, messageTag_append _ _ (by decide)] at htag
        revert htag; decide
      · simp at he
    · split at he
      · split at he
        · rw [List.mem_singleton] at he
          rw [he, messageTag_append _ _ (by decide)] at htag
          revert htag; decide
        · simp at he
      · split at he
        · split at he
          · rw [List.mem_singleton] at he
            rw [he, messageTag_append _ _ (by decide)] at htag
            revert htag; decide
          · simp at he
        · simp at he

theorem filter_year_requiredErrors (properties : List (String × String))
    (entitySchema : Option EntitySchema) :
    (requiredErrors properties entitySchema).filter isYearError = [] := by
  rw [List.filter_eq_nil_iff]
  intro e hmem hy
  have htag := messageTag_of_isYearError e hy
  cases entitySchema with
  | none => simp [requiredErrors] at hmem
  | some schema =>
    simp only [requiredErrors] at hmem
    obtain ⟨r, _, he⟩ := List.mem_flatMap.mp hmem
    split at he
    · rw [List.mem_singleton] at he
      rw [he, messageTag_append _ _ (by decide)] at htag
      revert htag; decide
    · simp at he

/-- C10: for a property bag (distinct keys) with a `year` property and a schema
that is absent or lists `year` as required or optional,
`validatePropertyValues` reports no year-format error when the value is four
decimal digits with at most one quote character before and one after, and
exactly one, quoting the value, otherwise. -/
theorem year_format_error_iff (properties : List (String × String)) (entityType : String)
    (entitySchema : Option EntitySchema) (value : String)
    (hobj : (properties.map Prod.fst).Nodup)
    (hyear : ("year", value) ∈ properties)
    (hschema : ∀ schema, entitySchema = some schema →
      "year" ∈ schema.required ∨ "year" ∈ schema.optional) :
    (QuotedFourDigits value →
      (validatePropertyValues properties entityType entitySchema).filter isYearError = [])
    ∧ (¬ QuotedFourDigits value →
      (validatePropertyValues properties entityType entitySchema).filter isYearError
        = ["Year should be a 4-digit number: " ++ value]) := by
  have hknown : ¬ isUnknownProperty entitySchema "year" = true := by
    cases entitySchema with
    | none => simp [isUnknownProperty]
    | some schema =>
      simp only [isUnknownProperty, Bool.and_eq_true, Bool.not_eq_true',
        decide_eq_false_iff_not]
      rintro ⟨h1, h2⟩
      rcases hschema schema rfl with h | h
      · exact h1 h
      · exact h2 h
  have hloc : ∀ e ∈ objectEntries properties,
      ∀ f ∈ propertyErrors entityType entitySchema e, isYearError f = true → e.1 = "year" := by
    intro e _ f hf hy
    rcases mem_propertyErrors _ _ _ _ hf with ⟨_, h⟩ | ⟨_, h⟩
    · have htag := messageTag_of_isYearError f hy
      rw [h, messageTag_append _ _ (by decide)] at htag
      exact absurd htag (by decide)
    · exact formatErrors_year_key _ _ _ _ h hy
  have hnd' : ((objectEntries properties).map Prod.fst).Nodup := by
    rw [((objectEntries_perm properties).map Prod.fst).nodup_iff]
    exact hobj
  have hmain : (validatePropertyValues properties entityType entitySchema).filter isYearError
      = if isFourDigits (cleanValue value) = true then []
        else ["Year should be a 4-digit number: " ++ value] := by
    unfold validatePropertyValues
    rw [List.filter_append, filter_year_requiredErrors, List.nil_append,
      filter_flatMap_of_mem _ _ _ "year" value hnd' hloc
        ((mem_objectEntries _ _).mpr hyear)]
    unfold propertyErrors
    simp only [if_neg hknown]
    unfold formatErrors
    simp only [if_true]
    by_cases hd : isFourDigits (cleanValue value) = true
    · simp [hd]
    · simp only [hd, Bool.not_false, if_true, if_false]
      simp only [Bool.not_eq_true] at hd
      simp [hd, List.filter_cons, isYearError_message]
  rw [hmain]
  constructor
  · intro h
    rw [if_pos ((isFourDigits_cleanValue value).mpr h)]
  · intro h
    rw [if_neg (fun hd => h ((isFourDigits_cleanValue value).mp hd))]

/-- Witness for `year_format_error_iff`: Scenario D of the specification, the
year `"20A4"` without a schema. -/
theorem year_format_error_iff_witness :
    (QuotedFourDigits "\"20A4\"" →
      (validatePropertyValues [("title", "\"Spectral methods\""), ("year", "\"20A4\"")]
        "Paper" none).filter isYearError = [])
    ∧ (¬ QuotedFourDigits "\"20A4\"" →
      (validatePropertyValues [("title", "\"Spectral methods\""), ("year", "\"20A4\"")]
        "Paper" none).filter isYearError
        = ["Year should be a 4-digit number: " ++ "\"20A4\""]) :=
  year_format_error_iff _ "Paper" none "\"20A4\"" (by decide) (by decide)
    (fun _ h => by cases h)


/-! ## Setting the documented-conflict flag -/

theorem groupsOf_map {α : Type} (key : α → Option String) (F : α → α)
    (hF : ∀ x, key (F x) = key x) (xs : List α) :
    groupsOf key (xs.map F) = (groupsOf key xs).map (fun e => (e.1, e.2.map F)) := by
  have hfm : (xs.map F).filterMap key = xs.filterMap key := by
    rw [List.filterMap_map]
    congr 1
    funext x
    exact hF x
  unfold groupsOf
  rw [hfm, List.map_map]
  apply List.map_congr_left
  intro k _
  simp only [Function.comp_def, List.filter_map, hF]

theorem otherKeys_append (n : String) (a b : List Conflict) :
    otherKeys n (a ++ b) = otherKeys n a ++ otherKeys n b := by
  simp [otherKeys, List.filter_append]

theorem otherKeys_flatMap {β : Type} (n : String) (L : List β) (A : β → List Conflict) :
    otherKeys n (L.flatMap A) = L.flatMap (fun e => otherKeys n (A e)) := by
  induction L with
  | nil => rfl
  | cons e L ih => rw [List.flatMap_cons, List.flatMap_cons, otherKeys_append, ih]

theorem flagName_fields (n : String) (s : Symbol) :
    (flagName n s).name = s.name ∧ (flagName n s).context = s.context
      ∧ (flagName n s).latex = s.latex ∧ (flagName n s).meaning = s.meaning := by
  unfold flagName Symbol.flagged
  split <;> simp

theorem contextRule_map_key (n name : String) (F : Symbol → Symbol)
    (hF : ∀ s, (F s).meaning = s.meaning) (e : String × List Symbol) :
    otherKeys n (contextRule name (e.1, e.2.map F)) = otherKeys n (contextRule name e) := by
  have hm : (e.2.map F).map (fun s => s.meaning) = e.2.map (fun s => s.meaning) := by
    rw [List.map_map]
    apply List.map_congr_left
    intro s _
    exact hF s
  unfold contextRule
  simp only [List.length_map, hm]
  split
  · rfl
  · split
    · simp [otherKeys, isUndocumentedFor, Conflict.key]
    · rfl

theorem latexRule_map_key (n : String) (F : Symbol → Symbol)
    (hF : ∀ s, (F s).name = s.name) (e : String × List Symbol) :
    otherKeys n (latexRule (e.1, e.2.map F)) = otherKeys n (latexRule e) := by
  have hm : (e.2.map F).map (fun s => s.name) = e.2.map (fun s => s.name) := by
    rw [List.map_map]
    apply List.map_congr_left
    intro s _
    exact hF s
  unfold latexRule
  simp only [List.length_map, hm]
  split
  · rfl
  · split
    · simp [otherKeys, isUndocumentedFor, Conflict.key]
    · rfl

theorem contextPart_map_key (n name : String) (g : List Symbol) :
    otherKeys n ((objectEntries (groupsOf (fun s => truthy s.context)
        (g.map (flagName n)))).flatMap (contextRule name))
      = otherKeys n ((objectEntries (groupsOf (fun s => truthy s.context) g)).flatMap
        (contextRule name)) := by
  rw [groupsOf_map (fun s => truthy s.context) (flagName n)
      (fun s => by show truthy _ = truthy _; rw [(flagName_fields n s).2.1]),
    objectEntries_map (fun e : String × List Symbol => e.2.map (flagName n)),
    List.flatMap_map, otherKeys_flatMap, otherKeys_flatMap]
  congr 1
  funext e
  exact contextRule_map_key n name (flagName n) (fun s => (flagName_fields n s).2.2.2) e

theorem map_flagName_of_ne (n : String) (g : List Symbol)
    (h : ∀ s ∈ g, s.name ≠ some n) : g.map (flagName n) = g := by
  conv_rhs => rw [← List.map_id g]
  apply List.map_congr_left
  intro s hs
  simp [flagName, h s hs]

theorem otherKeys_undocumentedRule_self (n : String) (g : List Symbol) :
    otherKeys n (undocumentedRule n g) = [] := by
  unfold otherKeys
  rw [List.map_eq_nil_iff, List.filter_eq_nil_iff]
  intro f hf
  rw [mem_undocumentedRule n g f hf]
  simp [isUndocumentedFor]

theorem nameFindings_map_key (n : String) (symbols : List Symbol)
    (e : String × List Symbol)
    (he : e ∈ objectEntries (groupsOf (fun s => truthy s.name) symbols)) :
    otherKeys n (nameFindings (e.1, e.2.map (flagName n))) = otherKeys n (nameFindings e) := by
  by_cases hen : e.1 = n
  · unfold nameFindings
    simp only [List.length_map]
    split
    · rfl
    · rw [otherKeys_append, otherKeys_append, hen, otherKeys_undocumentedRule_self,
        otherKeys_undocumentedRule_self, contextPart_map_key]
  · have hg := ((mem_groupsOf _ _ e.1 e.2).mp ((mem_objectEntries _ _).mp he)).2
    have hne : ∀ s ∈ e.2, s.name ≠ some n := by
      intro s hs hsn
      rw [hg, List.mem_filter] at hs
      have h := hs.2
      simp only [decide_eq_true_eq] at h
      rw [hsn] at h
      by_cases hn : n = ""
      · rw [hn] at h; simp [truthy] at h
      · simp only [truthy, if_neg hn, Option.some.injEq] at h
        exact hen h.symm
    rw [map_flagName_of_ne n e.2 hne]

theorem otherKeys_symbolFindings_map (n : String) (symbols : List Symbol) :
    otherKeys n (symbolFindings (symbols.map (flagName n)))
      = otherKeys n (symbolFindings symbols) := by
  unfold symbolFindings
  rw [groupsOf_map (fun s => truthy s.name) (flagName n)
      (fun s => by show truthy _ = truthy _; rw [(flagName_fields n s).1]),
    groupsOf_map (fun s => truthy s.latex) (flagName n)
      (fun s => by show truthy _ = truthy _; rw [(flagName_fields n s).2.2.1]),
    objectEntries_map (fun e : String × List Symbol => e.2.map (flagName n)),
    objectEntries_map (fun e : String × List Symbol => e.2.map (flagName n)),
    List.flatMap_map, List.flatMap_map, otherKeys_append, otherKeys_append,
    otherKeys_flatMap, otherKeys_flatMap, otherKeys_flatMap, otherKeys_flatMap]
  congr 1
  · apply List.flatMap_congr
    intro e he
    exact nameFindings_map_key n symbols e he
  · congr 1
    funext e
    exact latexRule_map_key n (flagName n) (fun s => (flagName_fields n s).1) e


theorem nameThrows_map (F : Symbol → Symbol) (hF : ∀ s, (F s).context = s.context)
    (e : String × List Symbol) : nameThrows (e.1, e.2.map F) = nameThrows e := by
  unfold nameThrows
  simp only [List.length_map, List.any_map, Function.comp_def, hF]

theorem symbolsThrow_map (n : String) (symbols : List Symbol) :
    symbolsThrow (symbols.map (flagName n)) = symbolsThrow symbols := by
  unfold symbolsThrow
  rw [groupsOf_map (fun s => truthy s.name) (flagName n)
      (fun s => by show truthy _ = truthy _; rw [(flagName_fields n s).1]),
    objectEntries_map (fun e : String × List Symbol => e.2.map (flagName n))]
  simp only [List.any_map, Function.comp_def]
  congr 1
  · congr 1
    · congr 1
      funext s
      rw [(flagName_fields n s).1]
    · congr 1
      funext e
      exact nameThrows_map (flagName n) (fun s => (flagName_fields n s).2.1) e
  · congr 1
    funext s
    rw [(flagName_fields n s).2.2.1]

theorem filter_undocumented_empty_name (symbols : List Symbol) :
    (symbolFindings symbols).filter (isUndocumentedFor "") = [] := by
  unfold symbolFindings
  rw [List.filter_append, filter_undocumented_latexRule, List.append_nil]
  apply filter_flatMap_of_not_mem _ nameFindings (isUndocumentedFor "") ""
    (fun e _ f hf hP => undocumented_nameFindings_key "" e f hf hP)
  rw [mem_keys_groupsOf]
  rintro ⟨s, _, hs⟩
  exact truthy_ne_some_empty _ hs

theorem filter_undocumented_of_flagged (symbols : List Symbol) (n : String) (s : Symbol)
    (hmem : s ∈ symbols) (hname : s.name = some n) (hflag : s.conflicts = true) :
    (symbolFindings symbols).filter (isUndocumentedFor n) = [] := by
  by_cases hn : n = ""
  · rw [hn]; exact filter_undocumented_empty_name symbols
  · rw [filter_undocumented_symbolFindings symbols n hn]
    split
    · rfl
    · have hany : (symbols.filter (fun s => s.name = some n)).any (fun s => s.conflicts)
          = true :=
        List.any_eq_true.mpr ⟨s, (mem_filter_name symbols n s).mpr ⟨hmem, hname⟩, hflag⟩
      unfold undocumentedRule
      simp [hany]

theorem returned_detectSymbolConflicts (symbols : List Symbol) :
    returned (detectSymbolConflicts symbols)
      = if symbolsThrow symbols = true then [] else symbolFindings symbols := by
  rw [detectSymbolConflicts_eq]
  split <;> rfl

theorem isSome_detectSymbolConflicts (symbols : List Symbol) :
    (detectSymbolConflicts symbols).isSome = !symbolsThrow symbols := by
  rw [detectSymbolConflicts_eq]
  cases symbolsThrow symbols <;> rfl

/-- C8: setting the `conflicts` flag on one record named `n` leaves
`detectSymbolConflicts` returning (or throwing) as before, makes it return no
UndocumentedSymbolConflict finding for `n`, and leaves the kinds and keys of
all other findings it returns exactly as before, in the same order. -/
theorem flag_suppresses_undocumented (pre post : List Symbol) (s : Symbol) (n : String)
    (hs : s.name = some n) :
    (detectSymbolConflicts (pre ++ s.flagged :: post)).isSome
        = (detectSymbolConflicts (pre ++ s :: post)).isSome
    ∧ (returned (detectSymbolConflicts (pre ++ s.flagged :: post))).filter
        (isUndocumentedFor n) = []
    ∧ otherKeys n (returned (detectSymbolConflicts (pre ++ s.flagged :: post)))
        = otherKeys n (returned (detectSymbolConflicts (pre ++ s :: post))) := by
  have hmap : (pre ++ s.flagged :: post).map (flagName n)
      = (pre ++ s :: post).map (flagName n) := by
    simp [flagName, hs, Symbol.flagged]
  have hthrow : symbolsThrow (pre ++ s.flagged :: post) = symbolsThrow (pre ++ s :: post) := by
    rw [← symbolsThrow_map n (pre ++ s.flagged :: post), hmap, symbolsThrow_map]
  have hkeys : otherKeys n (symbolFindings (pre ++ s.flagged :: post))
      = otherKeys n (symbolFindings (pre ++ s :: post)) := by
    rw [← otherKeys_symbolFindings_map n (pre ++ s.flagged :: post), hmap,
      otherKeys_symbolFindings_map]
  refine ⟨?_, ?_, ?_⟩
  · rw [isSome_detectSymbolConflicts, isSome_detectSymbolConflicts, hthrow]
  · rw [returned_detectSymbolConflicts]
    split
    · rfl
    · exact filter_undocumented_of_flagged _ n s.flagged (by simp) hs rfl
  · rw [returned_detectSymbolConflicts, returned_detectSymbolConflicts, hthrow]
    split
    · rfl
    · exact hkeys

/-- Witness for `flag_suppresses_undocumented`: Scenario A with the flag set on
the first of the two records named `v`; a pair of records with one context and
two meanings keeps its InconsistentMeaning finding. -/
theorem flag_suppresses_undocumented_witness :
    (detectSymbolConflicts
        ([] ++ Symbol.flagged ⟨some "v", some "fluid dynamics", none, some "velocity",
            "a.cypher", false⟩
          :: [⟨some "v", some "linear algebra", none, some "vector", "b.cypher", false⟩,
              ⟨some "v", some "linear algebra", none, some "value", "c.cypher", false⟩])).isSome
        = (detectSymbolConflicts
        ([] ++ ⟨some "v", some "fluid dynamics", none, some "velocity", "a.cypher", false⟩
          :: [⟨some "v", some "linear algebra", none, some "vector", "b.cypher", false⟩,
              ⟨some "v", some "linear algebra", none, some "value", "c.cypher", false⟩])).isSome
    ∧ (returned (detectSymbolConflicts
        ([] ++ Symbol.flagged ⟨some "v", some "fluid dynamics", none, some "velocity",
            "a.cypher", false⟩
          :: [⟨some "v", some "linear algebra", none, some "vector", "b.cypher", false⟩,
              ⟨some "v", some "linear algebra", none, some "value", "c.cypher", false⟩]))).filter
        (isUndocumentedFor "v") = []
    ∧ otherKeys "v" (returned (detectSymbolConflicts
        ([] ++ Symbol.flagged ⟨some "v", some "fluid dynamics", none, some "velocity",
            "a.cypher", false⟩
          :: [⟨some "v", some "linear algebra", none, some "vector", "b.cypher", false⟩,
              ⟨some "v", some "linear algebra", none, some "value", "c.cypher", false⟩])))
        = otherKeys "v" (returned (detectSymbolConflicts
        ([] ++ ⟨some "v", some "fluid dynamics", none, some "velocity", "a.cypher", false⟩
          :: [⟨some "v", some "linear algebra", none, some "vector", "b.cypher", false⟩,
              ⟨some "v", some "linear algebra", none, some "value", "c.cypher", false⟩]))) :=
  flag_suppresses_undocumented [] _ _ "v" rfl


/-! ## Order-insensitivity: grouping -/

theorem newSet_perm {α : Type} [DecidableEq α] {xs ys : List α} (h : xs.Perm ys) :
    (newSet xs).Perm (newSet ys) := by
  rw [List.perm_ext_iff_of_nodup (nodup_newSet xs) (nodup_newSet ys)]
  intro a
  rw [mem_newSet, mem_newSet, h.mem_iff]

theorem newSet_length_perm {α : Type} [DecidableEq α] {xs ys : List α} (h : xs.Perm ys) :
    (newSet xs).length = (newSet ys).length :=
  (newSet_perm h).length_eq

theorem any_perm {α : Type} {xs ys : List α} (h : xs.Perm ys) (p : α → Bool) :
    xs.any p = ys.any p := by
  rw [Bool.eq_iff_iff, List.any_eq_true, List.any_eq_true]
  constructor
  · rintro ⟨x, hx, hp⟩; exact ⟨x, h.mem_iff.mp hx, hp⟩
  · rintro ⟨x, hx, hp⟩; exact ⟨x, h.mem_iff.mpr hx, hp⟩

theorem flatMap_groups_perm {α κ : Type} (key : α → Option String)
    (Φ : String × List α → List κ) {xs ys : List α} (h : xs.Perm ys)
    (hΦ : ∀ k g g', g.Perm g' → (Φ (k, g)).Perm (Φ (k, g'))) :
    ((objectEntries (groupsOf key xs)).flatMap Φ).Perm
      ((objectEntries (groupsOf key ys)).flatMap Φ) := by
  have hkeys : (newSet (xs.filterMap key)).Perm (newSet (ys.filterMap key)) :=
    newSet_perm (h.filterMap key)
  have hx : ((objectEntries (groupsOf key xs)).flatMap Φ).Perm
      ((newSet (xs.filterMap key)).flatMap
        (fun k => Φ (k, xs.filter (fun x => key x = some k)))) := by
    refine ((objectEntries_perm (groupsOf key xs)).flatMap_right Φ).trans ?_
    unfold groupsOf
    rw [List.flatMap_map]
  have hy : ((objectEntries (groupsOf key ys)).flatMap Φ).Perm
      ((newSet (ys.filterMap key)).flatMap
        (fun k => Φ (k, ys.filter (fun x => key x = some k)))) := by
    refine ((objectEntries_perm (groupsOf key ys)).flatMap_right Φ).trans ?_
    unfold groupsOf
    rw [List.flatMap_map]
  refine hx.trans (List.Perm.trans ?_ hy.symm)
  refine (hkeys.flatMap_right _).trans ?_
  apply List.Perm.flatMap_left
  intro k _
  exact hΦ k _ _ (h.filter _)

theorem any_groups_perm {α : Type} (key : α → Option String)
    (p : String × List α → Bool) {xs ys : List α} (h : xs.Perm ys)
    (hp : ∀ k g g', g.Perm g' → p (k, g) = p (k, g')) :
    (objectEntries (groupsOf key xs)).any p = (objectEntries (groupsOf key ys)).any p := by
  have hone : ∀ {as bs : List α}, as.Perm bs →
      (objectEntries (groupsOf key as)).any p = true →
        (objectEntries (groupsOf key bs)).any p = true := by
    intro as bs hab hany
    obtain ⟨e, he, hpe⟩ := List.any_eq_true.mp hany
    rw [mem_objectEntries] at he
    obtain ⟨⟨x, hx, hkx⟩, hg⟩ := (mem_groupsOf key as e.1 e.2).mp he
    refine List.any_eq_true.mpr ⟨(e.1, bs.filter (fun x => key x = some e.1)), ?_, ?_⟩
    · rw [mem_objectEntries, mem_groupsOf]
      exact ⟨⟨x, hab.mem_iff.mp hx, hkx⟩, rfl⟩
    · rw [← hp e.1 _ _ (hab.filter _), ← hg]
      exact hpe
  rw [Bool.eq_iff_iff]
  exact ⟨hone h, hone h.symm⟩


/-! ## Order-insensitivity: the symbol rules -/

theorem mem_symbolFindings (symbols : List Symbol) (f : Conflict)
    (hf : f ∈ symbolFindings symbols) :
    (∃ k, f = undocumentedOf symbols k) ∨ (∃ k c, f = meaningOf symbols k c)
      ∨ (∃ l, f = namingOf symbols l) := by
  unfold symbolFindings at hf
  rcases List.mem_append.mp hf with h | h
  · obtain ⟨e, he, hfe⟩ := List.mem_flatMap.mp h
    have hg := ((mem_groupsOf _ _ e.1 e.2).mp ((mem_objectEntries _ _).mp he)).2
    unfold nameFindings at hfe
    split at hfe
    · simp at hfe
    · rcases List.mem_append.mp hfe with h' | h'
      · left
        refine ⟨e.1, ?_⟩
        rw [mem_undocumentedRule e.1 e.2 f h', undocumentedOf, ← hg]
      · right; left
        obtain ⟨e', he', hfe'⟩ := List.mem_flatMap.mp h'
        have hg' := ((mem_groupsOf _ _ e'.1 e'.2).mp ((mem_objectEntries _ _).mp he')).2
        refine ⟨e.1, e'.1, ?_⟩
        rw [mem_contextRule e.1 e' f hfe', meaningOf, ← hg, ← hg']
  · right; right
    obtain ⟨e, he, hfe⟩ := List.mem_flatMap.mp h
    have hg := ((mem_groupsOf _ _ e.1 e.2).mp ((mem_objectEntries _ _).mp he)).2
    refine ⟨e.1, ?_⟩
    rw [mem_latexRule e f hfe, namingOf, ← hg]

theorem undocumentedOf_perm {xs ys : List Symbol} (h : xs.Perm ys) (k : String) :
    (undocumentedOf xs k).SameAs (undocumentedOf ys k) :=
  ⟨rfl, newSet_perm ((h.filter _).map _), h.filter _⟩

theorem meaningOf_perm {xs ys : List Symbol} (h : xs.Perm ys) (k c : String) :
    (meaningOf xs k c).SameAs (meaningOf ys k c) :=
  ⟨rfl, rfl, newSet_perm ((((h.filter _).filter _).map _).filter _), (h.filter _).filter _⟩

theorem namingOf_perm {xs ys : List Symbol} (h : xs.Perm ys) (l : String) :
    (namingOf xs l).SameAs (namingOf ys l) :=
  ⟨rfl, newSet_perm ((h.filter _).map _), h.filter _⟩

theorem symbolFindings_evidence_perm {xs ys : List Symbol} (h : xs.Perm ys)
    (f g : Conflict) (hf : f ∈ symbolFindings xs) (hg : g ∈ symbolFindings ys)
    (hkey : f.key = g.key) : f.SameAs g := by
  rcases mem_symbolFindings xs f hf with ⟨k, rfl⟩ | ⟨k, c, rfl⟩ | ⟨l, rfl⟩ <;>
    rcases mem_symbolFindings ys g hg with ⟨k', rfl⟩ | ⟨k', c', rfl⟩ | ⟨l', rfl⟩ <;>
    simp only [undocumentedOf, meaningOf, namingOf, Conflict.key,
      ConflictKey.undocumented.injEq, ConflictKey.meaning.injEq, ConflictKey.naming.injEq,
      reduceCtorEq] at hkey
  · subst hkey; exact undocumentedOf_perm h k
  · obtain ⟨rfl, rfl⟩ := hkey; exact meaningOf_perm h k c
  · subst hkey; exact namingOf_perm h l

theorem key_contextRule_perm (name c : String) {g g' : List Symbol} (h : g.Perm g') :
    (contextRule name (c, g)).map Conflict.key = (contextRule name (c, g')).map Conflict.key := by
  unfold contextRule
  simp only [h.length_eq, newSet_length_perm ((h.map (fun s => s.meaning)).filter _)]
  split
  · rfl
  · split <;> rfl

theorem key_undocumentedRule_perm (name : String) {g g' : List Symbol} (h : g.Perm g') :
    (undocumentedRule name g).map Conflict.key = (undocumentedRule name g').map Conflict.key := by
  unfold undocumentedRule
  simp only [newSet_length_perm (h.map (fun s => s.context)), any_perm h]
  split
  · split <;> rfl
  · rfl

theorem key_latexRule_perm (l : String) {g g' : List Symbol} (h : g.Perm g') :
    (latexRule (l, g)).map Conflict.key = (latexRule (l, g')).map Conflict.key := by
  unfold latexRule
  simp only [h.length_eq, newSet_length_perm (h.map (fun s => s.name))]
  split
  · rfl
  · split <;> rfl

theorem key_nameFindings_perm (name : String) {g g' : List Symbol} (h : g.Perm g') :
    ((nameFindings (name, g)).map Conflict.key).Perm
      ((nameFindings (name, g')).map Conflict.key) := by
  unfold nameFindings
  simp only [h.length_eq]
  split
  · exact List.Perm.refl _
  · rw [List.map_append, List.map_append, key_undocumentedRule_perm name h,
      List.map_flatMap, List.map_flatMap]
    apply List.Perm.append_left
    exact flatMap_groups_perm (fun s => truthy s.context)
      (fun e => (contextRule name e).map Conflict.key) h
      (fun c a b hab => List.Perm.of_eq (key_contextRule_perm name c hab))

theorem symbolFindings_keys_perm {xs ys : List Symbol} (h : xs.Perm ys) :
    ((symbolFindings xs).map Conflict.key).Perm ((symbolFindings ys).map Conflict.key) := by
  unfold symbolFindings
  rw [List.map_append, List.map_append, List.map_flatMap, List.map_flatMap,
    List.map_flatMap, List.map_flatMap]
  apply List.Perm.append
  · exact flatMap_groups_perm (fun s => truthy s.name)
      (fun e => (nameFindings e).map Conflict.key) h
      (fun k a b hab => key_nameFindings_perm k hab)
  · exact flatMap_groups_perm (fun s => truthy s.latex)
      (fun e => (latexRule e).map Conflict.key) h
      (fun l a b hab => List.Perm.of_eq (key_latexRule_perm l hab))

theorem symbolsThrow_perm {xs ys : List Symbol} (h : xs.Perm ys) :
    symbolsThrow xs = symbolsThrow ys := by
  unfold symbolsThrow
  rw [any_perm h, any_perm h (fun s => inheritedKey (truthy s.latex)),
    any_groups_perm (fun s => truthy s.name) nameThrows h]
  intro k g g' hgg
  unfold nameThrows
  simp only [hgg.length_eq, any_perm hgg]

theorem detectSymbolConflicts_perm {xs ys : List Symbol} (h : xs.Perm ys) :
    SameResults (detectSymbolConflicts xs) (detectSymbolConflicts ys) := by
  rw [detectSymbolConflicts_eq, detectSymbolConflicts_eq, symbolsThrow_perm h]
  cases symbolsThrow ys with
  | true => exact True.intro
  | false =>
    exact ⟨symbolFindings_keys_perm h,
      fun f hf g hg hkey => symbolFindings_evidence_perm h f g hf hg hkey⟩


/-! ## Order-insensitivity: the relationship rule and the duplicate-name rule -/

theorem key_endpointRule_perm (k : String) {g g' : List Relationship} (h : g.Perm g') :
    (endpointRule (k, g)).map Conflict.key = (endpointRule (k, g')).map Conflict.key := by
  unfold endpointRule
  simp only [h.length_eq, any_perm h]
  split
  · rfl
  · rw [List.map_flatMap, List.map_flatMap]
    congr 1
    funext pair
    split <;> rfl

theorem relationshipFindings_keys_perm {xs ys : List Relationship} (h : xs.Perm ys) :
    ((relationshipFindings xs).map Conflict.key).Perm
      ((relationshipFindings ys).map Conflict.key) := by
  unfold relationshipFindings
  rw [List.map_flatMap, List.map_flatMap]
  exact flatMap_groups_perm (fun r => some (endpointKey r))
    (fun e => (endpointRule e).map Conflict.key) h
    (fun k a b hab => List.Perm.of_eq (key_endpointRule_perm k hab))

theorem mem_relationshipFindings (xs : List Relationship) (f : Conflict)
    (hf : f ∈ relationshipFindings xs) :
    ∃ pair k, f = Conflict.ConflictingRelationships pair (splitUnderscore k)
      (xs.filter (fun r => some (endpointKey r) = some k)) := by
  unfold relationshipFindings at hf
  obtain ⟨e, he, hfe⟩ := List.mem_flatMap.mp hf
  have hg := ((mem_groupsOf _ _ e.1 e.2).mp ((mem_objectEntries _ _).mp he)).2
  obtain ⟨pair, _, hfp, _, _⟩ := mem_endpointRule e f hfe
  exact ⟨pair, e.1, by rw [hfp, hg]⟩

theorem relationshipFindings_evidence_perm {xs ys : List Relationship} (h : xs.Perm ys)
    (f g : Conflict) (hf : f ∈ relationshipFindings xs) (hg : g ∈ relationshipFindings ys)
    (hkey : f.key = g.key) : f.SameAs g := by
  obtain ⟨pair, k, rfl⟩ := mem_relationshipFindings xs f hf
  obtain ⟨pair', k', rfl⟩ := mem_relationshipFindings ys g hg
  simp only [Conflict.key, ConflictKey.relationships.injEq] at hkey
  have hk := splitUnderscore_injective k k' hkey.1
  subst hk
  exact ⟨hkey.2, rfl, h.filter _⟩

theorem detectRelationshipConflicts_perm {xs ys : List Relationship} (h : xs.Perm ys) :
    SameResults (detectRelationshipConflicts xs) (detectRelationshipConflicts ys) := by
  have hthrow : relationshipsThrow xs = relationshipsThrow ys := any_perm h _
  rw [detectRelationshipConflicts_eq, detectRelationshipConflicts_eq, hthrow]
  cases relationshipsThrow ys with
  | true => exact True.intro
  | false =>
    exact ⟨relationshipFindings_keys_perm h,
      fun f hf g hg hkey => relationshipFindings_evidence_perm h f g hf hg hkey⟩

theorem countsOf_perm {names names' : List String} (h : names.Perm names') :
    (countsOf names).Perm (countsOf names') := by
  have hv : countsOf names' = (newSet (names'.filter (fun k => k ≠ "__proto__"))).map
      (fun k => (k, if k ∈ objectPrototypeKeys then CountValue.text
        else CountValue.number (names.count k))) := by
    unfold countsOf
    apply List.map_congr_left
    intro k _
    rw [h.count_eq]
  rw [hv]
  exact (newSet_perm (h.filter _)).map _

theorem key_reportName (T : String) (entities entities' : List NamedEntity)
    (e : String × CountValue) :
    (reportName T entities e).map Conflict.key
      = (reportName T entities' e).map Conflict.key := by
  unfold reportName
  split
  · split <;> rfl
  · rfl

theorem key_typeRule_perm (T : String) {g g' : List NamedEntity} (h : g.Perm g') :
    ((typeRule (T, g)).map Conflict.key).Perm ((typeRule (T, g')).map Conflict.key) := by
  rw [typeRule_eq, typeRule_eq]
  simp only [h.length_eq]
  split
  · exact List.Perm.refl _
  · rw [List.map_flatMap, List.map_flatMap]
    have hc := countsOf_perm (h.map (fun e => e.name))
    have hentries : (objectEntries (countsOf (g.map (fun e => e.name)))).Perm
        (objectEntries (countsOf (g'.map (fun e => e.name)))) :=
      (objectEntries_perm _).trans (hc.trans (objectEntries_perm _).symm)
    refine (hentries.flatMap_right _).trans ?_
    apply List.Perm.flatMap_left
    intro e _
    exact List.Perm.of_eq (key_reportName T g g' e)

theorem getEntityConflicts_keys_perm {xs ys : List EntityRecord} (h : xs.Perm ys) :
    ((getEntityConflicts xs).map Conflict.key).Perm
      ((getEntityConflicts ys).map Conflict.key) := by
  rw [getEntityConflicts_eq, getEntityConflicts_eq, List.map_flatMap, List.map_flatMap]
  exact flatMap_groups_perm entityTypeKey
    (fun e => (typeRule (e.1, e.2.map EntityRecord.toNamed)).map Conflict.key) h
    (fun T a b hab => key_typeRule_perm T (hab.map _))

theorem mem_getEntityConflicts (records : List EntityRecord) (f : Conflict)
    (hf : f ∈ getEntityConflicts records) : ∃ T n, f = duplicateOf records T n := by
  rw [getEntityConflicts_eq] at hf
  obtain ⟨e, he, hfe⟩ := List.mem_flatMap.mp hf
  have hg := ((mem_groupsOf _ _ e.1 e.2).mp ((mem_objectEntries _ _).mp he)).2
  rw [typeRule_eq] at hfe
  split at hfe
  · simp at hfe
  · obtain ⟨e', he', hfe'⟩ := List.mem_flatMap.mp hfe
    obtain ⟨count, hcount, _, hfd⟩ := mem_reportName _ _ e' f hfe'
    have hv := ((mem_countsOf _ e'.1 e'.2).mp he').2
    rw [hcount] at hv
    refine ⟨e.1, e'.1, ?_⟩
    rw [hfd, duplicateOf, ← hg]
    split at hv
    · cases hv
    · rw [CountValue.number.injEq] at hv
      rw [hv]

theorem duplicateOf_perm {xs ys : List EntityRecord} (h : xs.Perm ys) (T n : String) :
    (duplicateOf xs T n).SameAs (duplicateOf ys T n) :=
  ⟨rfl, rfl, (((h.filter _).map _).map _).count_eq n, (((h.filter _).map _).filter _).map _⟩

theorem getEntityConflicts_perm {xs ys : List EntityRecord} (h : xs.Perm ys) :
    SameFindings (getEntityConflicts xs) (getEntityConflicts ys) := by
  refine ⟨getEntityConflicts_keys_perm h, ?_⟩
  intro f hf g hg hkey
  obtain ⟨T, n, rfl⟩ := mem_getEntityConflicts xs f hf
  obtain ⟨T', n', rfl⟩ := mem_getEntityConflicts ys g hg
  simp only [duplicateOf, Conflict.key, ConflictKey.duplicate.injEq] at hkey
  obtain ⟨rfl, rfl⟩ := hkey
  exact duplicateOf_perm h T n

/-- C9: the conflict rules are insensitive to the order of their input. For
every permutation of the symbol records, of the entity records and of the
relationship records, `detectSymbolConflicts`, the duplicate-name rule and the
relationship rule return the same findings up to the order of the findings and
of the entries of their evidence lists (a call that throws on one order throws
on every order). -/
theorem conflict_rules_order_insensitive
    (symbols symbols' : List Symbol) (records records' : List EntityRecord)
    (relationships relationships' : List Relationship)
    (hs : symbols.Perm symbols') (he : records.Perm records')
    (hr : relationships.Perm relationships') :
    SameResults (detectSymbolConflicts symbols) (detectSymbolConflicts symbols')
    ∧ SameFindings (getEntityConflicts records) (getEntityConflicts records')
    ∧ SameResults (detectRelationshipConflicts relationships)
        (detectRelationshipConflicts relationships') :=
  ⟨detectSymbolConflicts_perm hs, getEntityConflicts_perm he,
    detectRelationshipConflicts_perm hr⟩


/-- Witness for `conflict_rules_order_insensitive`: Scenarios A, B and C of the
specification with their two files processed in the opposite order. -/
theorem conflict_rules_order_insensitive_witness :
    SameResults
      (detectSymbolConflicts
        [⟨some "v", some "fluid dynamics", none, none, "a.cypher", false⟩,
         ⟨some "v", some "linear algebra", none, none, "b.cypher", false⟩])
      (detectSymbolConflicts
        [⟨some "v", some "linear algebra", none, none, "b.cypher", false⟩,
         ⟨some "v", some "fluid dynamics", none, none, "a.cypher", false⟩])
    ∧ SameFindings
      (getEntityConflicts
        [⟨"MathematicalConcept", "GradientDescent", "a.cypher"⟩,
         ⟨"MathematicalConcept", "GradientDescent", "b.cypher"⟩])
      (getEntityConflicts
        [⟨"MathematicalConcept", "GradientDescent", "b.cypher"⟩,
         ⟨"MathematicalConcept", "GradientDescent", "a.cypher"⟩])
    ∧ SameResults
      (detectRelationshipConflicts
        [⟨"Algorithm", "Solver", "NumericalMethod", "Newton", "IMPLEMENTS", "r.cypher"⟩,
         ⟨"Algorithm", "Solver", "NumericalMethod", "Newton", "BASED_ON", "r.cypher"⟩])
      (detectRelationshipConflicts
        [⟨"Algorithm", "Solver", "NumericalMethod", "Newton", "BASED_ON", "r.cypher"⟩,
         ⟨"Algorithm", "Solver", "NumericalMethod", "Newton", "IMPLEMENTS", "r.cypher"⟩]) :=
  conflict_rules_order_insensitive _ _ _ _ _ _
    (List.Perm.swap _ _ _) (List.Perm.swap _ _ _) (List.Perm.swap _ _ _)


/-! ## The format checks and the schema -/

theorem formatPrefix_length (key : String) : 2 ≤ (formatPrefix key).data.length := by
  unfold formatPrefix
  split
  · decide
  · split
    · decide
    · split <;> decide

theorem messageTag_of_isFormatErrorOf (key e : String) (h : isFormatErrorOf key e = true) :
    messageTag e = messageTag (formatPrefix key) := by
  unfold isFormatErrorOf at h
  rw [List.isPrefixOf_iff_prefix] at h
  obtain ⟨t, ht⟩ := h
  unfold messageTag
  rw [← ht, List.take_append_of_le_length (formatPrefix_length key)]

theorem isFormatErrorOf_message (key value : String) :
    isFormatErrorOf key (formatPrefix key ++ value) = true := by
  unfold isFormatErrorOf
  rw [List.isPrefixOf_iff_prefix, String.data_append]
  exact List.prefix_append _ _

theorem mem_formatErrors (entityType key value e : String)
    (he : e ∈ formatErrors entityType key value) :
    key ∈ formatKeys ∧ e = formatPrefix key ++ value := by
  unfold formatErrors at he
  split at he
  · rename_i hk
    split at he
    · rw [List.mem_singleton] at he
      subst hk
      exact ⟨by decide, he⟩
    · simp at he
  · split at he
    · rename_i hk
      split at he
      · rw [List.mem_singleton] at he
        subst hk
        exact ⟨by decide, he⟩
      · simp at he
    · split at he
      · rename_i hk
        split at he
        · rw [List.mem_singleton] at he
          subst hk
          exact ⟨by decide, he⟩
        · simp at he
      · split at he
        · rename_i hk
          split at he
          · rw [List.mem_singleton] at he
            subst hk
            exact ⟨by decide, he⟩
          · simp at he
        · simp at he

theorem formatPrefix_tag_injective (key key' : String) (hk : key ∈ formatKeys)
    (hk' : key' ∈ formatKeys)
    (h : messageTag (formatPrefix key) = messageTag (formatPrefix key')) : key = key' := by
  simp only [formatKeys, List.mem_cons, List.mem_singleton, List.mem_nil_iff, or_false] at hk hk'
  rcases hk with rfl | rfl | rfl | rfl <;> rcases hk' with rfl | rfl | rfl | rfl <;>
    first
    | rfl
    | (exfalso; revert h; decide)

theorem filter_format_formatErrors (entityType key key' value : String)
    (hkey : key ∈ formatKeys) :
    (formatErrors entityType key' value).filter (isFormatErrorOf key)
      = if key' = key then formatErrors entityType key' value else [] := by
  split
  · rename_i hk
    rw [List.filter_eq_self]
    intro e he
    obtain ⟨_, rfl⟩ := mem_formatErrors _ _ _ _ he
    rw [hk]
    exact isFormatErrorOf_message key value
  · rename_i hk
    rw [List.filter_eq_nil_iff]
    intro e he hP
    obtain ⟨hk', rfl⟩ := mem_formatErrors _ _ _ _ he
    have := messageTag_of_isFormatErrorOf key _ hP
    rw [messageTag_append _ _ (formatPrefix_length key')] at this
    exact hk (formatPrefix_tag_injective key' key hk' hkey this)

theorem formatPrefix_tag_ne (key : String) (hkey : key ∈ formatKeys) :
    messageTag (formatPrefix key) ≠ messageTag "Unknown property: "
      ∧ messageTag (formatPrefix key) ≠ messageTag "Missing required property: " := by
  simp only [formatKeys, List.mem_cons, List.mem_singleton, List.mem_nil_iff, or_false] at hkey
  rcases hkey with rfl | rfl | rfl | rfl <;> decide

theorem filter_format_requiredErrors (properties : List (String × String))
    (entitySchema : Option EntitySchema) (key : String) (hkey : key ∈ formatKeys) :
    (requiredErrors properties entitySchema).filter (isFormatErrorOf key) = [] := by
  rw [List.filter_eq_nil_iff]
  intro e hmem hP
  have htag := messageTag_of_isFormatErrorOf key e hP
  cases entitySchema with
  | none => simp [requiredErrors] at hmem
  | some schema =>
    simp only [requiredErrors] at hmem
    obtain ⟨r, _, he⟩ := List.mem_flatMap.mp hmem
    split at he
    · rw [List.mem_singleton] at he
      rw [he, messageTag_append _ _ (by decide)] at htag
      exact (formatPrefix_tag_ne key hkey).2 htag.symm
    · simp at he

theorem filter_format_propertyErrors (entityType : String)
    (entitySchema : Option EntitySchema) (key : String) (hkey : key ∈ formatKeys)
    (entry : String × String) :
    (propertyErrors entityType entitySchema entry).filter (isFormatErrorOf key)
      = if entry.1 = key ∧ isUnknownProperty entitySchema key = false then
          formatErrors entityType entry.1 entry.2
        else [] := by
  unfold propertyErrors
  by_cases hu : isUnknownProperty entitySchema entry.1 = true
  · rw [if_pos hu]
    have hnil : ["Unknown property: " ++ entry.1].filter (isFormatErrorOf key) = [] := by
      rw [List.filter_eq_nil_iff]
      intro e he hP
      rw [List.mem_singleton] at he
      have htag := messageTag_of_isFormatErrorOf key e hP
      rw [he, messageTag_append _ _ (by decide)] at htag
      exact (formatPrefix_tag_ne key hkey).1 htag.symm
    rw [hnil]
    split
    · rename_i h
      rw [h.1] at hu
      rw [hu] at h
      exact absurd h.2 (by simp)
    · rfl
  · rw [if_neg hu, filter_format_formatErrors entityType key entry.1 entry.2 hkey]
    by_cases hk : entry.1 = key
    · have : isUnknownProperty entitySchema key = false := by
        rw [← hk]; simpa using hu
      rw [if_pos hk, if_pos ⟨hk, this⟩]
    · rw [if_neg hk, if_neg (fun h => hk h.1)]

theorem filter_format_validatePropertyValues (properties : List (String × String))
    (entityType : String) (entitySchema : Option EntitySchema) (key : String)
    (hkey : key ∈ formatKeys) :
    (validatePropertyValues properties entityType entitySchema).filter (isFormatErrorOf key)
      = (objectEntries properties).flatMap (fun entry =>
          if entry.1 = key ∧ isUnknownProperty entitySchema key = false then
            formatErrors entityType entry.1 entry.2
          else []) := by
  unfold validatePropertyValues
  rw [List.filter_append, filter_format_requiredErrors _ _ _ hkey, List.nil_append,
    List.filter_flatMap]
  congr 1
  funext entry
  exact filter_format_propertyErrors entityType entitySchema key hkey entry

/-- C11, amended: the format errors of a kind (year, doi, url or latex) are the
same under any two schemas, absent or present, that both list the key of that
kind as required or optional (or are absent); under a schema that does not list
the key the property is reported as unknown and its format is not checked. -/
theorem format_errors_agree_when_listed (properties : List (String × String))
    (entityType : String) (schema₁ schema₂ : Option EntitySchema) (key : String)
    (hkey : key ∈ formatKeys)
    (h₁ : isUnknownProperty schema₁ key = false)
    (h₂ : isUnknownProperty schema₂ key = false) :
    (validatePropertyValues properties entityType schema₁).filter (isFormatErrorOf key)
      = (validatePropertyValues properties entityType schema₂).filter (isFormatErrorOf key) := by
  rw [filter_format_validatePropertyValues _ _ _ _ hkey,
    filter_format_validatePropertyValues _ _ _ _ hkey]
  simp only [h₁, h₂]

/-- Witness for `format_errors_agree_when_listed`: the year `"20A4"` gets the
same error without a schema and under a schema that lists `year` as optional. -/
theorem format_errors_agree_when_listed_witness :
    (validatePropertyValues [("title", "\"Spectral methods\""), ("year", "\"20A4\"")]
        "Paper" none).filter (isFormatErrorOf "year")
      = (validatePropertyValues [("title", "\"Spectral methods\""), ("year", "\"20A4\"")]
        "Paper" (some ⟨"id", ["id", "title"], ["year"]⟩)).filter (isFormatErrorOf "year") :=
  format_errors_agree_when_listed _ "Paper" none (some ⟨"id", ["id", "title"], ["year"]⟩)
    "year" (by decide) (by decide) (by decide)

/-- C11 as stated fails for a schema that does not list the property: the year
`"20A4"` gets its format error without a schema, and only an `Unknown property`
error, after which the loop continues, under a schema that lists `id` and
`title`. -/
theorem format_errors_differ_when_unlisted :
    ¬ FormatErrorsAgree [("year", "\"20A4\"")] "Paper" none
      (some ⟨"id", ["id", "title"], []⟩) := by
  intro h
  have := h "year" (by decide)
  revert this
  decide


/-! ## The latex format check -/

theorem flatMap_key_of_mem {β γ : Type} (L : List (String × β)) (F : String × β → List γ)
    (k : String) (v : β) (hnd : (L.map Prod.fst).Nodup) (hmem : (k, v) ∈ L) :
    L.flatMap (fun e => if e.1 = k then F e else []) = F (k, v) := by
  induction L with
  | nil => simp at hmem
  | cons e L ih =>
    rw [List.map_cons, List.nodup_cons] at hnd
    rw [List.flatMap_cons]
    rcases List.mem_cons.mp hmem with heq | hin
    · subst heq
      have hrest : L.flatMap (fun e => if e.1 = k then F e else []) = [] := by
        rw [List.flatMap_eq_nil_iff]
        intro e' he'
        have : e'.1 ≠ k := fun h => hnd.1 (List.mem_map.mpr ⟨e', he', h⟩)
        simp [this]
      simp [hrest]
    · have : e.1 ≠ k := fun h => hnd.1 (List.mem_map.mpr ⟨(k, v), hin, h.symm⟩)
      simp only [this, if_false, List.nil_append]
      exact ih hnd.2 hin

theorem format_errors_of_listed_key (properties : List (String × String))
    (entityType : String) (entitySchema : Option EntitySchema) (key value : String)
    (hkey : key ∈ formatKeys) (hobj : (properties.map Prod.fst).Nodup)
    (hmem : (key, value) ∈ properties)
    (hschema : isUnknownProperty entitySchema key = false) :
    (validatePropertyValues properties entityType entitySchema).filter (isFormatErrorOf key)
      = formatErrors entityType key value := by
  rw [filter_format_validatePropertyValues _ _ _ _ hkey]
  simp only [hschema, and_true]
  have hnd : ((objectEntries properties).map Prod.fst).Nodup := by
    rw [((objectEntries_perm properties).map Prod.fst).nodup_iff]
    exact hobj
  exact flatMap_key_of_mem (objectEntries properties)
    (fun e => formatErrors entityType e.1 e.2) key value hnd
    ((mem_objectEntries _ _).mpr hmem)

theorem hasDisplacedBackslash_iff (value : String) :
    hasDisplacedBackslash (cleanValue value) = true ↔ DisplacedBackslash value := by
  unfold hasDisplacedBackslash DisplacedBackslash
  simp

theorem cleanValue_ne_empty_of_displaced (value : String) (h : DisplacedBackslash value) :
    cleanValue value ≠ "" := by
  intro he
  have := h.1
  rw [he] at this
  simp at this

/-- C17: for a property bag (distinct keys) with a `latex` property and a
schema that is absent or lists `latex`, `validatePropertyValues` reports exactly
one 'LaTeX may be malformed' error, quoting the value, when the entity type is
Symbol and the value, with an enclosing quote removed at each end, contains a
backslash but does not start with one; otherwise, and for every other entity
type, it reports no latex error. -/
theorem latex_format_error_iff (properties : List (String × String)) (entityType : String)
    (entitySchema : Option EntitySchema) (value : String)
    (hobj : (properties.map Prod.fst).Nodup)
    (hlatex : ("latex", value) ∈ properties)
    (hschema : isUnknownProperty entitySchema "latex" = false) :
    (entityType = "Symbol" ∧ DisplacedBackslash value →
      (validatePropertyValues properties entityType entitySchema).filter
        (isFormatErrorOf "latex") = ["LaTeX may be malformed: " ++ value])
    ∧ (¬ (entityType = "Symbol" ∧ DisplacedBackslash value) →
      (validatePropertyValues properties entityType entitySchema).filter
        (isFormatErrorOf "latex") = []) := by
  rw [format_errors_of_listed_key properties entityType entitySchema "latex" value
    (by decide) hobj hlatex hschema]
  have hform : formatErrors entityType "latex" value
      = if entityType = "Symbol" ∧ cleanValue value ≠ ""
            ∧ hasDisplacedBackslash (cleanValue value) = true then
          ["LaTeX may be malformed: " ++ value]
        else [] := by
    unfold formatErrors
    simp
  rw [hform]
  constructor
  · rintro ⟨ht, hd⟩
    rw [if_pos ⟨ht, cleanValue_ne_empty_of_displaced value hd,
      (hasDisplacedBackslash_iff value).mpr hd⟩]
  · intro hnot
    rw [if_neg]
    rintro ⟨ht, _, hd⟩
    exact hnot ⟨ht, (hasDisplacedBackslash_iff value).mp hd⟩

/-- Witness for `latex_format_error_iff`: a Symbol whose latex `"x\hat"` holds a
backslash after its first character, without a schema. -/
theorem latex_format_error_iff_witness :
    (("Symbol" : String) = "Symbol" ∧ DisplacedBackslash "\"x\\hat\"" →
      (validatePropertyValues [("name", "\"x\""), ("latex", "\"x\\hat\"")] "Symbol"
        none).filter (isFormatErrorOf "latex") = ["LaTeX may be malformed: " ++ "\"x\\hat\""])
    ∧ (¬ (("Symbol" : String) = "Symbol" ∧ DisplacedBackslash "\"x\\hat\"") →
      (validatePropertyValues [("name", "\"x\""), ("latex", "\"x\\hat\"")] "Symbol"
        none).filter (isFormatErrorOf "latex") = []) :=
  latex_format_error_iff _ "Symbol" none "\"x\\hat\"" (by decide) (by decide) (by decide)


/-! ## Template files -/

theorem includesChars_of_infix (part before after : List Char) :
    includesChars part (before ++ part ++ after) = true := by
  induction before with
  | nil =>
    cases hp : part ++ after with
    | nil =>
      have h1 : part = [] := (List.append_eq_nil.mp hp).1
      have h2 : after = [] := (List.append_eq_nil.mp hp).2
      simp [includesChars, h1, h2]
    | cons c cs =>
      simp only [List.nil_append, hp, includesChars, Bool.or_eq_true]
      left
      rw [← hp, List.isPrefixOf_iff_prefix]
      exact List.prefix_append _ _
  | cons b before ih =>
    simp only [List.cons_append, includesChars, Bool.or_eq_true]
    right
    simpa using ih

/-- C18: a file content that contains the token `[ENTITY_NAME]`, whatever else
it contains, makes `validateCypherFile` and, for every entity type and schema,
`validateSingleEntity` return `valid: true` with the single warning
`This file is a template` and no `errors` field. -/
theorem template_file_is_valid (content : String) (before after : List Char)
    (entityType : String) (entitySchema : SchemaValue)
    (hcontent : content.data = before ++ "[ENTITY_NAME]".data ++ after) :
    validateCypherFile content = ⟨true, none, some ["This file is a template"]⟩
    ∧ validateSingleEntity content entityType entitySchema
        = ⟨true, none, none, none, some ["This file is a template"]⟩ := by
  have hinc : includes content "[ENTITY_NAME]" = true := by
    unfold includes
    rw [hcontent]
    exact includesChars_of_infix _ _ _
  constructor
  · unfold validateCypherFile validateCypherContent
    simp [hinc]
  · unfold validateSingleEntity
    simp [hinc]

/-- Witness for `template_file_is_valid`: Scenario E of the specification, a
Symbol template with the token in its name field. -/
theorem template_file_is_valid_witness :
    validateCypherFile "CREATE (s:Symbol \x7bname: \"[ENTITY_NAME]\"\x7d)"
        = ⟨true, none, some ["This file is a template"]⟩
    ∧ validateSingleEntity "CREATE (s:Symbol \x7bname: \"[ENTITY_NAME]\"\x7d)" "Symbol"
        SchemaValue.absent
        = ⟨true, none, none, none, some ["This file is a template"]⟩ :=
  template_file_is_valid "CREATE (s:Symbol \x7bname: \"[ENTITY_NAME]\"\x7d)"
    "CREATE (s:Symbol \x7bname: \"".data "\"\x7d)".data "Symbol" SchemaValue.absent (by decide)

/-! ## The validators of `cypher-validator.js` at their failing inputs -/

/-- C12 fails on a file with one well-formed entity statement: `entityTypes`
is not in the scope of `validateEntitySyntax`, its evaluation throws, and
`validateCypherFile` returns `valid: false` with the caught message. -/
theorem valid_entity_file_is_rejected :
    validateCypherFile "CREATE (a:Algorithm \x7bname: \"Newton\"\x7d)"
      = ⟨false, some ["Error reading file: entityTypes is not defined"], none⟩ := by
  decide

/-- C13 fails for a label that is the name of an inherited member: with the
schema table bound to a table whose only key is `Algorithm`, the statement
`CREATE (c:toString ...)` gets no 'Invalid entity type' error; and with the
table out of scope, as in the module, the call on `CREATE (a:Foo)` throws
instead of reporting. -/
theorem inherited_label_is_not_reported :
    validateEntitySyntax (some [("Algorithm", ⟨"name", ["name"], []⟩)])
        "CREATE (c:toString \x7bname: \"X\"\x7d)" = Except.ok []
    ∧ validateEntitySyntax none "CREATE (a:Foo)"
        = Except.error "entityTypes is not defined" := by
  decide

/-- C14 fails on a file with two triples: `Solver` IMPLEMENTS `Newton` and
`Lee2020` CITES `Kim2019`, both with allowed endpoint types. With the schema
table bound, the greedy `.*` with the `s` flag makes one match of both, whose
source type is the first triple's and whose target type and label are the
second triple's, and the only check reports an error that belongs to neither
triple; with the table out of scope, as in the module, the call throws. -/
theorem two_triples_are_checked_as_one :
    validateRelationshipSyntax
        (some [("IMPLEMENTS", ⟨["Algorithm"], ["NumericalMethod"], []⟩),
          ("CITES", ⟨["Paper"], ["Paper"], []⟩)])
        ("MATCH (a:Algorithm \x7bname: \"Solver\"\x7d)\n"
          ++ "MATCH (b:NumericalMethod \x7bname: \"Newton\"\x7d)\n"
          ++ "CREATE (a)-[:IMPLEMENTS \x7b\x7d]->(b)\n"
          ++ "MATCH (p:Paper \x7bid: \"Lee2020\"\x7d)\n"
          ++ "MATCH (q:Paper \x7bid: \"Kim2019\"\x7d)\n"
          ++ "CREATE (p)-[:CITES \x7b\x7d]->(q)")
      = Except.ok ["Invalid source type Algorithm for relationship CITES"]
    ∧ validateRelationshipSyntax none
        ("MATCH (a:Algorithm \x7bname: \"Solver\"\x7d)\n"
          ++ "MATCH (b:NumericalMethod \x7bname: \"Newton\"\x7d)\n"
          ++ "CREATE (a)-[:IMPLEMENTS \x7b\x7d]->(b)\n"
          ++ "MATCH (p:Paper \x7bid: \"Lee2020\"\x7d)\n"
          ++ "MATCH (q:Paper \x7bid: \"Kim2019\"\x7d)\n"
          ++ "CREATE (p)-[:CITES \x7b\x7d]->(q)")
      = Except.error "relationshipTypes is not defined" := by
  set_option maxRecDepth 100000 in decide

/-- C19 fails when a value holds a comma followed by a colon, and when a value
is a nested map: with the schema table bound, the title
`"Steps: first, second: last"` yields the property name `second`, reported as
unknown, and the map `meta` ends the property list at its closing brace, so the
required `year` after it is reported as missing; with the table out of scope,
as in the module, the call throws. -/
theorem property_names_break_on_values :
    validateProperties (some [("Paper", ⟨"id", ["id", "title", "year"], ["meta"]⟩)])
        "CREATE (p:Paper \x7bid: \"Lee2020\", title: \"Steps: first, second: last\", year: 2020\x7d)"
      = Except.ok ["Unknown property \x27second\x27 for Paper"]
    ∧ validateProperties (some [("Paper", ⟨"id", ["id", "title", "year"], ["meta"]⟩)])
        "CREATE (p:Paper \x7bid: \"Lee2020\", title: \"Steps\", meta: \x7bpages: 12\x7d, year: 2020\x7d)"
      = Except.ok ["Missing required property \x27year\x27 for Paper"]
    ∧ validateProperties none
        "CREATE (p:Paper \x7bid: \"Lee2020\", title: \"Steps: first, second: last\", year: 2020\x7d)"
      = Except.error "entityTypes is not defined" := by
  set_option maxRecDepth 100000 in decide

/-- C20 fails on every quoted URL: the value is cut at its first colon by
`propMatch.split(':')`, so `url: "https://example.org/a"` is stored as `"https`
and `validatePropertyValues` reports a URL format error. -/
theorem extracted_url_is_cut_at_colon :
    extractEntityProperties
        "CREATE (p:Paper \x7bid: \"Lee2020\", url: \"https://example.org/a\"\x7d)" "Paper"
      = [("id", "\"Lee2020\""), ("url", "\"https")]
    ∧ validatePropertyValues
        (extractEntityProperties
          "CREATE (p:Paper \x7bid: \"Lee2020\", url: \"https://example.org/a\"\x7d)" "Paper")
        "Paper" none
      = ["URL format is incorrect: \"https"] := by
  decide


/-! ## The matcher and the language of a regular expression -/

theorem isSome_orElse_match {ρ : Type} (x y : Option ρ) :
    (match x with
      | some v => some v
      | none => y).isSome = (x.isSome || y.isSome) := by
  cases x <;> simp

theorem starLoop_isSome_iff {ρ : Type} (r : Regex)
    (m : List Char → Captures → (List Char → Captures → Option ρ) → Option ρ)
    (hm : ∀ (input : List Char) (caps : Captures) (k : List Char → Captures → Option ρ)
        (K : List Char → Prop), (∀ rest caps', (k rest caps').isSome = true ↔ K rest) →
      ((m input caps k).isSome = true ↔ ∃ a b, input = a ++ b ∧ Regex.Matches r a ∧ K b))
    (k : List Char → Captures → Option ρ) (K : List Char → Prop)
    (hk : ∀ rest caps', (k rest caps').isSome = true ↔ K rest) :
    ∀ (n : Nat) (input : List Char) (caps : Captures), input.length < n →
      ((starLoop m n input caps k).isSome = true ↔
        ∃ a b, input = a ++ b ∧ Regex.Matches (Regex.star r) a ∧ K b) := by
  intro n
  induction n with
  | zero => intro input caps h; exact absurd h (Nat.not_lt_zero _)
  | succ n ih =>
    intro input caps hlen
    have hk1 : ∀ rest caps', ((if rest.length < input.length then starLoop m n rest caps' k
          else none).isSome = true ↔
        (rest.length < input.length
          ∧ ∃ a b, rest = a ++ b ∧ Regex.Matches (Regex.star r) a ∧ K b)) := by
      intro rest caps'
      by_cases hr : rest.length < input.length
      · rw [if_pos hr, ih rest caps' (by omega)]
        exact ⟨fun h => ⟨hr, h⟩, fun h => h.2⟩
      · rw [if_neg hr]
        simp [hr]
    simp only [starLoop]
    rw [isSome_orElse_match, Bool.or_eq_true, hm input caps _ _ hk1, hk]
    constructor
    · rintro (⟨a, b, hab, hra, hb, a', b', hab', hsa, hK⟩ | hK)
      · refine ⟨a ++ a', b', by rw [hab, hab', List.append_assoc], ?_, hK⟩
        refine Regex.Matches.starCons hra ?_ hsa
        intro ha
        rw [hab, ha] at hb
        simp at hb
      · exact ⟨[], input, rfl, Regex.Matches.starNil, hK⟩
    · rintro ⟨a, b, hab, hsa, hK⟩
      cases hsa with
      | starNil =>
        right
        rw [hab]
        exact hK
      | @starCons _ a₁ a₂ h₁ hne h₂ =>
        left
        refine ⟨a₁, a₂ ++ b, by rw [hab, List.append_assoc], h₁, ?_, a₂, b, rfl, h₂, hK⟩
        rw [hab]
        have : 0 < a₁.length := List.length_pos.mpr hne
        simp only [List.length_append]
        omega

theorem lazyLoop_isSome_iff {ρ : Type} (r : Regex)
    (m : List Char → Captures → (List Char → Captures → Option ρ) → Option ρ)
    (hm : ∀ (input : List Char) (caps : Captures) (k : List Char → Captures → Option ρ)
        (K : List Char → Prop), (∀ rest caps', (k rest caps').isSome = true ↔ K rest) →
      ((m input caps k).isSome = true ↔ ∃ a b, input = a ++ b ∧ Regex.Matches r a ∧ K b))
    (k : List Char → Captures → Option ρ) (K : List Char → Prop)
    (hk : ∀ rest caps', (k rest caps').isSome = true ↔ K rest) :
    ∀ (n : Nat) (input : List Char) (caps : Captures), input.length < n →
      ((lazyLoop m n input caps k).isSome = true ↔
        ∃ a b, input = a ++ b ∧ Regex.Matches (Regex.lazyStar r) a ∧ K b) := by
  intro n
  induction n with
  | zero => intro input caps h; exact absurd h (Nat.not_lt_zero _)
  | succ n ih =>
    intro input caps hlen
    have hk1 : ∀ rest caps', ((if rest.length < input.length then lazyLoop m n rest caps' k
          else none).isSome = true ↔
        (rest.length < input.length
          ∧ ∃ a b, rest = a ++ b ∧ Regex.Matches (Regex.lazyStar r) a ∧ K b)) := by
      intro rest caps'
      by_cases hr : rest.length < input.length
      · rw [if_pos hr, ih rest caps' (by omega)]
        exact ⟨fun h => ⟨hr, h⟩, fun h => h.2⟩
      · rw [if_neg hr]
        simp [hr]
    simp only [lazyLoop]
    rw [isSome_orElse_match, Bool.or_eq_true, hm input caps _ _ hk1, hk]
    constructor
    · rintro (hK | ⟨a, b, hab, hra, hb, a', b', hab', hsa, hK⟩)
      · exact ⟨[], input, rfl, Regex.Matches.lazyNil, hK⟩
      · refine ⟨a ++ a', b', by rw [hab, hab', List.append_assoc], ?_, hK⟩
        refine Regex.Matches.lazyCons hra ?_ hsa
        intro ha
        rw [hab, ha] at hb
        simp at hb
    · rintro ⟨a, b, hab, hsa, hK⟩
      cases hsa with
      | lazyNil =>
        left
        rw [hab]
        exact hK
      | @lazyCons _ a₁ a₂ h₁ hne h₂ =>
        right
        refine ⟨a₁, a₂ ++ b, by rw [hab, List.append_assoc], h₁, ?_, a₂, b, rfl, h₂, hK⟩
        rw [hab]
        have : 0 < a₁.length := List.length_pos.mpr hne
        simp only [List.length_append]
        omega

theorem matchRe_isSome_iff {ρ : Type} (r : Regex) :
    ∀ (input : List Char) (caps : Captures) (k : List Char → Captures → Option ρ)
      (K : List Char → Prop), (∀ rest caps', (k rest caps').isSome = true ↔ K rest) →
      ((matchRe r input caps k).isSome = true ↔
        ∃ a b, input = a ++ b ∧ Regex.Matches r a ∧ K b) := by
  induction r with
  | empty =>
    intro input caps k K hk
    simp only [matchRe]
    rw [hk]
    constructor
    · intro h; exact ⟨[], input, rfl, Regex.Matches.empty, h⟩
    · rintro ⟨a, b, hab, ha, hK⟩
      cases ha
      rw [hab]; exact hK
  | set p =>
    intro input caps k K hk
    cases input with
    | nil =>
      simp only [matchRe]
      constructor
      · intro h; simp at h
      · rintro ⟨a, b, hab, ha, _⟩
        cases ha
        simp at hab
    | cons c rest =>
      simp only [matchRe]
      by_cases hp : p c = true
      · rw [if_pos hp, hk]
        constructor
        · intro h; exact ⟨[c], rest, rfl, Regex.Matches.set hp, h⟩
        · rintro ⟨a, b, hab, ha, hK⟩
          cases ha
          simp only [List.singleton_append, List.cons.injEq] at hab
          rw [hab.2]; exact hK
      · rw [if_neg hp]
        constructor
        · intro h; simp at h
        · rintro ⟨a, b, hab, ha, _⟩
          cases ha with
          | set hpc =>
            simp only [List.singleton_append, List.cons.injEq] at hab
            rw [← hab.1] at hpc
            exact absurd hpc hp
  | seq r s ihr ihs =>
    intro input caps k K hk
    simp only [matchRe]
    rw [ihr input caps _ (fun rest => ∃ a b, rest = a ++ b ∧ Regex.Matches s a ∧ K b)
      (fun rest caps' => ihs rest caps' k K hk)]
    constructor
    · rintro ⟨a, b, hab, ha, a', b', hab', ha', hK⟩
      exact ⟨a ++ a', b', by rw [hab, hab', List.append_assoc],
        Regex.Matches.seq ha ha', hK⟩
    · rintro ⟨a, b, hab, ha, hK⟩
      cases ha with
      | @seq _ _ a₁ a₂ h₁ h₂ =>
        exact ⟨a₁, a₂ ++ b, by rw [hab, List.append_assoc], h₁, a₂, b, rfl, h₂, hK⟩
  | alt r s ihr ihs =>
    intro input caps k K hk
    simp only [matchRe]
    rw [isSome_orElse_match, Bool.or_eq_true, ihr input caps k K hk, ihs input caps k K hk]
    constructor
    · rintro (⟨a, b, hab, ha, hK⟩ | ⟨a, b, hab, ha, hK⟩)
      · exact ⟨a, b, hab, Regex.Matches.altLeft ha, hK⟩
      · exact ⟨a, b, hab, Regex.Matches.altRight ha, hK⟩
    · rintro ⟨a, b, hab, ha, hK⟩
      cases ha with
      | altLeft h => exact Or.inl ⟨a, b, hab, h, hK⟩
      | altRight h => exact Or.inr ⟨a, b, hab, h, hK⟩
  | star r ih =>
    intro input caps k K hk
    simp only [matchRe]
    exact starLoop_isSome_iff r (matchRe r) ih k K hk (input.length + 1) input caps
      (Nat.lt_succ_self _)
  | lazyStar r ih =>
    intro input caps k K hk
    simp only [matchRe]
    exact lazyLoop_isSome_iff r (matchRe r) ih k K hk (input.length + 1) input caps
      (Nat.lt_succ_self _)
  | group i r ih =>
    intro input caps k K hk
    simp only [matchRe]
    rw [ih input caps _ K (fun rest caps' => hk rest _)]
    constructor
    · rintro ⟨a, b, hab, ha, hK⟩
      exact ⟨a, b, hab, Regex.Matches.group ha, hK⟩
    · rintro ⟨a, b, hab, ha, hK⟩
      cases ha with
      | group h => exact ⟨a, b, hab, h, hK⟩

theorem fullMatch_iff (r : Regex) (s : String) :
    fullMatch r s = true ↔ Regex.Matches r s.data := by
  unfold fullMatch
  rw [matchRe_isSome_iff r s.data [] _ (fun rest => rest = [])]
  · constructor
    · rintro ⟨a, b, hab, ha, hb⟩
      rw [hab, hb, List.append_nil]
      exact ha
    · intro h
      exact ⟨s.data, [], by simp, h, rfl⟩
  · intro rest _
    by_cases hr : rest = []
    · simp [hr]
    · simp [hr]


/-! ## The two naming expressions -/

theorem matches_empty_iff (x : List Char) : Regex.Matches Regex.empty x ↔ x = [] := by
  constructor
  · intro h; cases h; rfl
  · intro h; rw [h]; exact Regex.Matches.empty

theorem matches_set_iff (p : Char → Bool) (x : List Char) :
    Regex.Matches (Regex.set p) x ↔ ∃ c, x = [c] ∧ p c = true := by
  constructor
  · intro h
    cases h with
    | @set _ c hc => exact ⟨c, rfl, hc⟩
  · rintro ⟨c, hx, hc⟩
    rw [hx]; exact Regex.Matches.set hc

theorem matches_seq_iff (r s : Regex) (x : List Char) :
    Regex.Matches (Regex.seq r s) x ↔
      ∃ a b, x = a ++ b ∧ Regex.Matches r a ∧ Regex.Matches s b := by
  constructor
  · intro h
    cases h with
    | @seq _ _ a b ha hb => exact ⟨a, b, rfl, ha, hb⟩
  · rintro ⟨a, b, hx, ha, hb⟩
    rw [hx]; exact Regex.Matches.seq ha hb

theorem matches_alt_iff (r s : Regex) (x : List Char) :
    Regex.Matches (Regex.alt r s) x ↔ Regex.Matches r x ∨ Regex.Matches s x := by
  constructor
  · intro h
    cases h with
    | altLeft h => exact Or.inl h
    | altRight h => exact Or.inr h
  · rintro (h | h)
    · exact Regex.Matches.altLeft h
    · exact Regex.Matches.altRight h

theorem matches_star_set_forall (p : Char → Bool) (r : Regex) (x : List Char)
    (h : Regex.Matches r x) (hr : r = Regex.star (Regex.set p)) :
    ∀ c ∈ x, p c = true := by
  induction h with
  | empty => cases hr
  | set _ => cases hr
  | seq _ _ _ _ => cases hr
  | altLeft _ _ => cases hr
  | altRight _ _ => cases hr
  | starNil => intro c hc; simp at hc
  | @starCons r₁ a b ha _ _ _ ihb =>
    injection hr with hr₁
    rw [hr₁] at ha
    obtain ⟨c₁, hac, hpc⟩ := (matches_set_iff p a).mp ha
    intro c hc
    rw [hac] at hc
    rcases List.mem_append.mp hc with h₁ | h₂
    · rw [List.mem_singleton] at h₁
      rw [h₁]; exact hpc
    · exact ihb (by rw [hr₁]) c h₂
  | lazyNil => cases hr
  | lazyCons _ _ _ _ _ => cases hr
  | group _ _ => cases hr

theorem matches_star_set_iff (p : Char → Bool) (x : List Char) :
    Regex.Matches (Regex.star (Regex.set p)) x ↔ ∀ c ∈ x, p c = true := by
  constructor
  · intro h
    exact matches_star_set_forall p _ x h rfl
  · intro h
    induction x with
    | nil => exact Regex.Matches.starNil
    | cons c cs ih =>
      have hc : p c = true := h c (List.mem_cons_self _ _)
      have hcs := ih (fun d hd => h d (List.mem_cons_of_mem _ hd))
      exact Regex.Matches.starCons (Regex.Matches.set hc) (by simp) hcs

theorem matches_pascalCaseRegex_iff (s : String) :
    Regex.Matches pascalCaseRegex s.data ↔ IsPascalCase s := by
  unfold pascalCaseRegex IsPascalCase
  rw [matches_seq_iff]
  constructor
  · rintro ⟨a, b, hx, ha, hb⟩
    obtain ⟨c, hac, hc⟩ := (matches_set_iff _ a).mp ha
    refine ⟨c, b, by rw [hx, hac]; rfl, hc, (matches_star_set_iff _ b).mp hb⟩
  · rintro ⟨c, rest, hx, hc, hrest⟩
    exact ⟨[c], rest, by rw [hx]; rfl, Regex.Matches.set hc,
      (matches_star_set_iff _ rest).mpr hrest⟩

theorem matches_paperIdRegex_iff (s : String) :
    Regex.Matches paperIdRegex s.data ↔ IsPaperId s := by
  unfold paperIdRegex IsPaperId
  simp only [Regex.cat, List.foldr, Regex.plus, Regex.opt, matches_seq_iff, matches_set_iff,
    matches_alt_iff, matches_empty_iff, matches_star_set_iff]
  constructor
  · rintro ⟨_, _, hx, ⟨c, rfl, hc⟩, _, _, rfl, ⟨_, ls, rfl, ⟨l, rfl, hl⟩, hls⟩,
      _, _, rfl, ⟨d₁, rfl, h₁⟩, _, _, rfl, ⟨d₂, rfl, h₂⟩, _, _, rfl, ⟨d₃, rfl, h₃⟩,
      _, _, rfl, ⟨d₄, rfl, h₄⟩, tail, _, rfl, htail, rfl⟩
    refine ⟨c, l :: ls, [d₁, d₂, d₃, d₄], tail, ?_, hc, by simp, ?_, rfl, ?_, ?_⟩
    · rw [hx]; simp
    · intro x hx'
      rcases List.mem_cons.mp hx' with h | h
      · rw [h]; exact hl
      · exact hls x h
    · intro x hx'
      simp only [List.mem_cons, List.mem_singleton, List.not_mem_nil, or_false] at hx'
      rcases hx' with h | h | h | h <;> rw [h] <;> assumption
    · rcases htail with ⟨l', ht, hl'⟩ | ht
      · exact Or.inr ⟨l', hl', ht⟩
      · exact Or.inl ht
  · rintro ⟨c, lower, digits, tail, hx, hc, hne, hlower, hlen, hdigits, htail⟩
    cases lower with
    | nil => exact absurd rfl hne
    | cons l ls =>
      match digits, hlen, hdigits with
      | [d₁, d₂, d₃, d₄], _, hdigits =>
        refine ⟨[c], _, by rw [hx]; rfl, ⟨c, rfl, hc⟩, l :: ls, _, rfl,
          ⟨[l], ls, rfl, ⟨l, rfl, hlower l (List.mem_cons_self _ _)⟩,
            fun x hx' => hlower x (List.mem_cons_of_mem _ hx')⟩,
          [d₁], _, rfl, ⟨d₁, rfl, hdigits d₁ (by simp)⟩,
          [d₂], _, rfl, ⟨d₂, rfl, hdigits d₂ (by simp)⟩,
          [d₃], _, rfl, ⟨d₃, rfl, hdigits d₃ (by simp)⟩,
          [d₄], _, rfl, ⟨d₄, rfl, hdigits d₄ (by simp)⟩,
          tail, [], by simp, ?_, rfl⟩
        rcases htail with ht | ⟨l', hl', ht⟩
        · exact Or.inr ht
        · exact Or.inl ⟨l', ht, hl'⟩

theorem fullMatch_pascalCaseRegex (s : String) :
    fullMatch pascalCaseRegex s = true ↔ IsPascalCase s := by
  rw [fullMatch_iff, matches_pascalCaseRegex_iff]

theorem fullMatch_paperIdRegex (s : String) :
    fullMatch paperIdRegex s = true ↔ IsPaperId s := by
  rw [fullMatch_iff, matches_paperIdRegex_iff]

/-! ## Reading a property of a bag -/

theorem lookup_eq_some_of_mem {β : Type} (obj : List (String × β)) (k : String) (v : β)
    (hobj : (obj.map Prod.fst).Nodup) (h : (k, v) ∈ obj) : obj.lookup k = some v := by
  induction obj with
  | nil => simp at h
  | cons e rest ih =>
    obtain ⟨k', v'⟩ := e
    simp only [List.map_cons, List.nodup_cons] at hobj
    rcases List.mem_cons.mp h with h₁ | h₂
    · injection h₁ with hk hv
      rw [hk, hv]
      simp [List.lookup]
    · have hne : k ≠ k' := by
        intro hk
        apply hobj.1
        rw [← hk]
        exact List.mem_map.mpr ⟨(k, v), h₂, rfl⟩
      rw [List.lookup_cons]
      have : (k == k') = false := by simpa using hne
      rw [this]
      exact ih hobj.2 h₂

theorem mem_of_lookup_eq_some {β : Type} (obj : List (String × β)) (k : String) (v : β)
    (h : obj.lookup k = some v) : (k, v) ∈ obj := by
  induction obj with
  | nil => simp at h
  | cons e rest ih =>
    obtain ⟨k', v'⟩ := e
    rw [List.lookup_cons] at h
    by_cases hk : (k == k') = true
    · rw [hk] at h
      injection h with hv
      have : k = k' := by simpa using hk
      rw [this, hv]
      exact List.mem_cons_self _ _
    · simp only [Bool.not_eq_true] at hk
      rw [hk] at h
      exact List.mem_cons_of_mem _ (ih h)

/-- In a bag with distinct keys and non-empty values, `properties[k]` is truthy
with value `v` exactly when the bag holds `v` under `k`. -/
theorem truthy_lookup_eq_some_iff (properties : List (String × String)) (k v : String)
    (hobj : (properties.map Prod.fst).Nodup) (hvalues : ∀ e ∈ properties, e.2 ≠ "") :
    truthy (properties.lookup k) = some v ↔ (k, v) ∈ properties := by
  constructor
  · intro h
    cases hl : properties.lookup k with
    | none => rw [hl] at h; simp [truthy] at h
    | some w =>
      rw [hl] at h
      have hw := mem_of_lookup_eq_some properties k w hl
      have hne : w ≠ "" := hvalues _ hw
      simp only [truthy, hne, if_false] at h
      injection h with h
      rw [← h]; exact hw
  · intro h
    rw [lookup_eq_some_of_mem properties k v hobj h]
    have hne : v ≠ "" := hvalues _ h
    simp [truthy, hne]

theorem truthy_lookup_isSome_iff (properties : List (String × String)) (k : String)
    (hobj : (properties.map Prod.fst).Nodup) (hvalues : ∀ e ∈ properties, e.2 ≠ "") :
    (truthy (properties.lookup k)).isSome = true ↔ hasOwn properties k = true := by
  rw [Option.isSome_iff_exists]
  constructor
  · rintro ⟨v, hv⟩
    have := (truthy_lookup_eq_some_iff properties k v hobj hvalues).mp hv
    unfold hasOwn
    rw [List.any_eq_true]
    exact ⟨(k, v), this, by simp⟩
  · intro h
    unfold hasOwn at h
    rw [List.any_eq_true] at h
    obtain ⟨⟨k', v⟩, hmem, hk⟩ := h
    have hk' : k' = k := by simpa using hk
    rw [hk'] at hmem
    exact ⟨v, (truthy_lookup_eq_some_iff properties k v hobj hvalues).mpr hmem⟩


/-! ## Naming conventions -/

theorem pascalCaseErrors_ne_nil_iff (properties : List (String × String))
    (entityType : String)
    (hobj : (properties.map Prod.fst).Nodup) (hvalues : ∀ e ∈ properties, e.2 ≠ "") :
    pascalCaseErrors properties entityType ≠ [] ↔
      ∃ name, ("name", name) ∈ properties ∧ ¬ IsPascalCase (removeQuotes name) := by
  unfold pascalCaseErrors
  cases h : truthy (properties.lookup "name") with
  | none =>
    simp only [ne_eq, not_true_eq_false, false_iff]
    rintro ⟨name, hmem, _⟩
    rw [(truthy_lookup_eq_some_iff properties "name" name hobj hvalues).mpr hmem] at h
    cases h
  | some name =>
    have hmem := (truthy_lookup_eq_some_iff properties "name" name hobj hvalues).mp h
    simp only
    by_cases hm : fullMatch pascalCaseRegex (removeQuotes name) = true
    · have hp := (fullMatch_pascalCaseRegex _).mp hm
      simp only [hm, Bool.not_true, Bool.false_eq_true, if_false, ne_eq, not_true_eq_false,
        false_iff]
      rintro ⟨name', hmem', hnot⟩
      have h' := (truthy_lookup_eq_some_iff properties "name" name' hobj hvalues).mpr hmem'
      rw [h] at h'
      injection h' with h'
      rw [← h'] at hnot
      exact hnot hp
    · have hp : ¬ IsPascalCase (removeQuotes name) :=
        fun hp => hm ((fullMatch_pascalCaseRegex _).mpr hp)
      simp only [Bool.not_eq_true] at hm
      simp only [hm, Bool.not_false, if_true, ne_eq, List.cons_ne_nil, not_false_eq_true,
        true_iff]
      exact ⟨name, hmem, hp⟩

theorem pascalCaseErrors_length_le (properties : List (String × String))
    (entityType : String) : (pascalCaseErrors properties entityType).length ≤ 1 := by
  unfold pascalCaseErrors
  cases truthy (properties.lookup "name") with
  | none => simp
  | some name =>
    simp only
    split <;> simp

theorem validateNamingConventions_length_le (properties : List (String × String))
    (entityType : String) : (validateNamingConventions properties entityType).length ≤ 1 := by
  unfold validateNamingConventions
  split
  · exact pascalCaseErrors_length_le _ _
  split
  · exact pascalCaseErrors_length_le _ _
  split
  · exact pascalCaseErrors_length_le _ _
  split
  · simp
  split
  · cases truthy (properties.lookup "id") with
    | none => simp
    | some id =>
      simp only
      split <;> simp
  · simp

/-- C15: for every property bag (distinct keys, non-empty values) and entity
type, `validateNamingConventions` returns an error, and then exactly one,
exactly when (a) the type is MathematicalConcept, NumericalMethod or Algorithm,
the bag has a name, and the name with its quote characters removed is not an
upper-case letter followed only by letters and digits, or (b) the type is Paper,
the bag has an id, and the id with quotes removed is not a capital letter, one
or more lower-case letters, four digits and an optional lower-case letter; for
type Symbol and for every other type it returns no error. -/
theorem naming_error_iff (properties : List (String × String)) (entityType : String)
    (hobj : (properties.map Prod.fst).Nodup) (hvalues : ∀ e ∈ properties, e.2 ≠ "") :
    (validateNamingConventions properties entityType ≠ [] ↔
      ((entityType = "MathematicalConcept" ∨ entityType = "NumericalMethod"
          ∨ entityType = "Algorithm")
        ∧ ∃ name, ("name", name) ∈ properties ∧ ¬ IsPascalCase (removeQuotes name))
      ∨ (entityType = "Paper"
        ∧ ∃ id, ("id", id) ∈ properties ∧ ¬ IsPaperId (removeQuotes id)))
    ∧ (validateNamingConventions properties entityType).length ≤ 1 := by
  refine ⟨?_, validateNamingConventions_length_le properties entityType⟩
  unfold validateNamingConventions
  by_cases h₁ : entityType = "MathematicalConcept"
  · rw [if_pos h₁, pascalCaseErrors_ne_nil_iff properties _ hobj hvalues]
    simp [h₁]
  rw [if_neg h₁]
  by_cases h₂ : entityType = "NumericalMethod"
  · rw [if_pos h₂, pascalCaseErrors_ne_nil_iff properties _ hobj hvalues]
    simp [h₂]
  rw [if_neg h₂]
  by_cases h₃ : entityType = "Algorithm"
  · rw [if_pos h₃, pascalCaseErrors_ne_nil_iff properties _ hobj hvalues]
    simp [h₃]
  rw [if_neg h₃]
  by_cases h₄ : entityType = "Symbol"
  · rw [if_pos h₄]
    simp [h₄]
  rw [if_neg h₄]
  by_cases h₅ : entityType = "Paper"
  · rw [if_pos h₅]
    simp only [h₅, true_and]
    have hno : ¬ (("Paper" : String) = "MathematicalConcept" ∨ ("Paper" : String) = "NumericalMethod"
        ∨ ("Paper" : String) = "Algorithm") := by decide
    simp only [hno, false_and, false_or]
    cases h : truthy (properties.lookup "id") with
    | none =>
      simp only [ne_eq, not_true_eq_false, false_iff]
      rintro ⟨id, hmem, _⟩
      rw [(truthy_lookup_eq_some_iff properties "id" id hobj hvalues).mpr hmem] at h
      cases h
    | some id =>
      have hmem := (truthy_lookup_eq_some_iff properties "id" id hobj hvalues).mp h
      simp only
      by_cases hm : fullMatch paperIdRegex (removeQuotes id) = true
      · have hp := (fullMatch_paperIdRegex _).mp hm
        simp only [hm, Bool.not_true, Bool.false_eq_true, if_false, ne_eq, not_true_eq_false,
          false_iff]
        rintro ⟨id', hmem', hnot⟩
        have h' := (truthy_lookup_eq_some_iff properties "id" id' hobj hvalues).mpr hmem'
        rw [h] at h'
        injection h' with h'
        rw [← h'] at hnot
        exact hnot hp
      · have hp : ¬ IsPaperId (removeQuotes id) :=
          fun hp => hm ((fullMatch_paperIdRegex _).mpr hp)
        simp only [Bool.not_eq_true] at hm
        simp only [hm, Bool.not_false, if_true, ne_eq, List.cons_ne_nil, not_false_eq_true,
          true_iff]
        exact ⟨id, hmem, hp⟩
  · rw [if_neg h₅]
    simp [h₁, h₂, h₃, h₅]

/-- Witness for `naming_error_iff`: an Algorithm whose name `"newtonMethod"`
starts with a lower-case letter. -/
theorem naming_error_iff_witness :
    (validateNamingConventions [("name", "\"newtonMethod\""), ("year", "1687")] "Algorithm"
        ≠ [] ↔
      ((("Algorithm" : String) = "MathematicalConcept"
          ∨ ("Algorithm" : String) = "NumericalMethod"
          ∨ ("Algorithm" : String) = "Algorithm")
        ∧ ∃ name, ("name", name) ∈ [("name", "\"newtonMethod\""), ("year", "1687")]
          ∧ ¬ IsPascalCase (removeQuotes name))
      ∨ (("Algorithm" : String) = "Paper"
        ∧ ∃ id, ("id", id) ∈ [("name", "\"newtonMethod\""), ("year", "1687")]
          ∧ ¬ IsPaperId (removeQuotes id)))
    ∧ (validateNamingConventions [("name", "\"newtonMethod\""), ("year", "1687")]
        "Algorithm").length ≤ 1 :=
  naming_error_iff [("name", "\"newtonMethod\""), ("year", "1687")] "Algorithm"
    (by decide) (by decide)

/-! ## Symbol checks -/

theorem dimensionalityOutside_of_mem (properties : List (String × String)) (d : String)
    (hobj : (properties.map Prod.fst).Nodup) (hmem : ("dimensionality", d) ∈ properties) :
    dimensionalityOutside properties
      = !decide (removeQuotes d ∈ ["Scalar", "Vector", "Matrix", "Tensor"]) := by
  unfold dimensionalityOutside
  rw [Bool.eq_iff_iff, List.any_eq_true]
  constructor
  · rintro ⟨⟨k, v⟩, hmem', hcond⟩
    simp only [Bool.and_eq_true, beq_iff_eq] at hcond
    have hk : k = "dimensionality" := hcond.1
    rw [hk] at hmem'
    have h₁ := lookup_eq_some_of_mem properties _ _ hobj hmem
    have h₂ := lookup_eq_some_of_mem properties _ _ hobj hmem'
    rw [h₁] at h₂
    injection h₂ with h₂
    rw [h₂]
    exact hcond.2
  · intro h
    exact ⟨("dimensionality", d), hmem, by simp only [beq_self_eq_true, Bool.true_and]; exact h⟩

theorem dimensionalityOutside_of_not_mem (properties : List (String × String))
    (h : hasOwn properties "dimensionality" = false) :
    dimensionalityOutside properties = false := by
  unfold dimensionalityOutside
  unfold hasOwn at h
  rw [List.any_eq_false] at h ⊢
  intro e he
  have := h e he
  simp only [Bool.and_eq_true, not_and]
  intro hk
  exact absurd hk this

/-- The three checks of `validateMathSymbols`, with the conditions read on the
bag. -/
theorem validateMathSymbols_eq (properties : List (String × String))
    (hobj : (properties.map Prod.fst).Nodup) (hvalues : ∀ e ∈ properties, e.2 ≠ "") :
    ∃ dimensionError : String,
      validateMathSymbols properties
        = (if renderingWithoutName properties = true then
            ["Symbol has LaTeX representation but no name property"] else [])
          ++ (if nameWithoutContext properties = true then
            ["Symbol has name but no context property"] else [])
          ++ (if dimensionalityOutside properties = true then [dimensionError] else []) := by
  have hl : ∀ k, (truthy (properties.lookup k)).isSome = hasOwn properties k := by
    intro k
    rw [Bool.eq_iff_iff]
    exact truthy_lookup_isSome_iff properties k hobj hvalues
  unfold validateMathSymbols renderingWithoutName nameWithoutContext
  simp only [hl]
  cases h : truthy (properties.lookup "dimensionality") with
  | none =>
    have hno : hasOwn properties "dimensionality" = false := by
      rw [← hl, h]; rfl
    rw [dimensionalityOutside_of_not_mem properties hno]
    exact ⟨"", by simp⟩
  | some d =>
    have hmem := (truthy_lookup_eq_some_iff properties _ d hobj hvalues).mp h
    rw [dimensionalityOutside_of_mem properties d hobj hmem]
    exact ⟨"Invalid dimensionality: " ++ d, rfl⟩

/-- C16: for every Symbol property bag (distinct keys, non-empty values),
`validateMathSymbols` returns an empty error list exactly when none of these
holds: the bag has a latex rendering but no name; it has a name but no context;
it has a dimensionality whose value with quotes removed is not one of Scalar,
Vector, Matrix, Tensor. Each condition that holds contributes exactly one
error. -/
theorem symbol_errors_one_per_condition (properties : List (String × String))
    (hobj : (properties.map Prod.fst).Nodup) (hvalues : ∀ e ∈ properties, e.2 ≠ "") :
    (validateMathSymbols properties = [] ↔
      renderingWithoutName properties = false ∧ nameWithoutContext properties = false
        ∧ dimensionalityOutside properties = false)
    ∧ (validateMathSymbols properties).length
      = (if renderingWithoutName properties = true then 1 else 0)
        + (if nameWithoutContext properties = true then 1 else 0)
        + (if dimensionalityOutside properties = true then 1 else 0) := by
  obtain ⟨e, he⟩ := validateMathSymbols_eq properties hobj hvalues
  rw [he]
  cases renderingWithoutName properties <;> cases nameWithoutContext properties
    <;> cases dimensionalityOutside properties <;> simp

/-- Witness for `symbol_errors_one_per_condition`: a Symbol with a rendering and
the dimensionality `"Spinor"`, without a name. -/
theorem symbol_errors_one_per_condition_witness :
    (validateMathSymbols [("latex", "\"\\psi\""), ("dimensionality", "\"Spinor\"")] = [] ↔
      renderingWithoutName [("latex", "\"\\psi\""), ("dimensionality", "\"Spinor\"")] = false
        ∧ nameWithoutContext [("latex", "\"\\psi\""), ("dimensionality", "\"Spinor\"")] = false
        ∧ dimensionalityOutside [("latex", "\"\\psi\""), ("dimensionality", "\"Spinor\"")]
          = false)
    ∧ (validateMathSymbols [("latex", "\"\\psi\""), ("dimensionality", "\"Spinor\"")]).length
      = (if renderingWithoutName [("latex", "\"\\psi\""), ("dimensionality", "\"Spinor\"")]
          = true then 1 else 0)
        + (if nameWithoutContext [("latex", "\"\\psi\""), ("dimensionality", "\"Spinor\"")]
          = true then 1 else 0)
        + (if dimensionalityOutside [("latex", "\"\\psi\""), ("dimensionality", "\"Spinor\"")]
          = true then 1 else 0) :=
  symbol_errors_one_per_condition [("latex", "\"\\psi\""), ("dimensionality", "\"Spinor\"")]
    (by decide) (by decide)


/-! ## What a match holds -/

theorem starLoop_sound {ρ : Type} (r : Regex)
    (m : List Char → Captures → (List Char → Captures → Option ρ) → Option ρ)
    (hm : ∀ (input : List Char) (caps : Captures) (k : List Char → Captures → Option ρ)
        (x : ρ), m input caps k = some x →
      ∃ a b caps', input = a ++ b ∧ Regex.Matches r a ∧ k b caps' = some x)
    (k : List Char → Captures → Option ρ) (x : ρ) :
    ∀ (n : Nat) (input : List Char) (caps : Captures),
      starLoop m n input caps k = some x →
      ∃ a b caps', input = a ++ b ∧ Regex.Matches (Regex.star r) a ∧ k b caps' = some x := by
  intro n
  induction n with
  | zero =>
    intro input caps h
    exact ⟨[], input, caps, rfl, Regex.Matches.starNil, h⟩
  | succ n ih =>
    intro input caps h
    simp only [starLoop] at h
    cases hfirst : m input caps (fun rest caps' =>
        if rest.length < input.length then starLoop m n rest caps' k else none) with
    | none =>
      rw [hfirst] at h
      exact ⟨[], input, caps, rfl, Regex.Matches.starNil, h⟩
    | some y =>
      rw [hfirst] at h
      have hyx : y = x := Option.some.inj h
      rw [hyx] at hfirst
      obtain ⟨a, b, caps', hab, ha, hk⟩ := hm _ _ _ _ hfirst
      by_cases hlt : b.length < input.length
      · rw [if_pos hlt] at hk
        obtain ⟨a', b', caps'', hab', ha', hk'⟩ := ih b caps' hk
        refine ⟨a ++ a', b', caps'', by rw [hab, hab', List.append_assoc], ?_, hk'⟩
        refine Regex.Matches.starCons ha ?_ ha'
        intro hnil
        rw [hab, hnil] at hlt
        simp at hlt
      · rw [if_neg hlt] at hk
        cases hk

theorem lazyLoop_sound {ρ : Type} (r : Regex)
    (m : List Char → Captures → (List Char → Captures → Option ρ) → Option ρ)
    (hm : ∀ (input : List Char) (caps : Captures) (k : List Char → Captures → Option ρ)
        (x : ρ), m input caps k = some x →
      ∃ a b caps', input = a ++ b ∧ Regex.Matches r a ∧ k b caps' = some x)
    (k : List Char → Captures → Option ρ) (x : ρ) :
    ∀ (n : Nat) (input : List Char) (caps : Captures),
      lazyLoop m n input caps k = some x →
      ∃ a b caps', input = a ++ b ∧ Regex.Matches (Regex.lazyStar r) a
        ∧ k b caps' = some x := by
  intro n
  induction n with
  | zero =>
    intro input caps h
    exact ⟨[], input, caps, rfl, Regex.Matches.lazyNil, h⟩
  | succ n ih =>
    intro input caps h
    simp only [lazyLoop] at h
    cases hfirst : k input caps with
    | some y =>
      rw [hfirst] at h
      exact ⟨[], input, caps, rfl, Regex.Matches.lazyNil, by rw [hfirst]; exact h⟩
    | none =>
      rw [hfirst] at h
      obtain ⟨a, b, caps', hab, ha, hk⟩ := hm _ _ _ _ h
      by_cases hlt : b.length < input.length
      · rw [if_pos hlt] at hk
        obtain ⟨a', b', caps'', hab', ha', hk'⟩ := ih b caps' hk
        refine ⟨a ++ a', b', caps'', by rw [hab, hab', List.append_assoc], ?_, hk'⟩
        refine Regex.Matches.lazyCons ha ?_ ha'
        intro hnil
        rw [hab, hnil] at hlt
        simp at hlt
      · rw [if_neg hlt] at hk
        cases hk

/-- What the matcher hands to its continuation is what is left of the input
after a text of the language. -/
theorem matchRe_sound {ρ : Type} (r : Regex) :
    ∀ (input : List Char) (caps : Captures) (k : List Char → Captures → Option ρ) (x : ρ),
      matchRe r input caps k = some x →
      ∃ a b caps', input = a ++ b ∧ Regex.Matches r a ∧ k b caps' = some x := by
  induction r with
  | empty =>
    intro input caps k x h
    simp only [matchRe] at h
    exact ⟨[], input, caps, rfl, Regex.Matches.empty, h⟩
  | set p =>
    intro input caps k x h
    cases input with
    | nil => simp [matchRe] at h
    | cons c rest =>
      simp only [matchRe] at h
      by_cases hp : p c = true
      · rw [if_pos hp] at h
        exact ⟨[c], rest, caps, rfl, Regex.Matches.set hp, h⟩
      · rw [if_neg hp] at h
        cases h
  | seq r s ihr ihs =>
    intro input caps k x h
    simp only [matchRe] at h
    obtain ⟨a, b, caps', hab, ha, hk⟩ := ihr _ _ _ _ h
    obtain ⟨a', b', caps'', hab', ha', hk'⟩ := ihs _ _ _ _ hk
    exact ⟨a ++ a', b', caps'', by rw [hab, hab', List.append_assoc],
      Regex.Matches.seq ha ha', hk'⟩
  | alt r s ihr ihs =>
    intro input caps k x h
    simp only [matchRe] at h
    cases hfirst : matchRe r input caps k with
    | some y =>
      rw [hfirst] at h
      obtain ⟨a, b, caps', hab, ha, hk⟩ := ihr _ _ _ _ hfirst
      exact ⟨a, b, caps', hab, Regex.Matches.altLeft ha, by rw [hk]; exact h⟩
    | none =>
      rw [hfirst] at h
      obtain ⟨a, b, caps', hab, ha, hk⟩ := ihs _ _ _ _ h
      exact ⟨a, b, caps', hab, Regex.Matches.altRight ha, hk⟩
  | star r ih =>
    intro input caps k x h
    simp only [matchRe] at h
    exact starLoop_sound r (matchRe r) ih k x _ input caps h
  | lazyStar r ih =>
    intro input caps k x h
    simp only [matchRe] at h
    exact lazyLoop_sound r (matchRe r) ih k x _ input caps h
  | group i r ih =>
    intro input caps k x h
    simp only [matchRe] at h
    obtain ⟨a, b, caps', hab, ha, hk⟩ := ih _ _ _ _ h
    exact ⟨a, b, _, hab, Regex.Matches.group ha, hk⟩

theorem matchAt_sound (r : Regex) (input rest : List Char) (caps : Captures)
    (h : matchAt r input = some (rest, caps)) :
    ∃ a, input = a ++ rest ∧ Regex.Matches r a := by
  unfold matchAt at h
  obtain ⟨a, b, caps', hab, ha, hk⟩ := matchRe_sound r _ _ _ _ h
  injection hk with hk
  injection hk with hb _
  rw [hb] at hab
  exact ⟨a, hab, ha⟩

theorem searchFrom_sound (r : Regex) :
    ∀ (input skipped : List Char) (m : RegexMatch), searchFrom r skipped input = some m →
      Regex.Matches r m.text ∧ m.after.length + m.text.length ≤ input.length := by
  intro input
  induction input with
  | nil =>
    intro skipped m h
    simp only [searchFrom] at h
    cases hm : matchAt r [] with
    | none => rw [hm] at h; cases h
    | some res =>
      obtain ⟨rest, caps⟩ := res
      rw [hm] at h
      injection h with h
      obtain ⟨a, hab, ha⟩ := matchAt_sound r _ _ _ hm
      have hnil := List.append_eq_nil.mp hab.symm
      rw [← h]
      simp only
      rw [hnil.1] at ha
      rw [hnil.2]
      exact ⟨ha, by simp⟩
  | cons c cs ih =>
    intro skipped m h
    simp only [searchFrom] at h
    cases hm : matchAt r (c :: cs) with
    | none =>
      rw [hm] at h
      have := ih _ _ h
      exact ⟨this.1, by simp only [List.length_cons]; omega⟩
    | some res =>
      obtain ⟨rest, caps⟩ := res
      rw [hm] at h
      injection h with h
      obtain ⟨a, hab, ha⟩ := matchAt_sound r _ _ _ hm
      rw [← h]
      simp only
      have htake : (c :: cs).take ((c :: cs).length - rest.length) = a := by
        rw [hab]
        simp
      rw [htake]
      refine ⟨ha, ?_⟩
      rw [hab]
      simp only [List.length_append]
      omega

theorem matchAllFrom_sound (r : Regex) :
    ∀ (n : Nat) (input : List Char), ∀ m ∈ matchAllFrom r n input, Regex.Matches r m.text := by
  intro n
  induction n with
  | zero => intro input m hm; simp [matchAllFrom] at hm
  | succ n ih =>
    intro input m hm
    simp only [matchAllFrom] at hm
    cases hs : searchFrom r [] input with
    | none => rw [hs] at hm; simp at hm
    | some first =>
      rw [hs] at hm
      have hfirst := (searchFrom_sound r input [] first hs).1
      simp only at hm
      split at hm
      · rw [List.mem_singleton] at hm
        rw [hm]; exact hfirst
      · rcases List.mem_cons.mp hm with h | h
        · rw [h]; exact hfirst
        · exact ih _ m h
      · rcases List.mem_cons.mp hm with h | h
        · rw [h]; exact hfirst
        · exact ih _ m h

/-- Every text `input.match(r)` returns with the `g` flag is a text of the
language of `r`. -/
theorem matchTexts_sound (r : Regex) (input : String) :
    ∀ t ∈ matchTexts r input, Regex.Matches r t.data := by
  intro t ht
  unfold matchTexts at ht
  obtain ⟨m, hm, hmt⟩ := List.mem_map.mp ht
  rw [← hmt]
  exact matchAllFrom_sound r _ _ m hm


theorem uint32_le_toNat (a b : UInt32) (h : a ≤ b) : a.toNat ≤ b.toNat := by
  have := UInt32.le_def.mp h
  exact BitVec.le_def.mp this

theorem isWordChar_not_whitespace (c : Char) (h : isWordChar c = true) :
    isJsWhitespace c = false ∧ c ≠ ':' := by
  have hc : c ≠ ':' := by
    intro hc
    rw [hc] at h
    revert h
    decide
  refine ⟨?_, hc⟩
  simp only [isWordChar, Char.isAlphanum, Char.isAlpha, Char.isUpper, Char.isLower,
    Char.isDigit, Bool.or_eq_true, Bool.and_eq_true, decide_eq_true_eq, beq_iff_eq] at h
  simp only [isJsWhitespace, Bool.or_eq_false_iff, decide_eq_false_iff_not,
    Bool.and_eq_false_imp, decide_eq_true_eq, List.mem_cons, List.mem_singleton,
    List.not_mem_nil, or_false, not_or, not_le]
  have hn : c.toNat = c.val.toNat := rfl
  rcases h with ((⟨h₁, h₂⟩ | ⟨h₁, h₂⟩) | ⟨h₁, h₂⟩) | h
  · have a := uint32_le_toNat _ _ h₁
    have b := uint32_le_toNat _ _ h₂
    have e₁ : (65 : UInt32).toNat = 65 := rfl
    have e₂ : (90 : UInt32).toNat = 90 := rfl
    rw [e₁] at a
    rw [e₂] at b
    omega
  · have a := uint32_le_toNat _ _ h₁
    have b := uint32_le_toNat _ _ h₂
    have e₁ : (97 : UInt32).toNat = 97 := rfl
    have e₂ : (122 : UInt32).toNat = 122 := rfl
    rw [e₁] at a
    rw [e₂] at b
    omega
  · have a := uint32_le_toNat _ _ h₁
    have b := uint32_le_toNat _ _ h₂
    have e₁ : (48 : UInt32).toNat = 48 := rfl
    have e₂ : (57 : UInt32).toNat = 57 := rfl
    rw [e₁] at a
    rw [e₂] at b
    omega
  · rw [h]
    decide

theorem matches_group_iff (i : Nat) (r : Regex) (x : List Char) :
    Regex.Matches (Regex.group i r) x ↔ Regex.Matches r x := by
  constructor
  · intro h
    cases h with
    | group h => exact h
  · intro h
    exact Regex.Matches.group h

/-- The first character of a property value, as `propertyValueRegex` has it:
a quote, an opening bracket, an opening brace or a word character. -/
theorem propertyValue_starts (v : List Char) (h : Regex.Matches propertyValueRegex v) :
    ∃ c vs, v = c :: vs ∧ isJsWhitespace c = false ∧ c ≠ ':' := by
  have hchars₁ : Regex.chars "[" = Regex.seq (Regex.set (fun x => x == '[')) Regex.empty := rfl
  have hchars₂ : Regex.chars "\x7b"
      = Regex.seq (Regex.set (fun x => x == '\x7b')) Regex.empty := rfl
  unfold propertyValueRegex at h
  simp only [Regex.cat, List.foldr, Regex.plus, hchars₁, hchars₂, matches_seq_iff,
    matches_set_iff, matches_alt_iff, matches_empty_iff] at h
  rcases h with h | h | h | h | h
  · obtain ⟨_, b, hv, ⟨c, rfl, hc⟩, _⟩ := h
    refine ⟨c, b, by rw [hv]; rfl, ?_⟩
    have : c = Char.ofNat 34 := by simpa using hc
    rw [this]
    decide
  · obtain ⟨_, b, hv, ⟨c, rfl, hc⟩, _⟩ := h
    refine ⟨c, b, by rw [hv]; rfl, ?_⟩
    have : c = Char.ofNat 39 := by simpa using hc
    rw [this]
    decide
  · obtain ⟨_, b, hv, ⟨_, _, rfl, ⟨c, rfl, hc⟩, rfl⟩, _⟩ := h
    refine ⟨c, b, by rw [hv]; rfl, ?_⟩
    have : c = '[' := by simpa using hc
    rw [this]
    decide
  · obtain ⟨_, b, hv, ⟨_, _, rfl, ⟨c, rfl, hc⟩, rfl⟩, _⟩ := h
    refine ⟨c, b, by rw [hv]; rfl, ?_⟩
    have : c = '\x7b' := by simpa using hc
    rw [this]
    decide
  · obtain ⟨_, b, hv, ⟨c, rfl, hc⟩, _⟩ := h
    exact ⟨c, b, by rw [hv]; rfl, isWordChar_not_whitespace c hc⟩

/-- A text `propertyRegex` matches: word characters, a colon, a space and a
value that starts with a character that is neither white space nor a colon. -/
theorem propertyRegex_text (t : List Char) (h : Regex.Matches propertyRegex t) :
    ∃ key c vs, t = key ++ ':' :: ' ' :: c :: vs ∧ (∀ x ∈ key, isWordChar x = true)
      ∧ isJsWhitespace c = false ∧ c ≠ ':' := by
  have hchars : Regex.chars ": "
      = Regex.seq (Regex.set (fun x => x == ':'))
          (Regex.seq (Regex.set (fun x => x == ' ')) Regex.empty) := rfl
  unfold propertyRegex at h
  simp only [Regex.cat, List.foldr, Regex.plus, hchars, matches_seq_iff, matches_group_iff,
    matches_set_iff, matches_empty_iff, matches_star_set_iff] at h
  obtain ⟨key, _, ht, ⟨_, ks, rfl, ⟨k, rfl, hk⟩, hks⟩, _, _, rfl,
    ⟨_, _, rfl, ⟨c₁, rfl, hc₁⟩, _, _, rfl, ⟨c₂, rfl, hc₂⟩, rfl⟩, v, _, rfl, hv, rfl⟩ := h
  obtain ⟨c, vs, hvc, hws, hcolon⟩ := propertyValue_starts v hv
  have e₁ : c₁ = ':' := by simpa using hc₁
  have e₂ : c₂ = ' ' := by simpa using hc₂
  refine ⟨[k] ++ ks, c, vs, ?_, ?_, hws, hcolon⟩
  · rw [ht, hvc, e₁, e₂]
    simp
  · intro x hx
    rcases List.mem_append.mp hx with h₁ | h₂
    · rw [List.mem_singleton] at h₁
      rw [h₁]; exact hk
    · exact hks x h₂

theorem splitChars_eq_cons (sep : Char) (l : List Char) :
    ∃ w ws, splitChars sep l = w :: ws := by
  cases h : splitChars sep l with
  | nil => exact absurd h (splitChars_ne_nil sep l)
  | cons w ws => exact ⟨w, ws, rfl⟩

theorem splitChars_cons_ne (sep c : Char) (cs : List Char) (hc : c ≠ sep) :
    ∃ w ws, splitChars sep (c :: cs) = (c :: w) :: ws := by
  obtain ⟨w, ws, h⟩ := splitChars_eq_cons sep cs
  rw [splitChars, if_neg hc, h]
  exact ⟨w, ws, rfl⟩

theorem splitChars_append_sep (sep : Char) (key rest : List Char) (hkey : sep ∉ key) :
    splitChars sep (key ++ sep :: rest) = key :: splitChars sep rest := by
  induction key with
  | nil => simp [splitChars]
  | cons k ks ih =>
    have hk : k ≠ sep := fun h => hkey (by rw [h]; exact List.mem_cons_self _ _)
    have hks : sep ∉ ks := fun h => hkey (List.mem_cons_of_mem _ h)
    rw [List.cons_append, splitChars, if_neg hk, ih hks]

theorem mem_dropWhile_of_not {α : Type} (p : α → Bool) (x : α) (l : List α)
    (hx : x ∈ l) (hp : p x = false) : x ∈ l.dropWhile p := by
  induction l with
  | nil => simp at hx
  | cons y ys ih =>
    rw [List.dropWhile_cons]
    by_cases hy : p y = true
    · rw [if_pos hy]
      rcases List.mem_cons.mp hx with h | h
      · rw [h, hy] at hp
        cases hp
      · exact ih h
    · rw [if_neg hy]
      exact hx

/-- A text with a character that is not white space keeps it when trimmed. -/
theorem trim_ne_empty (text : String) (c : Char) (hc : c ∈ text.data)
    (hws : isJsWhitespace c = false) : trim text ≠ "" := by
  unfold trim
  intro h
  have h₁ := mem_dropWhile_of_not isJsWhitespace c _ hc hws
  have h₂ := mem_dropWhile_of_not isJsWhitespace c _ (List.mem_reverse.mpr h₁) hws
  have h₃ := List.mem_reverse.mpr h₂
  have hd := congrArg String.data h
  simp only at hd
  rw [hd] at h₃
  simp at h₃

/-- The two pieces `addProperty` reads from a match of `propertyRegex`: the
second one is not empty. -/
theorem addProperty_pieces (t : String) (h : Regex.Matches propertyRegex t.data) :
    ∃ key value others, (splitOnChar t ':').map trim = key :: value :: others
      ∧ value ≠ "" := by
  obtain ⟨key, c, vs, ht, hkey, hws, hcolon⟩ := propertyRegex_text t.data h
  have hnot : ':' ∉ key := by
    intro hmem
    have := hkey _ hmem
    revert this
    decide
  have hspace : (' ' : Char) ≠ ':' := by decide
  obtain ⟨w, ws, hw⟩ := splitChars_cons_ne ':' c vs hcolon
  have hsplit : splitChars ':' t.data = key :: (' ' :: c :: w) :: ws := by
    rw [ht, splitChars_append_sep ':' key _ hnot, splitChars, if_neg hspace, hw]
  unfold splitOnChar
  rw [hsplit]
  simp only [List.map_cons]
  refine ⟨_, _, _, rfl, ?_⟩
  exact trim_ne_empty _ c (by simp) hws

/-! ## The bags `extractEntityProperties` builds -/

theorem setProperty_keys_nodup (properties : List (String × String)) (key value : String)
    (hobj : (properties.map Prod.fst).Nodup) :
    ((setProperty properties key value).map Prod.fst).Nodup := by
  unfold setProperty
  split
  · exact hobj
  split
  · have : (properties.map (fun e => if e.1 = key then (e.1, value) else e)).map Prod.fst
        = properties.map Prod.fst := by
      rw [List.map_map]
      apply List.map_congr_left
      intro e _
      simp only [Function.comp]
      split <;> rfl
    rw [this]
    exact hobj
  · rename_i _ hno
    rw [List.map_append, List.map_singleton]
    refine List.Nodup.append hobj (List.nodup_singleton _) ?_
    intro k hk hk'
    rw [List.mem_singleton] at hk'
    apply hno
    unfold hasOwn
    rw [List.any_eq_true]
    obtain ⟨e, he, hek⟩ := List.mem_map.mp hk
    exact ⟨e, he, by rw [hek, hk']; simp⟩

theorem setProperty_values_ne_empty (properties : List (String × String)) (key value : String)
    (hvalue : value ≠ "") (hvalues : ∀ e ∈ properties, e.2 ≠ "") :
    ∀ e ∈ setProperty properties key value, e.2 ≠ "" := by
  unfold setProperty
  split
  · exact hvalues
  split
  · intro e he
    obtain ⟨e', he', hee⟩ := List.mem_map.mp he
    split at hee
    · rw [← hee]; exact hvalue
    · rw [← hee]; exact hvalues _ he'
  · intro e he
    rcases List.mem_append.mp he with h | h
    · exact hvalues _ h
    · rw [List.mem_singleton] at h
      rw [h]; exact hvalue

/-- A bag as an object holds it: distinct keys, and no empty value. -/
theorem addProperty_bag (properties : List (String × String)) (t : String)
    (ht : Regex.Matches propertyRegex t.data)
    (hbag : (properties.map Prod.fst).Nodup ∧ ∀ e ∈ properties, e.2 ≠ "") :
    ((addProperty properties t).map Prod.fst).Nodup
      ∧ ∀ e ∈ addProperty properties t, e.2 ≠ "" := by
  obtain ⟨key, value, others, hpieces, hvalue⟩ := addProperty_pieces t ht
  unfold addProperty
  rw [hpieces]
  exact ⟨setProperty_keys_nodup _ _ _ hbag.1,
    setProperty_values_ne_empty _ _ _ hvalue hbag.2⟩

theorem foldl_addProperty_bag (texts : List String)
    (htexts : ∀ t ∈ texts, Regex.Matches propertyRegex t.data) :
    ∀ (properties : List (String × String)),
      ((properties.map Prod.fst).Nodup ∧ ∀ e ∈ properties, e.2 ≠ "") →
      (((texts.foldl addProperty properties).map Prod.fst).Nodup
        ∧ ∀ e ∈ texts.foldl addProperty properties, e.2 ≠ "") := by
  induction texts with
  | nil => intro properties h; exact h
  | cons t ts ih =>
    intro properties h
    rw [List.foldl_cons]
    exact ih (fun t' ht' => htexts t' (List.mem_cons_of_mem _ ht')) _
      (addProperty_bag properties t (htexts t (List.mem_cons_self _ _)) h)

/-- The bag `extractEntityProperties` returns has distinct keys and no empty
value: the bags `validateNamingConventions` and `validateMathSymbols` are
called with. -/
theorem extractEntityProperties_bag (cypherContent entityType : String) :
    ((extractEntityProperties cypherContent entityType).map Prod.fst).Nodup
      ∧ ∀ e ∈ extractEntityProperties cypherContent entityType, e.2 ≠ "" := by
  unfold extractEntityProperties
  generalize matchAll (entityCreationRegex entityType) cypherContent = ms
  have key : ∀ (ms : List RegexMatch) (properties : List (String × String)),
      ((properties.map Prod.fst).Nodup ∧ ∀ e ∈ properties, e.2 ≠ "") →
      (((ms.foldl (fun properties m =>
          (matchTexts propertyRegex ((m.group 1).getD "")).foldl addProperty properties)
          properties).map Prod.fst).Nodup
        ∧ ∀ e ∈ ms.foldl (fun properties m =>
          (matchTexts propertyRegex ((m.group 1).getD "")).foldl addProperty properties)
          properties, e.2 ≠ "") := by
    intro ms
    induction ms with
    | nil => intro properties h; exact h
    | cons m ms ih =>
      intro properties h
      rw [List.foldl_cons]
      exact ih _ (foldl_addProperty_bag _ (matchTexts_sound propertyRegex _) properties h)
  exact key ms [] ⟨by simp, by simp⟩


/-! ## Relationship statements without a property list -/

/-- C21 fails on a statement whose CREATE clause has no property list:
`extractRelationships` returns no record for
`CREATE (a)-[:IMPLEMENTS]->(b)` after its two MATCH clauses, because
`relPattern` asks for the braces and makes only their content optional; with
empty braces the record is returned. -/
theorem relationship_without_braces_is_not_extracted :
    extractRelationships
        ("MATCH (a:Algorithm \x7bname: \"Solver\"\x7d)\n"
          ++ "MATCH (b:NumericalMethod \x7bname: \"Newton\"\x7d)\n"
          ++ "CREATE (a)-[:IMPLEMENTS]->(b)")
      = []
    ∧ extractRelationships
        ("MATCH (a:Algorithm \x7bname: \"Solver\"\x7d)\n"
          ++ "MATCH (b:NumericalMethod \x7bname: \"Newton\"\x7d)\n"
          ++ "CREATE (a)-[:IMPLEMENTS \x7b\x7d]->(b)")
      = [⟨"a", "Algorithm", "b", "NumericalMethod", "a", "IMPLEMENTS", "", "b"⟩] := by
  set_option maxRecDepth 100000 in decide

/-! ## Unresolved endpoints -/

/-- C24 fails on a corpus whose only entity is the Algorithm `Solver` and whose
only relationship goes from `Solver` to `Ghost`, a name no entity has: no pass
fails, and none reports the endpoint. `detectRelationshipConflicts` and
`getEntityConflicts` return no finding, and `validateSingleEntity` on a file
with the entity and the relationship returns `valid: true` without errors. -/
theorem unresolved_endpoint_is_not_reported :
    detectRelationshipConflicts (readRelationships [("solver-ghost.cypher",
        "MATCH (a:Algorithm \x7bname: \"Solver\"\x7d)\n"
          ++ "MATCH (b:NumericalMethod \x7bname: \"Ghost\"\x7d)\n"
          ++ "CREATE (a)-[:IMPLEMENTS \x7b\x7d]->(b)")])
      = some []
    ∧ getEntityConflicts (readEntityRecords [("solver.cypher",
        "CREATE (a:Algorithm \x7bname: \"Solver\"\x7d)")])
      = []
    ∧ validateSingleEntity
        ("CREATE (a:Algorithm \x7bname: \"Solver\"\x7d)\n"
          ++ "MATCH (a:Algorithm \x7bname: \"Solver\"\x7d)\n"
          ++ "MATCH (b:NumericalMethod \x7bname: \"Ghost\"\x7d)\n"
          ++ "CREATE (a)-[:IMPLEMENTS \x7b\x7d]->(b)") "Algorithm" SchemaValue.absent
      = ⟨true, some [("name", "\"Solver\"")],
          some [⟨"a", "Algorithm", "b", "NumericalMethod", "a", "IMPLEMENTS", "", "b"⟩],
          some [], none⟩ := by
  set_option maxRecDepth 100000 in decide

/-! ## The template tests -/

/-- C26 fails: the passes test for different tokens. A Symbol file whose only
token is `[SYMBOL_NAME]` is skipped by `getAllSymbols` and validated, with an
error, by `validateSingleEntity`; an Algorithm file whose only token is
`[ENTITY_TYPE]` is a template for `validateCypherFile` and is read as an entity
by the file loop of `getEntityConflicts` and validated by
`validateSingleEntity`. -/
theorem template_tests_disagree :
    getAllSymbols [("x.cypher", "CREATE (s:Symbol \x7bname: \"[SYMBOL_NAME]\", latex: \"x\"\x7d)")]
      = []
    ∧ validateSingleEntity "CREATE (s:Symbol \x7bname: \"[SYMBOL_NAME]\", latex: \"x\"\x7d)"
        "Symbol" SchemaValue.absent
      = ⟨false, some [("name", "\"[SYMBOL_NAME]\""), ("latex", "\"x\"")], some [],
          some ["Symbol has name but no context property"], none⟩
    ∧ validateCypherFile "CREATE (a:Algorithm \x7bname: \"Solver\", basis: \"[ENTITY_TYPE]\"\x7d)"
      = ⟨true, none, some ["This file is a template"]⟩
    ∧ readEntityRecords [("solver.cypher",
        "CREATE (a:Algorithm \x7bname: \"Solver\", basis: \"[ENTITY_TYPE]\"\x7d)")]
      = [⟨"Algorithm", "Solver", "solver.cypher"⟩]
    ∧ validateSingleEntity
        "CREATE (a:Algorithm \x7bname: \"Solver\", basis: \"[ENTITY_TYPE]\"\x7d)" "Algorithm"
        SchemaValue.absent
      = ⟨true, some [("name", "\"Solver\""), ("basis", "\"[ENTITY_TYPE]\"")], some [],
          some [], none⟩ := by
  set_option maxRecDepth 100000 in decide

/-! ## Endpoint names with an underscore -/

/-- C28 fails when a name holds an underscore: the relationships `a_b`
IMPLEMENTS `c` and `a` BASED_ON `b_c` have the same key `a_b_c`, so one finding
lists both as evidence, although their source names and target names differ,
and its `endpoints` field has three elements. -/
theorem underscore_names_share_a_finding :
    detectRelationshipConflicts (readRelationships [("r.cypher",
        "MATCH (a:Algorithm \x7bname: \"a_b\"\x7d)\n"
          ++ "MATCH (b:NumericalMethod \x7bname: \"c\"\x7d)\n"
          ++ "CREATE (a)-[:IMPLEMENTS]->(b)\n"
          ++ "MATCH (a:Algorithm \x7bname: \"a\"\x7d)\n"
          ++ "MATCH (b:NumericalMethod \x7bname: \"b_c\"\x7d)\n"
          ++ "CREATE (a)-[:BASED_ON]->(b)")])
      = some [Conflict.ConflictingRelationships ("IMPLEMENTS", "BASED_ON") ["a", "b", "c"]
          [⟨"Algorithm", "a_b", "NumericalMethod", "c", "IMPLEMENTS", "r.cypher"⟩,
            ⟨"Algorithm", "a", "NumericalMethod", "b_c", "BASED_ON", "r.cypher"⟩]] := by
  set_option maxRecDepth 100000 in decide

/-! ## The tables of the schema parsers -/

/-- C23 fails for a type named `__proto__`, which is declared and is no key of
the table (the assignment replaces the prototype of the table), and for two
declarations on one line, of which the greedy `.*` keeps the second only. A
text without a declaration gives the empty table, for both parsers. -/
theorem declared_types_are_not_all_keys :
    parseEntitySchema "CREATE CONSTRAINT c FOR (n:__proto__) REQUIRE n.id IS UNIQUE" = []
    ∧ parseEntitySchema
        ("CREATE CONSTRAINT a FOR (n:Paper) REQUIRE n.id IS UNIQUE; "
          ++ "CREATE CONSTRAINT b FOR (n:Author) REQUIRE n.name IS UNIQUE")
      = [("Author", ⟨"name", [], []⟩)]
    ∧ parseEntitySchema
        ("CREATE CONSTRAINT a FOR (n:Paper) REQUIRE n.id IS UNIQUE;\n"
          ++ "CREATE CONSTRAINT b FOR (n:Author) REQUIRE n.name IS UNIQUE")
      = [("Paper", ⟨"id", [], []⟩), ("Author", ⟨"name", [], []⟩)]
    ∧ parseEntitySchema "// Properties for Paper:\n// Required: id\n// Optional: year" = []
    ∧ parseRelationshipSchema "MATCH (n) RETURN n" = [] := by
  set_option maxRecDepth 100000 in decide

/-- C22 as stated fails: a block that writes `title` in both lists gives an
entry whose required and optional lists both hold `title`. -/
theorem schema_invariant_fails_for_repeated_name :
    ¬ ∀ e ∈ parseEntitySchema
        ("CREATE CONSTRAINT paper_id FOR (n:Paper) REQUIRE n.id IS UNIQUE\n"
          ++ "// Properties for Paper:\n// Required: id, title\n// Optional: title, year"),
      SchemaInvariant e.2 := by
  have hparse : parseEntitySchema
        ("CREATE CONSTRAINT paper_id FOR (n:Paper) REQUIRE n.id IS UNIQUE\n"
          ++ "// Properties for Paper:\n// Required: id, title\n// Optional: title, year")
      = [("Paper", ⟨"id", ["id", "title"], ["title", "year"]⟩)] := by
    set_option maxRecDepth 100000 in decide
  rw [hparse]
  intro h
  have := h _ (List.mem_singleton.mpr rfl) "title" (by decide)
  exact this (by decide)


theorem mem_setEntry {β : Type} (table : List (String × β)) (key : String) (value : β)
    (e : String × β) (h : e ∈ setEntry table key value) :
    e ∈ table ∨ (e.1 = key ∧ e.2 = value) := by
  unfold setEntry at h
  split at h
  · exact Or.inl h
  split at h
  · obtain ⟨e', he', hee⟩ := List.mem_map.mp h
    split at hee
    · rename_i hk
      right
      rw [← hee]
      exact ⟨hk, rfl⟩
    · left
      rw [← hee]; exact he'
  · rcases List.mem_append.mp h with h | h
    · exact Or.inl h
    · rw [List.mem_singleton] at h
      right
      rw [h]
      exact ⟨rfl, rfl⟩

theorem hasOwn_iff_mem_keys {β : Type} (table : List (String × β)) (key : String) :
    hasOwn table key = true ↔ key ∈ table.map Prod.fst := by
  unfold hasOwn
  rw [List.any_eq_true, List.mem_map]
  constructor
  · rintro ⟨e, he, hk⟩
    exact ⟨e, he, by simpa using hk⟩
  · rintro ⟨e, he, hk⟩
    exact ⟨e, he, by simpa using hk⟩

theorem keys_setEntry {β : Type} (table : List (String × β)) (key : String) (value : β) :
    (setEntry table key value).map Prod.fst
      = if key = "__proto__" then table.map Prod.fst
        else if key ∈ table.map Prod.fst then table.map Prod.fst
        else table.map Prod.fst ++ [key] := by
  unfold setEntry
  by_cases hp : key = "__proto__"
  · rw [if_pos hp, if_pos hp]
  rw [if_neg hp, if_neg hp]
  by_cases ho : hasOwn table key = true
  · rw [if_pos ho, if_pos ((hasOwn_iff_mem_keys table key).mp ho), List.map_map]
    apply List.map_congr_left
    intro e _
    simp only [Function.comp]
    split <;> rfl
  · rw [if_neg ho, if_neg (fun h => ho ((hasOwn_iff_mem_keys table key).mpr h)),
      List.map_append, List.map_singleton]

theorem mem_attachProperties (entityTypes : List (String × EntitySchema)) (m : RegexMatch)
    (e : String × EntitySchema) (h : e ∈ attachProperties entityTypes m) :
    e ∈ entityTypes
      ∨ (e.1 = declaredType m ∧ e.2.required = blockRequired m
          ∧ e.2.optional = blockOptional m) := by
  unfold attachProperties at h
  simp only at h
  split at h
  · obtain ⟨e', he', hee⟩ := List.mem_map.mp h
    split at hee
    · rename_i hk
      right
      rw [← hee]
      exact ⟨hk, rfl, rfl⟩
    · left
      rw [← hee]; exact he'
  · exact Or.inl h

theorem keys_attachProperties (entityTypes : List (String × EntitySchema)) (m : RegexMatch) :
    (attachProperties entityTypes m).map Prod.fst = entityTypes.map Prod.fst := by
  unfold attachProperties
  simp only
  split
  · rw [List.map_map]
    apply List.map_congr_left
    intro e _
    simp only [Function.comp]
    split <;> rfl
  · rfl

theorem keys_foldl_attachProperties (ms : List RegexMatch) :
    ∀ entityTypes : List (String × EntitySchema),
      (ms.foldl attachProperties entityTypes).map Prod.fst = entityTypes.map Prod.fst := by
  induction ms with
  | nil => intro entityTypes; rfl
  | cons m ms ih =>
    intro entityTypes
    rw [List.foldl_cons, ih, keys_attachProperties]

theorem keys_foldl_registerEntityType (ms : List RegexMatch) :
    (ms.foldl registerEntityType []).map Prod.fst
      = newSet ((ms.map declaredType).filter (fun t => t ≠ "__proto__")) := by
  induction ms using List.reverseRecOn with
  | nil => rfl
  | append_singleton ms m ih =>
    rw [List.foldl_append, List.foldl_cons, List.foldl_nil]
    have hstep : ∀ t : List (String × EntitySchema), registerEntityType t m
        = setEntry t ((m.group 1).getD "") ⟨(m.group 2).getD "", [], []⟩ := fun _ => rfl
    rw [hstep, keys_setEntry, ih, List.map_append, List.filter_append, List.map_singleton]
    by_cases hp : declaredType m = "__proto__"
    · have hp' : (m.group 1).getD "" = "__proto__" := hp
      rw [if_pos hp']
      simp [List.filter_cons, hp]
    · have hp' : ¬ (m.group 1).getD "" = "__proto__" := hp
      rw [if_neg hp']
      have hf : [declaredType m].filter (fun t => t ≠ "__proto__") = [declaredType m] := by
        simp [List.filter_cons, hp]
      rw [hf, newSet_concat]
      rfl

/-- What holds of C23: the keys of the table are the type names of the matches
of the declaration expression, each once, in order of first occurrence, but
for `__proto__`. -/
theorem parseEntitySchema_keys (schemaContent : String) :
    (parseEntitySchema schemaContent).map Prod.fst
      = newSet (((matchAll entitySchemaRegex schemaContent).map declaredType).filter
          (fun t => t ≠ "__proto__")) := by
  unfold parseEntitySchema
  rw [keys_foldl_attachProperties, keys_foldl_registerEntityType]

theorem foldl_registerEntityType_entries (ms : List RegexMatch) :
    ∀ entityTypes : List (String × EntitySchema),
      (∀ e ∈ entityTypes, (e.2.required = [] ∧ e.2.optional = [])
        ∧ ∃ m ∈ ms, declaredType m = e.1 ∧ e.2.uniqueProperty = (m.group 2).getD "") →
      ∀ done : List RegexMatch, (∀ m ∈ done, m ∈ ms) →
      ∀ e ∈ done.foldl registerEntityType entityTypes,
        (e.2.required = [] ∧ e.2.optional = [])
        ∧ ∃ m ∈ ms, declaredType m = e.1 ∧ e.2.uniqueProperty = (m.group 2).getD "" := by
  intro entityTypes h done
  induction done generalizing entityTypes with
  | nil => intro _ e he; exact h e he
  | cons m done ih =>
    intro hsub e he
    rw [List.foldl_cons] at he
    refine ih (registerEntityType entityTypes m) ?_
      (fun m' hm' => hsub m' (List.mem_cons_of_mem _ hm')) e he
    intro e' he'
    rcases mem_setEntry _ _ _ _ he' with h₁ | ⟨hk, hv⟩
    · exact h e' h₁
    · rw [hv]
      exact ⟨⟨rfl, rfl⟩, m, hsub m (List.mem_cons_self _ _), hk.symm, rfl⟩

theorem foldl_attachProperties_entries (blocks : List RegexMatch)
    (P : String × EntitySchema → Prop)
    (hP : ∀ e e' : String × EntitySchema, e.1 = e'.1 →
      e.2.uniqueProperty = e'.2.uniqueProperty → P e → P e') :
    ∀ done : List RegexMatch, (∀ m ∈ done, m ∈ blocks) →
    ∀ entityTypes : List (String × EntitySchema),
      (∀ e ∈ entityTypes, P e ∧ ((e.2.required = [] ∧ e.2.optional = [])
        ∨ ∃ m ∈ blocks, declaredType m = e.1 ∧ e.2.required = blockRequired m
            ∧ e.2.optional = blockOptional m)) →
      ∀ e ∈ done.foldl attachProperties entityTypes,
        P e ∧ ((e.2.required = [] ∧ e.2.optional = [])
        ∨ ∃ m ∈ blocks, declaredType m = e.1 ∧ e.2.required = blockRequired m
            ∧ e.2.optional = blockOptional m) := by
  intro done
  induction done with
  | nil => intro _ entityTypes h e he; exact h e he
  | cons m done ih =>
    intro hsub entityTypes h e he
    rw [List.foldl_cons] at he
    refine ih (fun m' hm' => hsub m' (List.mem_cons_of_mem _ hm'))
      (attachProperties entityTypes m) ?_ e he
    intro e' he'
    unfold attachProperties at he'
    simp only at he'
    split at he'
    · obtain ⟨e₀, he₀, hee⟩ := List.mem_map.mp he'
      split at hee
      · rename_i hk
        rw [← hee]
        exact ⟨hP e₀ _ rfl rfl (h e₀ he₀).1,
          Or.inr ⟨m, hsub m (List.mem_cons_self _ _), hk.symm, rfl, rfl⟩⟩
      · rw [← hee]; exact h e₀ he₀
    · exact h e' he'

/-- What holds of C23: every entry of the table carries the unique property of
a declaration of its type, and its lists are empty or those of a
`Properties for T` block of its type. -/
theorem parseEntitySchema_entries (schemaContent : String) :
    ∀ e ∈ parseEntitySchema schemaContent,
      (∃ m ∈ matchAll entitySchemaRegex schemaContent,
        declaredType m = e.1 ∧ e.2.uniqueProperty = (m.group 2).getD "")
      ∧ ((e.2.required = [] ∧ e.2.optional = [])
        ∨ ∃ m ∈ matchAll propertySchemaRegex schemaContent,
            declaredType m = e.1 ∧ e.2.required = blockRequired m
              ∧ e.2.optional = blockOptional m) := by
  unfold parseEntitySchema
  refine foldl_attachProperties_entries (matchAll propertySchemaRegex schemaContent)
    (fun e => ∃ m ∈ matchAll entitySchemaRegex schemaContent,
      declaredType m = e.1 ∧ e.2.uniqueProperty = (m.group 2).getD "")
    ?_ _ (fun _ h => h) _ ?_
  · rintro e e' h₁ h₂ ⟨m, hm, hk, hu⟩
    exact ⟨m, hm, by rw [hk, h₁], by rw [← h₂, hu]⟩
  · intro e he
    have := foldl_registerEntityType_entries (matchAll entitySchemaRegex schemaContent) []
      (by simp) _ (fun _ h => h) e he
    exact ⟨this.2, Or.inl this.1⟩

/-- C22, amended: when no `Properties for T` block of the schema text writes a
name in both its Required and its Optional list, every entry of the table
`parseEntitySchema` returns satisfies the invariant; the parser stores the two
lists as written. -/
theorem schema_invariant_of_disjoint_blocks (schemaContent : String)
    (hblocks : ∀ m ∈ matchAll propertySchemaRegex schemaContent,
      ∀ p ∈ blockRequired m, p ∉ blockOptional m) :
    ∀ e ∈ parseEntitySchema schemaContent, SchemaInvariant e.2 := by
  intro e he p hp
  rcases (parseEntitySchema_entries schemaContent e he).2 with ⟨hr, _⟩ | ⟨m, hm, _, hr, ho⟩
  · rw [hr] at hp
    simp at hp
  · rw [hr] at hp
    rw [ho]
    exact hblocks m hm p hp

/-- Witness for `schema_invariant_of_disjoint_blocks`: a Paper schema with
required `id`, `title` and optional `year`, `doi`, and its entry. -/
theorem schema_invariant_of_disjoint_blocks_witness :
    (("Paper", ⟨"id", ["id", "title"], ["year", "doi"]⟩) : String × EntitySchema)
        ∈ parseEntitySchema
          ("CREATE CONSTRAINT paper_id FOR (n:Paper) REQUIRE n.id IS UNIQUE\n"
            ++ "// Properties for Paper:\n// Required: id, title\n// Optional: year, doi")
    ∧ SchemaInvariant (⟨"id", ["id", "title"], ["year", "doi"]⟩ : EntitySchema) :=
  ⟨by set_option maxRecDepth 100000 in decide,
    schema_invariant_of_disjoint_blocks
      ("CREATE CONSTRAINT paper_id FOR (n:Paper) REQUIRE n.id IS UNIQUE\n"
        ++ "// Properties for Paper:\n// Required: id, title\n// Optional: year, doi")
      (by set_option maxRecDepth 100000 in decide)
      ("Paper", ⟨"id", ["id", "title"], ["year", "doi"]⟩)
      (by set_option maxRecDepth 100000 in decide)⟩


/-! ## `validateRelationships` -/

theorem relationship_body_length (rel : ExtractedRelationship) :
    ((if rel.sourceVariable ≠ rel.actualSourceVar then
        ["Source variable mismatch: " ++ rel.sourceVariable ++ " vs " ++ rel.actualSourceVar]
      else [])
    ++ (if rel.targetVariable ≠ rel.actualTargetVar then
        ["Target variable mismatch: " ++ rel.targetVariable ++ " vs " ++ rel.actualTargetVar]
      else [])
    ++ (if !decide (rel.relationType ∈ validTypes) then
        ["Non-standard relationship type: " ++ rel.relationType]
      else [])).length = violations rel := by
  unfold violations
  by_cases h₁ : rel.sourceVariable = rel.actualSourceVar
    <;> by_cases h₂ : rel.targetVariable = rel.actualTargetVar
    <;> by_cases h₃ : rel.relationType ∈ validTypes
    <;> simp [h₁, h₂, h₃]

theorem validateRelationships_length (relationships : List ExtractedRelationship) :
    (validateRelationships relationships).length = (relationships.map violations).sum := by
  induction relationships with
  | nil => rfl
  | cons rel rest ih =>
    unfold validateRelationships at ih ⊢
    rw [List.flatMap_cons, List.length_append, ih, relationship_body_length, List.map_cons,
      List.sum_cons]

theorem violations_eq_zero_iff (rel : ExtractedRelationship) :
    violations rel = 0 ↔
      rel.sourceVariable = rel.actualSourceVar ∧ rel.targetVariable = rel.actualTargetVar
        ∧ rel.relationType ∈ validTypes := by
  unfold violations
  by_cases h₁ : rel.sourceVariable = rel.actualSourceVar
    <;> by_cases h₂ : rel.targetVariable = rel.actualTargetVar
    <;> by_cases h₃ : rel.relationType ∈ validTypes
    <;> simp [h₁, h₂, h₃]

/-- C27: for every list of extracted relationship records,
`validateRelationships` returns an empty error list exactly when every record's
matched source variable equals the source variable of its CREATE clause, its
matched target variable equals the target variable of its CREATE clause, and
its label is one of the 22 standard labels; the number of errors is the number
of violated conditions, summed over the records. -/
theorem relationship_errors_one_per_violation (relationships : List ExtractedRelationship) :
    (validateRelationships relationships = [] ↔
      ∀ rel ∈ relationships,
        rel.sourceVariable = rel.actualSourceVar ∧ rel.targetVariable = rel.actualTargetVar
          ∧ rel.relationType ∈ validTypes)
    ∧ (validateRelationships relationships).length = (relationships.map violations).sum
    ∧ validTypes.length = 22 := by
  refine ⟨?_, validateRelationships_length relationships, rfl⟩
  rw [← List.length_eq_zero, validateRelationships_length]
  constructor
  · intro h rel hrel
    rw [← violations_eq_zero_iff]
    have hle : violations rel ≤ (relationships.map violations).sum :=
      List.single_le_sum (fun _ _ => Nat.zero_le _) _ (List.mem_map.mpr ⟨rel, hrel, rfl⟩)
    omega
  · intro h
    apply List.sum_eq_zero
    intro n hn
    obtain ⟨rel, hrel, hv⟩ := List.mem_map.mp hn
    rw [← hv]
    exact (violations_eq_zero_iff rel).mpr (h rel hrel)



/-! ## `validateSingleEntity` -/

/-- For a schema argument that is absent or an entry of the table,
`validateSingleEntity` accumulates: on a content it does not take for a
template and from which a property is extracted, no check throws, the errors
list is the concatenation of the naming-convention errors, the property errors,
the Symbol-specific errors and the relationship errors, and `valid` is true
exactly when that list is empty. -/
theorem validateSingleEntity_of_schema (content entityType : String)
    (entitySchema : Option EntitySchema)
    (htemplate : includes content "[ENTITY_NAME]" = false
      ∧ includes content "[PLACEHOLDER]" = false)
    (hfound : extractEntityProperties content entityType ≠ []) :
    (validateSingleEntity content entityType (SchemaValue.ofOption entitySchema)).errors
      = some (validateNamingConventions (extractEntityProperties content entityType) entityType
          ++ validatePropertyValues (extractEntityProperties content entityType) entityType
            entitySchema
          ++ (if entityType = "Symbol" then
              validateMathSymbols (extractEntityProperties content entityType) else [])
          ++ validateRelationships (extractRelationships content))
    ∧ ((validateSingleEntity content entityType (SchemaValue.ofOption entitySchema)).valid
        = true ↔
      validateNamingConventions (extractEntityProperties content entityType) entityType
          ++ validatePropertyValues (extractEntityProperties content entityType) entityType
            entitySchema
          ++ (if entityType = "Symbol" then
              validateMathSymbols (extractEntityProperties content entityType) else [])
          ++ validateRelationships (extractRelationships content) = []) := by
  have hlen : ¬ (extractEntityProperties content entityType).length = 0 := by
    intro h
    exact hfound (List.length_eq_zero.mp h)
  have hcall : validatePropertyValuesOf (extractEntityProperties content entityType) entityType
      (SchemaValue.ofOption entitySchema)
      = Except.ok (validatePropertyValues (extractEntityProperties content entityType)
          entityType entitySchema) := by
    cases entitySchema <;> rfl
  unfold validateSingleEntity
  rw [htemplate.1, htemplate.2]
  simp only [Bool.or_self, Bool.false_eq_true, if_false, hlen, hcall, List.isEmpty_iff,
    true_and]

/-- With an inherited member as schema argument, `validateSingleEntity` returns
the caught `TypeError` as its only error, whatever the checks would report, on
every content it does not take for a template and from which a property is
extracted. -/
theorem validateSingleEntity_of_inherited (content entityType : String)
    (htemplate : includes content "[ENTITY_NAME]" = false
      ∧ includes content "[PLACEHOLDER]" = false)
    (hfound : extractEntityProperties content entityType ≠ []) :
    validateSingleEntity content entityType SchemaValue.inherited
      = ⟨false, none, none,
          some ["Error processing file: "
            ++ "Cannot read properties of undefined (reading \x27includes\x27)"], none⟩ := by
  have hlen : ¬ (extractEntityProperties content entityType).length = 0 := by
    intro h
    exact hfound (List.length_eq_zero.mp h)
  have hempty : (extractEntityProperties content entityType).isEmpty = false := by
    cases h : extractEntityProperties content entityType with
    | nil => exact absurd h hfound
    | cons _ _ => rfl
  unfold validateSingleEntity
  rw [htemplate.1, htemplate.2]
  simp only [Bool.or_self, Bool.false_eq_true, if_false, hlen, validatePropertyValuesOf,
    hempty]

/-- C25 fails for the entity type `constructor`: the schema table has no entry
of that name, `entitySchema['constructor']` is the inherited function, and
`validatePropertyValues` throws on the first property. For the file
`CREATE (c:constructor {id: "lee", year: "20A4"})` `validateEntities` gets
`valid: false` with the single error `Error processing file: ...`, not the
year-format error the property check reports when the schema is absent. -/
theorem inherited_schema_fails_fast :
    validateEntities [("Paper", ⟨"id", ["id", "title"], ["year"]⟩)]
        ["CREATE (c:constructor \x7bid: \"lee\", year: \"20A4\"\x7d)"] "constructor"
      = [⟨false, none, none,
          some ["Error processing file: "
            ++ "Cannot read properties of undefined (reading \x27includes\x27)"], none⟩]
    ∧ validateSingleEntity "CREATE (c:constructor \x7bid: \"lee\", year: \"20A4\"\x7d)"
        "constructor" SchemaValue.absent
      = ⟨false, some [("id", "\"lee\""), ("year", "\"20A4\"")], some [],
          some ["Year should be a 4-digit number: \"20A4\""], none⟩ := by
  set_option maxRecDepth 100000 in decide

/-- The errors of a Paper file with a misformed id and year and a relationship
of a non-standard type, in the order of the checks. -/
theorem single_entity_errors_example :
    validateSingleEntity
        ("CREATE (p:Paper \x7bid: \"lee\", year: \"20A4\"\x7d)\n"
          ++ "MATCH (p:Paper \x7bid: \"lee\"\x7d)\n"
          ++ "MATCH (q:Paper \x7bid: \"Kim2019\"\x7d)\n"
          ++ "CREATE (p)-[:QUOTES \x7b\x7d]->(q)") "Paper" SchemaValue.absent
      = ⟨false, some [("id", "\"lee\""), ("year", "\"20A4\"")],
          some [⟨"p", "Paper", "q", "Paper", "p", "QUOTES", "", "q"⟩],
          some ["Paper ID should follow format \x27Author1234\x27: \"lee\"",
            "Year should be a 4-digit number: \"20A4\"",
            "Non-standard relationship type: QUOTES"], none⟩ := by
  set_option maxRecDepth 100000 in decide


end KnowledgeExtraction
